import Mathlib

/-!
# TileCachedRecastMeshManager

A shallow embedding of `components/detournavigator/tilecachedrecastmeshmanager.cpp`
and the properties of its tile indexing and revision bookkeeping.

Conventions of the embedding.

* The tile registry `mTiles` is a `std::map<TilePosition, std::shared_ptr<CachedRecastMeshManager>>`.
  It is a list of key/value pairs traversed front to back; `find` returns the first
  binding of a key, `insert` puts a new key at its place in the key order and
  `erase` drops the bindings of a key (a `std::map` holds at most one).
  A tile is mutated through its shared pointer; here the mutated tile is written
  back under its key (`tilesAssign`).
* `mObjectsTilesPositions` and `mWaterTilesPositions` are only ever looked up by key,
  so they are functions from keys to optional lists.
* `mRevision` and `mTilesGeneration` are `std::size_t` counters that only step by one;
  they are natural numbers here (a wrap-around would need `2 ^ 64` effective calls).
* The per-tile cache (`CachedRecastMeshManager`), the grid-intersection query
  (`getTilesPositions`) and the opaque geometry types are not part of this
  translation unit; they are the fields of `Collaborators`, over which every
  definition is parameterised.
-/

namespace DetourNavigator

/-- Grid coordinate of a tile (`TilePosition`, an `osg::Vec2i`). -/
structure TilePosition where
  x : Int
  y : Int
deriving DecidableEq, Repr

/-- The order used by `std::sort` and by the registry: `x` first, then `y`. -/
def TilePosition.lt (a b : TilePosition) : Prop :=
  a.x < b.x ∨ (a.x = b.x ∧ a.y < b.y)

instance : LT TilePosition := ⟨TilePosition.lt⟩

instance (a b : TilePosition) : Decidable (a < b) :=
  inferInstanceAs (Decidable (a.x < b.x ∨ (a.x = b.x ∧ a.y < b.y)))

/-- Non-strict companion of the order: `a ≤ b` when `b` is not before `a`. -/
def TilePosition.le (a b : TilePosition) : Prop :=
  a.x < b.x ∨ (a.x = b.x ∧ a.y ≤ b.y)

instance : LE TilePosition := ⟨TilePosition.le⟩

instance (a b : TilePosition) : Decidable (a ≤ b) :=
  inferInstanceAs (Decidable (a.x < b.x ∨ (a.x = b.x ∧ a.y ≤ b.y)))

/-- Caller-assigned object identifier (`ObjectId`), an opaque token. -/
abbrev ObjectId := Nat

/-- Opaque token for a `CollisionShape`. -/
abbrev Shape := Nat

/-- Opaque token for a `btTransform`. -/
abbrev Transform := Nat

/-- Opaque tag `AreaType`. -/
abbrev AreaType := Nat

/-- Water cell coordinate (`osg::Vec2i cellPosition`). -/
abbrev CellPosition := Int × Int

/-- Version stamp passed to `reportNavMeshChange`. -/
abbrev Version := Nat

/-- The sentinel cell size, `std::numeric_limits<int>::max()`. -/
def intMax : Int := 2147483647

/-- Summary of a removed object (`RemovedRecastMeshObject`). -/
structure RemovedRecastMeshObject where
  mShape : Shape
  mTransform : Transform
deriving DecidableEq, Repr

/-- Summary of a removed water cell (`RecastMeshManager::Water`). -/
structure Water where
  mCellSize : Int
  mTransform : Transform
deriving DecidableEq, Repr

/-- What the manager takes from outside this translation unit: the per-tile cache
`CachedRecastMeshManager` with the member functions the manager calls, and the two
overloads of `getTilesPositions` (settings already applied), each given as the
sequence of positions it passes to its callback. -/
structure Collaborators where
  /-- State of one `CachedRecastMeshManager`. -/
  Tile : Type
  /-- Handle returned by the tile's `getMesh`. -/
  Mesh : Type
  /-- Call `getTilesPositions(shape.getShape(), transform, mSettings, callback)`. -/
  shapeTiles : Shape → Transform → List TilePosition
  /-- Call `getTilesPositions(cellSize, transform, mSettings, callback)`. -/
  waterTiles : Int → Transform → List TilePosition
  /-- Constructor `CachedRecastMeshManager(mSettings, tileBounds, mTilesGeneration)`;
  the bounds are a function of the settings and the position. -/
  makeTile : TilePosition → Nat → Tile
  /-- Member `addObject(id, shape, transform, areaType)`. -/
  tileAddObject : Tile → ObjectId → Shape → Transform → AreaType → Bool × Tile
  /-- Member `updateObject(id, transform, areaType)`. -/
  tileUpdateObject : Tile → ObjectId → Transform → AreaType → Bool × Tile
  /-- Member `removeObject(id)`. -/
  tileRemoveObject : Tile → ObjectId → Option RemovedRecastMeshObject × Tile
  /-- Member `addWater(cellPosition, cellSize, transform)`. -/
  tileAddWater : Tile → CellPosition → Int → Transform → Bool × Tile
  /-- Member `removeWater(cellPosition)`. -/
  tileRemoveWater : Tile → CellPosition → Option Water × Tile
  /-- Member `isEmpty()`. -/
  tileIsEmpty : Tile → Bool
  /-- Member `getMesh()`. -/
  tileGetMesh : Tile → Mesh
  /-- Member `reportNavMeshChange(recastMeshVersion, navMeshVersion)`. -/
  tileReportNavMeshChange : Tile → Version → Version → Tile

/-- The registry type `TilesMap`. -/
abbrev TilesMap (D : Collaborators) := List (TilePosition × D.Tile)

/-- Lookup `tiles.find(tilePosition)`: the tile bound to the position, if any. -/
def tilesFind {D : Collaborators} : TilesMap D → TilePosition → Option D.Tile
  | [], _ => none
  | (q, t) :: rest, p => if q = p then some t else tilesFind rest p

/-- Insertion `tiles.insert(std::make_pair(tilePosition, tile))`: a key already
present keeps its tile, a new key goes to its place in the key order. -/
def tilesInsert {D : Collaborators} : TilesMap D → TilePosition → D.Tile → TilesMap D
  | [], p, t => [(p, t)]
  | (q, u) :: rest, p, t =>
    if p < q then (p, t) :: (q, u) :: rest
    else if q = p then (q, u) :: rest
    else (q, u) :: tilesInsert rest p t

/-- Write a tile mutated through its shared pointer back under its key. -/
def tilesAssign {D : Collaborators} : TilesMap D → TilePosition → D.Tile → TilesMap D
  | [], _, _ => []
  | (q, u) :: rest, p, t =>
    if q = p then (q, t) :: rest else (q, u) :: tilesAssign rest p t

/-- Removal `tiles.erase(tile)` of the binding found for the position. -/
def tilesErase {D : Collaborators} (tiles : TilesMap D) (p : TilePosition) : TilesMap D :=
  tiles.filter (fun e => decide (e.1 ≠ p))

/-- Sorting `std::sort(tilesPositions.begin(), tilesPositions.end())`. -/
def sortTiles (l : List TilePosition) : List TilePosition :=
  l.insertionSort (· ≤ ·)

/-- The manager's fields. -/
structure Manager (D : Collaborators) where
  mTiles : TilesMap D
  mObjectsTilesPositions : ObjectId → Option (List TilePosition)
  mWaterTilesPositions : CellPosition → Option (List TilePosition)
  mRevision : Nat
  mTilesGeneration : Nat

/-- A newly constructed manager. -/
def Manager.empty (D : Collaborators) : Manager D :=
  { mTiles := [], mObjectsTilesPositions := fun _ => none,
    mWaterTilesPositions := fun _ => none, mRevision := 0, mTilesGeneration := 0 }

/-- The tile a visit works on in `addTile` and in the finite branch of `addWater`:
the tile found at the position, or the one created there. -/
def tileFor (D : Collaborators) (gen : Nat) (tiles : TilesMap D) (tilePosition : TilePosition) :
    D.Tile :=
  match tilesFind tiles tilePosition with
  | some tile => tile
  | none => D.makeTile tilePosition gen

/-- The positions of a visiting sequence that were accepted, in visiting order;
`accept pre p` tells whether the visit of `p` that follows the visits of `pre` was
accepted. The first argument is the part already visited. -/
def visitsAccepted (accept : List TilePosition → TilePosition → Bool) :
    List TilePosition → List TilePosition → List TilePosition
  | _, [] => []
  | pre, p :: rest =>
    (if accept pre p then [p] else []) ++ visitsAccepted accept (pre ++ [p]) rest

/-- The private `addTile`: find or create the tile, then add the object to it. -/
def addTile (D : Collaborators) (gen : Nat) (id : ObjectId) (shape : Shape)
    (transform : Transform) (areaType : AreaType) (tilePosition : TilePosition)
    (tiles : TilesMap D) : Bool × TilesMap D :=
  match tilesFind tiles tilePosition with
  | some tile =>
    let r := D.tileAddObject tile id shape transform areaType
    (r.1, tilesAssign tiles tilePosition r.2)
  | none =>
    let r := D.tileAddObject (D.makeTile tilePosition gen) id shape transform areaType
    (r.1, tilesInsert tiles tilePosition r.2)

/-- The callback `addObject` hands to `getTilesPositions`: the state is the
registry and the vector `tilesPositions`. -/
def addObjectStep (D : Collaborators) (gen : Nat) (id : ObjectId) (shape : Shape)
    (transform : Transform) (areaType : AreaType)
    (st : TilesMap D × List TilePosition) (tilePosition : TilePosition) :
    TilesMap D × List TilePosition :=
  let r := addTile D gen id shape transform areaType tilePosition st.1
  (r.2, if r.1 then st.2 ++ [tilePosition] else st.2)

/-- Public `addObject`. -/
def addObject (D : Collaborators) (m : Manager D) (id : ObjectId) (shape : Shape)
    (transform : Transform) (areaType : AreaType) : Bool × Manager D :=
  let r := (D.shapeTiles shape transform).foldl
    (addObjectStep D m.mTilesGeneration id shape transform areaType) (m.mTiles, [])
  if r.2.isEmpty then
    (false, { m with mTiles := r.1 })
  else
    (true, { m with
      mTiles := r.1
      mObjectsTilesPositions := Function.update m.mObjectsTilesPositions id (some (sortTiles r.2))
      mRevision := m.mRevision + 1 })

/-- Loop state of `removeObject` and `removeWater`: the registry, `mTilesGeneration`
and the local `result`. -/
structure Sweep (D : Collaborators) (R : Type) where
  tiles : TilesMap D
  generation : Nat
  result : Option R

/-- The private `removeTile`, on the registry and `mTilesGeneration`. -/
def removeTile (D : Collaborators) (id : ObjectId) (tilePosition : TilePosition)
    (st : TilesMap D × Nat) : Option RemovedRecastMeshObject × (TilesMap D × Nat) :=
  match tilesFind st.1 tilePosition with
  | none => (none, st)
  | some tile =>
    let r := D.tileRemoveObject tile id
    if D.tileIsEmpty r.2 then (r.1, (tilesErase st.1 tilePosition, st.2 + 1))
    else (r.1, (tilesAssign st.1 tilePosition r.2, st.2))

/-- Body of the loop of `removeObject`. -/
def removeObjectStep (D : Collaborators) (id : ObjectId)
    (st : Sweep D RemovedRecastMeshObject) (tilePosition : TilePosition) :
    Sweep D RemovedRecastMeshObject :=
  let r := removeTile D id tilePosition (st.tiles, st.generation)
  { tiles := r.2.1
    generation := r.2.2
    result := if r.1.isSome && !st.result.isSome then r.1 else st.result }

/-- Public `removeObject`. -/
def removeObject (D : Collaborators) (m : Manager D) (id : ObjectId) :
    Option RemovedRecastMeshObject × Manager D :=
  match m.mObjectsTilesPositions id with
  | none => (none, m)
  | some positions =>
    let r := positions.foldl (removeObjectStep D id)
      { tiles := m.mTiles, generation := m.mTilesGeneration, result := none }
    (r.result, { m with
      mTiles := r.tiles
      mTilesGeneration := r.generation
      mRevision := if r.result.isSome then m.mRevision + 1 else m.mRevision })

/-- Loop state of `addWater`: the registry, the vector `tilesPositions` (the entry of
`mWaterTilesPositions` for the cell) and the local `result`. -/
structure WaterState (D : Collaborators) where
  tiles : TilesMap D
  tilesPositions : List TilePosition
  result : Bool

/-- Sentinel branch of `addWater`: the loop over the registry, offering the water to
every tile in registry order. The arguments are the part of the registry still to
visit and the current `tilesPositions` and `result`; the registry part comes back
with the tiles as the calls left them. -/
def addWaterExisting (D : Collaborators) (cellPosition : CellPosition) (cellSize : Int)
    (transform : Transform) : TilesMap D → List TilePosition → Bool → WaterState D
  | [], tilesPositions, result =>
    { tiles := [], tilesPositions := tilesPositions, result := result }
  | (p, tile) :: rest, tilesPositions, result =>
    let r := D.tileAddWater tile cellPosition cellSize transform
    let s := addWaterExisting D cellPosition cellSize transform rest
      (if r.1 then tilesPositions ++ [p] else tilesPositions) (r.1 || result)
    { tiles := (p, r.2) :: s.tiles, tilesPositions := s.tilesPositions, result := s.result }

/-- Finite branch of `addWater`: the callback handed to `getTilesPositions`. -/
def addWaterStep (D : Collaborators) (gen : Nat) (cellPosition : CellPosition)
    (cellSize : Int) (transform : Transform) (st : WaterState D)
    (tilePosition : TilePosition) : WaterState D :=
  match tilesFind st.tiles tilePosition with
  | some tile =>
    let r := D.tileAddWater tile cellPosition cellSize transform
    { tiles := tilesAssign st.tiles tilePosition r.2
      tilesPositions := if r.1 then st.tilesPositions ++ [tilePosition] else st.tilesPositions
      result := r.1 || st.result }
  | none =>
    let r := D.tileAddWater (D.makeTile tilePosition gen) cellPosition cellSize transform
    { tiles := tilesInsert st.tiles tilePosition r.2
      tilesPositions := if r.1 then st.tilesPositions ++ [tilePosition] else st.tilesPositions
      result := r.1 || st.result }

/-- The loop of `addWater`, in either regime, from the state at entry. -/
def addWaterLoop (D : Collaborators) (m : Manager D) (cellPosition : CellPosition)
    (cellSize : Int) (transform : Transform) : WaterState D :=
  let tilesPositions := (m.mWaterTilesPositions cellPosition).getD []
  if cellSize = intMax then
    addWaterExisting D cellPosition cellSize transform m.mTiles tilesPositions false
  else
    (D.waterTiles cellSize transform).foldl
      (addWaterStep D m.mTilesGeneration cellPosition cellSize transform)
      { tiles := m.mTiles, tilesPositions := tilesPositions, result := false }

/-- Public `addWater`. The subscript `mWaterTilesPositions[cellPosition]` creates the
entry when it is missing, so the cell is a key of the table afterwards. -/
def addWater (D : Collaborators) (m : Manager D) (cellPosition : CellPosition)
    (cellSize : Int) (transform : Transform) : Bool × Manager D :=
  let r := addWaterLoop D m cellPosition cellSize transform
  (r.result, { m with
    mTiles := r.tiles
    mWaterTilesPositions :=
      Function.update m.mWaterTilesPositions cellPosition (some r.tilesPositions)
    mRevision := if r.result then m.mRevision + 1 else m.mRevision })

/-- Body of the loop of `removeWater`. -/
def removeWaterStep (D : Collaborators) (cellPosition : CellPosition)
    (st : Sweep D Water) (tilePosition : TilePosition) : Sweep D Water :=
  match tilesFind st.tiles tilePosition with
  | none => st
  | some tile =>
    let r := D.tileRemoveWater tile cellPosition
    { tiles := if D.tileIsEmpty r.2 then tilesErase st.tiles tilePosition
               else tilesAssign st.tiles tilePosition r.2
      generation := if D.tileIsEmpty r.2 then st.generation + 1 else st.generation
      result := if r.1.isSome && !st.result.isSome then r.1 else st.result }

/-- Public `removeWater`. -/
def removeWater (D : Collaborators) (m : Manager D) (cellPosition : CellPosition) :
    Option Water × Manager D :=
  match m.mWaterTilesPositions cellPosition with
  | none => (none, m)
  | some positions =>
    let r := positions.foldl (removeWaterStep D cellPosition)
      { tiles := m.mTiles, generation := m.mTilesGeneration, result := none }
    (r.result, { m with
      mTiles := r.tiles
      mTilesGeneration := r.generation
      mRevision := if r.result.isSome then m.mRevision + 1 else m.mRevision })

/-- The private `updateTile`. -/
def updateTile (D : Collaborators) (id : ObjectId) (transform : Transform)
    (areaType : AreaType) (tilePosition : TilePosition) (tiles : TilesMap D) :
    Bool × TilesMap D :=
  match tilesFind tiles tilePosition with
  | none => (false, tiles)
  | some tile =>
    let r := D.tileUpdateObject tile id transform areaType
    (r.1, tilesAssign tiles tilePosition r.2)

/-- Public `reportNavMeshChange`. -/
def reportNavMeshChange (D : Collaborators) (m : Manager D) (tilePosition : TilePosition)
    (recastMeshVersion navMeshVersion : Version) : Manager D :=
  match tilesFind m.mTiles tilePosition with
  | none => m
  | some tile =>
    let reported := D.tileReportNavMeshChange tile recastMeshVersion navMeshVersion
    { m with mTiles := tilesAssign m.mTiles tilePosition reported }

/-- Public `getMesh`. -/
def getMesh (D : Collaborators) (m : Manager D) (tilePosition : TilePosition) : Option D.Mesh :=
  match tilesFind m.mTiles tilePosition with
  | none => none
  | some tile => some (D.tileGetMesh tile)

/-- Public `hasTile`. -/
def hasTile (D : Collaborators) (m : Manager D) (tilePosition : TilePosition) : Bool :=
  (tilesFind m.mTiles tilePosition).isSome

/-- Public `getRevision`. -/
def getRevision (D : Collaborators) (m : Manager D) : Nat :=
  m.mRevision

/-- Loop state of the model of `updateObject`: the registry, `mTilesGeneration` and
the positions handed to `onChangedTile` so far. -/
structure UpdateState (D : Collaborators) where
  tiles : TilesMap D
  generation : Nat
  changedTiles : List TilePosition

/-- Modelled from the spec: one position of `updateObject` (see `updateObject`), as
section 4.1 of the specification has it. A position of *new* outside *old* gets the
object through `addTile` and is passed to `onChangedTile`; a position of *old* outside
*new* loses it through `removeTile` and is passed to `onChangedTile`; a position of
both is updated in place through `updateTile` and is not passed to `onChangedTile`. -/
def updateObjectStep (D : Collaborators) (id : ObjectId) (shape : Shape)
    (transform : Transform) (areaType : AreaType) (oldTiles newTiles : List TilePosition)
    (st : UpdateState D) (tilePosition : TilePosition) : UpdateState D :=
  if tilePosition ∈ newTiles then
    if tilePosition ∈ oldTiles then
      let r := updateTile D id transform areaType tilePosition st.tiles
      { tiles := r.2
        generation := st.generation
        changedTiles := st.changedTiles }
    else
      let r := addTile D st.generation id shape transform areaType tilePosition st.tiles
      { tiles := r.2
        generation := st.generation
        changedTiles := st.changedTiles ++ [tilePosition] }
  else
    let r := removeTile D id tilePosition (st.tiles, st.generation)
    { tiles := r.2.1
      generation := r.2.2
      changedTiles := st.changedTiles ++ [tilePosition] }

/-- Whether two lists of positions are different as sets. -/
def tilesDiffer (oldTiles newTiles : List TilePosition) : Bool :=
  !(oldTiles.all (fun p => decide (p ∈ newTiles)) && newTiles.all (fun p => decide (p ∈ oldTiles)))

/-- Modelled from the spec: the public `updateObject`, a member template defined in
`tilecachedrecastmeshmanager.hpp`, which is not among the sources (only its helper
`updateTile` and its tests are). The model follows section 4.1 of the specification:
*old* is the recorded list, *new* the positions of the grid-intersection query;
the positions of *old* and *new* are visited once each in increasing order, those of
*new* outside *old* and of *old* outside *new* are passed to `onChangedTile`, those of
both are updated in place without a callback, *new* is recorded sorted, the result is
true exactly when *old* and *new* differ as sets, and the revision moves by one
exactly then. Section 4.1 says nothing of an id that is not recorded; the model
leaves the manager alone there and returns false.
The third component is the sequence of positions passed to `onChangedTile`.
The repository's test `update_object_for_changed_object_should_return_changed_tiles`
lists six positions for a move by one tile; how the template arrives at them is not
visible in the sources, and the model keeps to section 4.1. -/
def updateObject (D : Collaborators) (m : Manager D) (id : ObjectId) (shape : Shape)
    (transform : Transform) (areaType : AreaType) :
    Bool × Manager D × List TilePosition :=
  match m.mObjectsTilesPositions id with
  | none => (false, m, [])
  | some oldTiles =>
    let newTiles := D.shapeTiles shape transform
    let r := (sortTiles (oldTiles ++ newTiles).dedup).foldl
      (updateObjectStep D id shape transform areaType oldTiles newTiles)
      { tiles := m.mTiles, generation := m.mTilesGeneration, changedTiles := [] }
    let changed := tilesDiffer oldTiles newTiles
    (changed, { m with
      mTiles := r.tiles
      mTilesGeneration := r.generation
      mObjectsTilesPositions :=
        Function.update m.mObjectsTilesPositions id (some (sortTiles newTiles.dedup))
      mRevision := if changed then m.mRevision + 1 else m.mRevision }, r.changedTiles)

/-- Modelled from the spec: the Tile Content Cache (`CachedRecastMeshManager`), whose
source is not among the sources. It holds the objects and the water cells added to
the tile, with the stamp it was created with and the versions last reported. -/
structure SpecTile where
  position : TilePosition
  generation : Nat
  objects : List (ObjectId × Shape × Transform × AreaType)
  water : List (CellPosition × Water)
  reported : Option (Version × Version)
deriving DecidableEq, Repr

/-- Modelled from the spec: the tile's `addObject`; an id the tile already contains is
rejected and the tile is left as it was. -/
def SpecTile.addObject (t : SpecTile) (id : ObjectId) (shape : Shape)
    (transform : Transform) (areaType : AreaType) : Bool × SpecTile :=
  if t.objects.any (fun o => o.1 == id) then (false, t)
  else (true, { t with objects := t.objects ++ [(id, shape, transform, areaType)] })

/-- Modelled from the spec: the tile's `updateObject`; the new transform and area type
replace the stored ones, and the result tells whether that changed what the tile
holds for the id. -/
def SpecTile.updateObject (t : SpecTile) (id : ObjectId) (transform : Transform)
    (areaType : AreaType) : Bool × SpecTile :=
  if t.objects.any (fun o => o.1 == id && !(o.2.2.1 == transform && o.2.2.2 == areaType)) then
    let moved := t.objects.map
      (fun o => if o.1 == id then (o.1, o.2.1, transform, areaType) else o)
    (true, { t with objects := moved })
  else (false, t)

/-- Modelled from the spec: the tile's `removeObject`; the summary of the object
removed, or nothing for an id the tile does not contain. -/
def SpecTile.removeObject (t : SpecTile) (id : ObjectId) :
    Option RemovedRecastMeshObject × SpecTile :=
  match t.objects.find? (fun o => o.1 == id) with
  | none => (none, t)
  | some o =>
    (some { mShape := o.2.1, mTransform := o.2.2.1 },
      { t with objects := t.objects.filter (fun e => !(e.1 == id)) })

/-- Modelled from the spec: the tile's `addWater`; a cell the tile already contains is
rejected. -/
def SpecTile.addWater (t : SpecTile) (cellPosition : CellPosition) (cellSize : Int)
    (transform : Transform) : Bool × SpecTile :=
  if t.water.any (fun w => w.1 == cellPosition) then (false, t)
  else
    let added : Water := { mCellSize := cellSize, mTransform := transform }
    (true, { t with water := t.water ++ [(cellPosition, added)] })

/-- Modelled from the spec: the tile's `removeWater`. -/
def SpecTile.removeWater (t : SpecTile) (cellPosition : CellPosition) :
    Option Water × SpecTile :=
  match t.water.find? (fun w => w.1 == cellPosition) with
  | none => (none, t)
  | some w => (some w.2, { t with water := t.water.filter (fun e => !(e.1 == cellPosition)) })

/-- Modelled from the spec: the tile's `isEmpty`, true when the tile has no remaining
objects and no remaining water. -/
def SpecTile.isEmpty (t : SpecTile) : Bool :=
  t.objects.isEmpty && t.water.isEmpty

/-- Modelled from the spec: the collaborators of the manager, with `SpecTile` for the
per-tile cache and the two grid-intersection queries given as arguments. The mesh
handle of a tile is its content. -/
def specCollaborators (shapeTiles : Shape → Transform → List TilePosition)
    (waterTiles : Int → Transform → List TilePosition) : Collaborators :=
  { Tile := SpecTile
    Mesh := SpecTile
    shapeTiles := shapeTiles
    waterTiles := waterTiles
    makeTile := fun p g =>
      { position := p, generation := g, objects := [], water := [], reported := none }
    tileAddObject := SpecTile.addObject
    tileUpdateObject := SpecTile.updateObject
    tileRemoveObject := SpecTile.removeObject
    tileAddWater := SpecTile.addWater
    tileRemoveWater := SpecTile.removeWater
    tileIsEmpty := SpecTile.isEmpty
    tileGetMesh := fun t => t
    tileReportNavMeshChange := fun t r n => { t with reported := some (r, n) } }

/-- Modelled from the spec: a grid-intersection query for shapes (`getTilesPositions` is
declared in `gettilespositions.hpp`, not among the sources; the spec leaves the
geometry to the collaborator). The coverage is the one the repository's tests observe
for their box: at the identity transform (token `0`) the tiles with `-1 ≤ x ≤ 0` and
`-1 ≤ y ≤ 0`, and one tile width further along `x` (token `1`) the tiles with
`0 ≤ x ≤ 1`; token `t` stands for the translation by `t` tile widths along `x`, and
the positions are visited `x` first. -/
def blockTiles (_shape : Shape) (transform : Transform) : List TilePosition :=
  [⟨(transform : Int) - 1, -1⟩, ⟨(transform : Int) - 1, 0⟩,
   ⟨(transform : Int), -1⟩, ⟨(transform : Int), 0⟩]

/-- Modelled from the spec: a grid-intersection query for water cells (the other overload
of `getTilesPositions`; the spec leaves the geometry to the collaborator). In this
instance a cell of size `c` covers the tiles with `0 ≤ x < c` and `y = 0`. -/
def stripTiles (cellSize : Int) (_transform : Transform) : List TilePosition :=
  (List.range cellSize.toNat).map (fun i => ⟨(i : Int), 0⟩)

/-- The collaborators used to evaluate the manager on concrete calls. -/
def testCollaborators : Collaborators :=
  specCollaborators blockTiles stripTiles

/-- The manager of the repository's tests after `addObject` of the box (id `7`, shape
`0`, area type `0`) at the identity transform (token `0`). -/
def managerWithBox : Manager testCollaborators :=
  (addObject testCollaborators (Manager.empty testCollaborators) 7 0 0 0).2

/-- The manager of the repository's tests after `addObject` of the box translated by
one tile width along `x` (transform token `1`). -/
def managerWithMovedBox : Manager testCollaborators :=
  (addObject testCollaborators (Manager.empty testCollaborators) 7 0 1 0).2

/-- What `removeTile` leaves at the position it works on, given what `find` returned
there: nothing where there was no tile or where the tile reports empty after its
`removeObject`, and otherwise the tile as its `removeObject` left it. -/
def tileAfterRemove (D : Collaborators) (id : ObjectId) : Option D.Tile → Option D.Tile
  | none => none
  | some tile =>
    if D.tileIsEmpty (D.tileRemoveObject tile id).2 then none
    else some (D.tileRemoveObject tile id).2

/-- A call of one of the public member functions defined in
`tilecachedrecastmeshmanager.cpp`, with its arguments. -/
inductive Call where
  | addObject (id : ObjectId) (shape : Shape) (transform : Transform) (areaType : AreaType)
  | removeObject (id : ObjectId)
  | addWater (cellPosition : CellPosition) (cellSize : Int) (transform : Transform)
  | removeWater (cellPosition : CellPosition)
  | getMesh (tilePosition : TilePosition)
  | hasTile (tilePosition : TilePosition)
  | getRevision
  | reportNavMeshChange (tilePosition : TilePosition) (recastMeshVersion navMeshVersion : Version)
deriving DecidableEq, Repr

/-- The manager after a call; `getMesh`, `hasTile` and `getRevision` only read it. -/
def Call.run (D : Collaborators) (m : Manager D) : Call → Manager D
  | .addObject id shape transform areaType =>
    (DetourNavigator.addObject D m id shape transform areaType).2
  | .removeObject id => (DetourNavigator.removeObject D m id).2
  | .addWater cellPosition cellSize transform =>
    (DetourNavigator.addWater D m cellPosition cellSize transform).2
  | .removeWater cellPosition => (DetourNavigator.removeWater D m cellPosition).2
  | .getMesh _ => m
  | .hasTile _ => m
  | .getRevision => m
  | .reportNavMeshChange tilePosition recastMeshVersion navMeshVersion =>
    DetourNavigator.reportNavMeshChange D m tilePosition recastMeshVersion navMeshVersion

/-- The manager after a sequence of calls, made one after the other. -/
def runCalls (D : Collaborators) (m : Manager D) (calls : List Call) : Manager D :=
  calls.foldl (Call.run D) m

/-- What one turn of the loop of `removeWater` leaves at the position it works on, given
what `find` returned there: nothing where there was no tile or where the tile reports
empty after its `removeWater`, and otherwise the tile as its `removeWater` left it. -/
def tileAfterRemoveWater (D : Collaborators) (cellPosition : CellPosition) :
    Option D.Tile → Option D.Tile
  | none => none
  | some tile =>
    if D.tileIsEmpty (D.tileRemoveWater tile cellPosition).2 then none
    else some (D.tileRemoveWater tile cellPosition).2

/-- The manager of the repository's test
`remove_water_for_existing_cell_should_leave_not_empty_tiles` before its `removeWater`:
the box at the identity transform, then water of finite size (here `3`) for cell
`(0, 0)`. -/
def managerWithBoxAndWater : Manager testCollaborators :=
  (addWater testCollaborators managerWithBox (0, 0) 3 0).2

/-- What one turn of the loop of `removeWater` reports for its position: the
`tileResult` of the tile found there, and nothing where there is no tile. -/
def removeWaterResult (D : Collaborators) (cellPosition : CellPosition) (tiles : TilesMap D)
    (tilePosition : TilePosition) : Option Water :=
  match tilesFind tiles tilePosition with
  | none => none
  | some tile => (D.tileRemoveWater tile cellPosition).1

/-- The registry is a map: no position is bound twice. -/
def Manager.keysDistinct {D : Collaborators} (m : Manager D) : Prop :=
  (m.mTiles.map Prod.fst).Nodup

/-- A reading `stamp` of the generation stamp of a tile: the constructor stores the
generation it is given, and no member function of the tile changes it. -/
structure KeepsStamp (D : Collaborators) (stamp : D.Tile → Nat) : Prop where
  makeTile : ∀ p g, stamp (D.makeTile p g) = g
  addObject : ∀ t id shape transform areaType,
    stamp (D.tileAddObject t id shape transform areaType).2 = stamp t
  updateObject : ∀ t id transform areaType,
    stamp (D.tileUpdateObject t id transform areaType).2 = stamp t
  removeObject : ∀ t id, stamp (D.tileRemoveObject t id).2 = stamp t
  addWater : ∀ t cellPosition cellSize transform,
    stamp (D.tileAddWater t cellPosition cellSize transform).2 = stamp t
  removeWater : ∀ t cellPosition, stamp (D.tileRemoveWater t cellPosition).2 = stamp t
  reportNavMeshChange : ∀ t recastMeshVersion navMeshVersion,
    stamp (D.tileReportNavMeshChange t recastMeshVersion navMeshVersion) = stamp t

/-- The stamp of the tile at a position of the registry, if there is a tile. -/
def stampAt {D : Collaborators} (stamp : D.Tile → Nat) (tiles : TilesMap D)
    (tilePosition : TilePosition) : Option Nat :=
  (tilesFind tiles tilePosition).map stamp

/-- What a call that only adds does to the stamp at a position: it keeps it, or it puts
a tile stamped with the current generation where there was none. -/
def AddsStamp {D : Collaborators} (stamp : D.Tile → Nat) (gen : Nat)
    (before after : TilesMap D) : Prop :=
  ∀ p, stampAt stamp after p = stampAt stamp before p ∨
    (stampAt stamp before p = none ∧ stampAt stamp after p = some gen)

/-- What a call that only removes does to the generation and to the stamp at a
position: the generation does not go down, and the stamp at a position is kept,
unless the tile there is gone and the generation has gone up. The arguments are the
registry and `mTilesGeneration` before and after. -/
def RemovesStamp {D : Collaborators} (stamp : D.Tile → Nat)
    (before after : TilesMap D × Nat) : Prop :=
  before.2 ≤ after.2 ∧
  ∀ p, stampAt stamp after.1 p = stampAt stamp before.1 p ∨
    (stampAt stamp after.1 p = none ∧ before.2 < after.2)

/-- What a public call does to the generation and to the stamp at a position: the
generation does not go down; the stamp at a position is kept, or the tile there is
gone and the generation has gone up, or a tile stands where there was none, stamped
with a generation reached during the call. -/
def StampStep {D : Collaborators} (stamp : D.Tile → Nat) (before after : Manager D) : Prop :=
  before.mTilesGeneration ≤ after.mTilesGeneration ∧
  ∀ p, stampAt stamp after.mTiles p = stampAt stamp before.mTiles p ∨
    (stampAt stamp after.mTiles p = none ∧
      before.mTilesGeneration < after.mTilesGeneration) ∨
    (stampAt stamp before.mTiles p = none ∧
      ∃ g, stampAt stamp after.mTiles p = some g ∧
        before.mTilesGeneration ≤ g ∧ g ≤ after.mTilesGeneration)

/-- No tile of the registry carries a stamp greater than the current tiles generation. -/
def StampsBounded {D : Collaborators} (stamp : D.Tile → Nat) (m : Manager D) : Prop :=
  ∀ p g, stampAt stamp m.mTiles p = some g → g ≤ m.mTilesGeneration

/-- A manager operation: a call of a member function defined in
`tilecachedrecastmeshmanager.cpp`, or a call of the member template `updateObject`
(see `updateObject`). -/
inductive Operation where
  | call (c : Call)
  | updateObject (id : ObjectId) (shape : Shape) (transform : Transform) (areaType : AreaType)
deriving DecidableEq, Repr

/-- The manager after an operation. -/
def Operation.run (D : Collaborators) (m : Manager D) : Operation → Manager D
  | .call c => c.run D m
  | .updateObject id shape transform areaType =>
    (DetourNavigator.updateObject D m id shape transform areaType).2.1

/-- The manager after a sequence of operations, made one after the other. -/
def runOperations (D : Collaborators) (m : Manager D) (operations : List Operation) :
    Manager D :=
  operations.foldl (Operation.run D) m

/-- Some object id or some water cell has the position in its recorded list. -/
def Recorded {D : Collaborators} (m : Manager D) (tilePosition : TilePosition) : Prop :=
  (∃ id positions, m.mObjectsTilesPositions id = some positions ∧ tilePosition ∈ positions) ∨
  (∃ cellPosition positions,
    m.mWaterTilesPositions cellPosition = some positions ∧ tilePosition ∈ positions)

/-- The states reached from a newly constructed manager by calls of `addObject` for ids
that are not yet keys of the object membership table and by calls of `removeObject`,
`addWater` and `removeWater`. -/
inductive ReachedWithNewIds (D : Collaborators) : Manager D → Prop where
  | empty : ReachedWithNewIds D (Manager.empty D)
  | addObject {m : Manager D} (id : ObjectId) (shape : Shape) (transform : Transform)
      (areaType : AreaType) :
      ReachedWithNewIds D m → m.mObjectsTilesPositions id = none →
      ReachedWithNewIds D (DetourNavigator.addObject D m id shape transform areaType).2
  | removeObject {m : Manager D} (id : ObjectId) :
      ReachedWithNewIds D m → ReachedWithNewIds D (DetourNavigator.removeObject D m id).2
  | addWater {m : Manager D} (cellPosition : CellPosition) (cellSize : Int)
      (transform : Transform) :
      ReachedWithNewIds D m →
      ReachedWithNewIds D (DetourNavigator.addWater D m cellPosition cellSize transform).2
  | removeWater {m : Manager D} (cellPosition : CellPosition) :
      ReachedWithNewIds D m →
      ReachedWithNewIds D (DetourNavigator.removeWater D m cellPosition).2

/-- The states reached from a newly constructed manager by calls of `addObject` for ids
that are not yet keys of the object membership table and by calls of `addWater`,
with no call of `removeObject` or `removeWater`. -/
inductive ReachedByAdding (D : Collaborators) : Manager D → Prop where
  | empty : ReachedByAdding D (Manager.empty D)
  | addObject {m : Manager D} (id : ObjectId) (shape : Shape) (transform : Transform)
      (areaType : AreaType) :
      ReachedByAdding D m → m.mObjectsTilesPositions id = none →
      ReachedByAdding D (DetourNavigator.addObject D m id shape transform areaType).2
  | addWater {m : Manager D} (cellPosition : CellPosition) (cellSize : Int)
      (transform : Transform) :
      ReachedByAdding D m →
      ReachedByAdding D (DetourNavigator.addWater D m cellPosition cellSize transform).2

end DetourNavigator

/-!
# Repair

The integer part of `MWMechanics::Repair::repair` (`apps/openmw/mwmechanics/repair.cpp`):
the repair amount and the new charge of the item. The floating-point computations
around it (the success test `roll <= x` and the product cast to `int`) enter as their
results.
-/

namespace MWMechanics

/-- The value an `int` computation yields, wrapped to 32 bits. -/
def wrapInt (z : Int) : Int :=
  (z + 2147483648) % 4294967296 - 2147483648

/-- The repair amount `y`: `static_cast<int>(fRepairAmountMult * toolQuality * roll)`
followed by `y = std::max(1, y)`. The argument is the value of the cast. -/
def repairAmount (rawAmount : Int) : Int :=
  max 1 rawAmount

/-- The new charge, `charge = std::min(charge + y, getItemMaxHealth(itemToRepair))`,
where `charge` was read with `getItemHealth(itemToRepair)`. -/
def repairedCharge (charge y maxHealth : Int) : Int :=
  min (wrapInt (charge + y)) maxHealth

/-- What `Repair::repair` does to the charge of the item. `rollSucceeds` is the outcome
of the test `roll <= x`; on a failed roll the charge is not written. -/
def Repair.repair (rollSucceeds : Bool) (rawAmount charge maxHealth : Int) : Int :=
  if rollSucceeds then repairedCharge charge (repairAmount rawAmount) maxHealth else charge

end MWMechanics

namespace DetourNavigator

/-- What `removeObject` leaves at a position it has visited: no tile, or a tile that
comes out of the tile's own `removeObject` and does not report empty. -/
def LeftByRemove (D : Collaborators) (id : ObjectId) (tiles : TilesMap D)
    (tilePosition : TilePosition) : Prop :=
  tilesFind tiles tilePosition = none ∨
  ∃ t, tilesFind tiles tilePosition = some (D.tileRemoveObject t id).2 ∧
    D.tileIsEmpty (D.tileRemoveObject t id).2 = false

/-- No tile of the registry reports empty. -/
def NoEmptyTile (D : Collaborators) (tiles : TilesMap D) : Prop :=
  ∀ e ∈ tiles, D.tileIsEmpty e.2 = false

/-- What is assumed of the tiles about emptiness and adding: a tile just constructed
accepts the first object and the first water cell offered to it, a tile that accepted
an object or a water cell does not report empty, and a tile that does not report empty
still does not after an `addObject` or `addWater`, accepted or not. -/
structure FillsOnAdd (D : Collaborators) : Prop where
  freshObject : ∀ p g id shape transform areaType,
    (D.tileAddObject (D.makeTile p g) id shape transform areaType).1 = true
  freshWater : ∀ p g cellPosition cellSize transform,
    (D.tileAddWater (D.makeTile p g) cellPosition cellSize transform).1 = true
  acceptedObject : ∀ t id shape transform areaType,
    (D.tileAddObject t id shape transform areaType).1 = true →
      D.tileIsEmpty (D.tileAddObject t id shape transform areaType).2 = false
  acceptedWater : ∀ t cellPosition cellSize transform,
    (D.tileAddWater t cellPosition cellSize transform).1 = true →
      D.tileIsEmpty (D.tileAddWater t cellPosition cellSize transform).2 = false
  keptObject : ∀ t id shape transform areaType, D.tileIsEmpty t = false →
    D.tileIsEmpty (D.tileAddObject t id shape transform areaType).2 = false
  keptWater : ∀ t cellPosition cellSize transform, D.tileIsEmpty t = false →
    D.tileIsEmpty (D.tileAddWater t cellPosition cellSize transform).2 = false

/-- The calls that add or remove geometry: `addObject`, `removeObject`, `addWater` and
`removeWater`. -/
def Call.isAddOrRemove : Call → Bool
  | .addObject _ _ _ _ => true
  | .removeObject _ => true
  | .addWater _ _ _ => true
  | .removeWater _ => true
  | _ => false

/-- The subscript `mWaterTilesPositions[cellPosition]` alone: the entry of the cell is
created, with no position, when it is missing; an entry already there is kept. -/
def Manager.withWaterEntry {D : Collaborators} (m : Manager D) (cellPosition : CellPosition) :
    Manager D :=
  let entry := (m.mWaterTilesPositions cellPosition).getD []
  { m with mWaterTilesPositions := Function.update m.mWaterTilesPositions cellPosition (some entry) }

/-- What is assumed of the tiles about calls they refuse: a tile just constructed accepts
the first object and the first water cell offered to it, a tile that rejects an
`addObject` or `addWater` stays as it was, and so does a tile whose `removeObject` or
`removeWater` returns nothing. -/
structure RefusesQuietly (D : Collaborators) : Prop where
  freshObject : ∀ p g id shape transform areaType,
    (D.tileAddObject (D.makeTile p g) id shape transform areaType).1 = true
  freshWater : ∀ p g cellPosition cellSize transform,
    (D.tileAddWater (D.makeTile p g) cellPosition cellSize transform).1 = true
  rejectedObject : ∀ t id shape transform areaType,
    (D.tileAddObject t id shape transform areaType).1 = false →
      (D.tileAddObject t id shape transform areaType).2 = t
  rejectedWater : ∀ t cellPosition cellSize transform,
    (D.tileAddWater t cellPosition cellSize transform).1 = false →
      (D.tileAddWater t cellPosition cellSize transform).2 = t
  missedObject : ∀ t id, (D.tileRemoveObject t id).1 = none → (D.tileRemoveObject t id).2 = t
  missedWater : ∀ t cellPosition,
    (D.tileRemoveWater t cellPosition).1 = none → (D.tileRemoveWater t cellPosition).2 = t

/-- What is assumed of the tiles when the content of a tile matters: a tile is a set of
object ids and a set of water cells. `holdsObject` and `holdsWater` read the two sets
off a tile; a tile just constructed holds nothing, a tile accepts an object or a water
cell exactly when it does not hold it and holds it afterwards, a rejected `addObject`
leaves the tile as it was, a removal takes the id or the cell out of the set and
nothing else, and a tile reports empty exactly when both sets are empty. -/
structure TileContents (D : Collaborators) (holdsObject : D.Tile → ObjectId → Bool)
    (holdsWater : D.Tile → CellPosition → Bool) : Prop where
  makeTile_object : ∀ p g id, holdsObject (D.makeTile p g) id = false
  makeTile_water : ∀ p g cellPosition, holdsWater (D.makeTile p g) cellPosition = false
  addObject_result : ∀ t id shape transform areaType,
    (D.tileAddObject t id shape transform areaType).1 = !holdsObject t id
  addObject_rejected : ∀ t id shape transform areaType,
    (D.tileAddObject t id shape transform areaType).1 = false →
      (D.tileAddObject t id shape transform areaType).2 = t
  addObject_object : ∀ t id shape transform areaType other,
    holdsObject (D.tileAddObject t id shape transform areaType).2 other = true ↔
      holdsObject t other = true ∨ other = id
  addObject_water : ∀ t id shape transform areaType cellPosition,
    holdsWater (D.tileAddObject t id shape transform areaType).2 cellPosition =
      holdsWater t cellPosition
  removeObject_object : ∀ t id other,
    holdsObject (D.tileRemoveObject t id).2 other = true ↔
      holdsObject t other = true ∧ other ≠ id
  removeObject_water : ∀ t id cellPosition,
    holdsWater (D.tileRemoveObject t id).2 cellPosition = holdsWater t cellPosition
  addWater_result : ∀ t cellPosition cellSize transform,
    (D.tileAddWater t cellPosition cellSize transform).1 = !holdsWater t cellPosition
  addWater_water : ∀ t cellPosition cellSize transform other,
    holdsWater (D.tileAddWater t cellPosition cellSize transform).2 other = true ↔
      holdsWater t other = true ∨ other = cellPosition
  addWater_object : ∀ t cellPosition cellSize transform id,
    holdsObject (D.tileAddWater t cellPosition cellSize transform).2 id = holdsObject t id
  removeWater_water : ∀ t cellPosition other,
    holdsWater (D.tileRemoveWater t cellPosition).2 other = true ↔
      holdsWater t other = true ∧ other ≠ cellPosition
  removeWater_object : ∀ t cellPosition id,
    holdsObject (D.tileRemoveWater t cellPosition).2 id = holdsObject t id
  isEmpty_iff : ∀ t, D.tileIsEmpty t = true ↔
    (∀ id, holdsObject t id = false) ∧ (∀ cellPosition, holdsWater t cellPosition = false)

/-- No tile of the registry holds the id: the id is new, or it has been removed since it
was last added. -/
def IdleId {D : Collaborators} (holdsObject : D.Tile → ObjectId → Bool) (m : Manager D)
    (id : ObjectId) : Prop :=
  ∀ p t, tilesFind m.mTiles p = some t → holdsObject t id = false

/-- Some tile of the registry holds the id: the object has been added and not removed
since. -/
def LiveId {D : Collaborators} (holdsObject : D.Tile → ObjectId → Bool) (m : Manager D)
    (id : ObjectId) : Prop :=
  ∃ p t, tilesFind m.mTiles p = some t ∧ holdsObject t id = true

/-- Every tile of the registry is accounted for in the membership tables: what it holds
lists its position, and it holds something. -/
def Accounted {D : Collaborators} (holdsObject : D.Tile → ObjectId → Bool)
    (holdsWater : D.Tile → CellPosition → Bool) (m : Manager D) : Prop :=
  ∀ p t, tilesFind m.mTiles p = some t →
    (∀ id, holdsObject t id = true →
      ∃ positions, m.mObjectsTilesPositions id = some positions ∧ p ∈ positions) ∧
    (∀ cellPosition, holdsWater t cellPosition = true →
      ∃ positions, m.mWaterTilesPositions cellPosition = some positions ∧ p ∈ positions) ∧
    D.tileIsEmpty t = false

/-- An object some tile holds is held by the tile at every position of its recorded
list. -/
def Occupies {D : Collaborators} (holdsObject : D.Tile → ObjectId → Bool) (m : Manager D) :
    Prop :=
  ∀ id, LiveId holdsObject m id →
    ∃ positions, m.mObjectsTilesPositions id = some positions ∧
      ∀ q ∈ positions, ∃ t, tilesFind m.mTiles q = some t ∧ holdsObject t id = true

/-- The states reached from a newly constructed manager by calls of `addObject` for ids
that no tile holds at the time of the call (new ids, and ids removed since they were
last added) and by calls of `removeObject`, `addWater` and `removeWater`. -/
inductive ReachedWithIdleIds (D : Collaborators) (holdsObject : D.Tile → ObjectId → Bool) :
    Manager D → Prop where
  | empty : ReachedWithIdleIds D holdsObject (Manager.empty D)
  | addObject {m : Manager D} (id : ObjectId) (shape : Shape) (transform : Transform)
      (areaType : AreaType) :
      ReachedWithIdleIds D holdsObject m → IdleId holdsObject m id →
      ReachedWithIdleIds D holdsObject
        (DetourNavigator.addObject D m id shape transform areaType).2
  | removeObject {m : Manager D} (id : ObjectId) :
      ReachedWithIdleIds D holdsObject m →
      ReachedWithIdleIds D holdsObject (DetourNavigator.removeObject D m id).2
  | addWater {m : Manager D} (cellPosition : CellPosition) (cellSize : Int)
      (transform : Transform) :
      ReachedWithIdleIds D holdsObject m →
      ReachedWithIdleIds D holdsObject
        (DetourNavigator.addWater D m cellPosition cellSize transform).2
  | removeWater {m : Manager D} (cellPosition : CellPosition) :
      ReachedWithIdleIds D holdsObject m →
      ReachedWithIdleIds D holdsObject (DetourNavigator.removeWater D m cellPosition).2

/-- Modelled from the spec: the object ids a `SpecTile` holds. -/
def SpecTile.holdsObject (t : SpecTile) (id : ObjectId) : Bool :=
  t.objects.any (fun o => o.1 == id)

/-- Modelled from the spec: the water cells a `SpecTile` holds. -/
def SpecTile.holdsWater (t : SpecTile) (cellPosition : CellPosition) : Bool :=
  t.water.any (fun w => w.1 == cellPosition)

/-- The manager that held the box and the water cell, after `removeObject` of the box:
the tiles of the water cell are left and id `7` is still a key of the object table. -/
def managerAfterRemovedBox : Manager testCollaborators :=
  (removeObject testCollaborators managerWithBoxAndWater 7).2

/-- The box added again, under the id it had, one tile to the right, after it was
removed. -/
def managerWithBoxAddedAgain : Manager testCollaborators :=
  (addObject testCollaborators managerAfterRemovedBox 7 0 1 0).2

/-! # Properties -/

/-! ## The registry operations -/

theorem tilesFind_tilesAssign {D : Collaborators} (tiles : TilesMap D) (p q : TilePosition)
    (t : D.Tile) :
    tilesFind (tilesAssign tiles p t) q =
      if q = p then (tilesFind tiles p).map (fun _ => t) else tilesFind tiles q := by
  induction tiles with
  | nil => simp [tilesAssign, tilesFind]
  | cons e rest ih =>
    obtain ⟨k, u⟩ := e
    by_cases hk : k = p
    · subst hk
      by_cases hq : q = k
      · subst hq; simp [tilesAssign, tilesFind]
      · have hq2 : ¬ k = q := fun h => hq h.symm
        simp [tilesAssign, tilesFind, hq, hq2]
    · by_cases hq : q = p
      · subst hq
        simp [tilesAssign, tilesFind, hk, ih]
      · simp only [tilesAssign, hk, if_false, tilesFind, ih, hq]

theorem tilesFind_tilesInsert {D : Collaborators} (tiles : TilesMap D) (p q : TilePosition)
    (t : D.Tile) (habsent : tilesFind tiles p = none) :
    tilesFind (tilesInsert tiles p t) q = if q = p then some t else tilesFind tiles q := by
  induction tiles with
  | nil =>
    by_cases hq : q = p
    · subst hq; simp [tilesInsert, tilesFind]
    · have hq2 : ¬ p = q := fun h => hq h.symm
      simp [tilesInsert, tilesFind, hq, hq2]
  | cons e rest ih =>
    obtain ⟨k, u⟩ := e
    have hk : ¬ k = p := by
      intro h
      simp [tilesFind, h] at habsent
    have hrest : tilesFind rest p = none := by
      simpa [tilesFind, hk] using habsent
    by_cases hlt : p < k
    · by_cases hq : q = p
      · subst hq; simp [tilesInsert, tilesFind, hlt]
      · have hq2 : ¬ p = q := fun h => hq h.symm
        simp [tilesInsert, tilesFind, hlt, hq, hq2]
    · by_cases hq : q = p
      · subst hq
        simp [tilesInsert, tilesFind, hlt, hk, ih hrest]
      · simp only [tilesInsert, hlt, hk, if_false, tilesFind, ih hrest, hq]

theorem tilesFind_tilesErase {D : Collaborators} (tiles : TilesMap D) (p q : TilePosition) :
    tilesFind (tilesErase tiles p) q = if q = p then none else tilesFind tiles q := by
  induction tiles with
  | nil => simp [tilesErase, tilesFind]
  | cons e rest ih =>
    obtain ⟨k, u⟩ := e
    unfold tilesErase at ih ⊢
    by_cases hk : k = p
    · subst hk
      by_cases hq : q = k
      · subst hq; simpa [List.filter, tilesFind] using ih
      · have hq2 : ¬ k = q := fun h => hq h.symm
        simpa [List.filter, tilesFind, hq, hq2] using ih
    · by_cases hq : q = p
      · subst hq
        simpa [List.filter, tilesFind, hk] using ih
      · simp only [List.filter, hk, ne_eq, not_false_eq_true, decide_True, tilesFind, ih, hq,
          if_false]

theorem tilesAssign_self {D : Collaborators} (tiles : TilesMap D) (p : TilePosition)
    (t : D.Tile) (h : tilesFind tiles p = some t) : tilesAssign tiles p t = tiles := by
  induction tiles with
  | nil => simp [tilesAssign]
  | cons e rest ih =>
    obtain ⟨k, u⟩ := e
    by_cases hk : k = p
    · subst hk
      simp [tilesFind] at h
      simp [tilesAssign, h]
    · simp [tilesFind, hk] at h
      simp [tilesAssign, hk, ih h]

/-! ## addObject -/

theorem addTile_fst (D : Collaborators) (gen : Nat) (id : ObjectId) (shape : Shape)
    (transform : Transform) (areaType : AreaType) (p : TilePosition) (tiles : TilesMap D) :
    (addTile D gen id shape transform areaType p tiles).1 =
      (D.tileAddObject (tileFor D gen tiles p) id shape transform areaType).1 := by
  unfold addTile tileFor
  cases tilesFind tiles p <;> rfl

theorem addTile_find (D : Collaborators) (gen : Nat) (id : ObjectId) (shape : Shape)
    (transform : Transform) (areaType : AreaType) (p q : TilePosition) (tiles : TilesMap D) :
    tilesFind (addTile D gen id shape transform areaType p tiles).2 q =
      if q = p then some (D.tileAddObject (tileFor D gen tiles p) id shape transform areaType).2
      else tilesFind tiles q := by
  unfold addTile tileFor
  cases h : tilesFind tiles p with
  | none => simp [tilesFind_tilesInsert _ _ _ _ h]
  | some t => simp [tilesFind_tilesAssign, h]

theorem addObjectStep_fst (D : Collaborators) (gen : Nat) (id : ObjectId) (shape : Shape)
    (transform : Transform) (areaType : AreaType) (st : TilesMap D × List TilePosition)
    (q : TilePosition) :
    (addObjectStep D gen id shape transform areaType st q).1 =
      (addTile D gen id shape transform areaType q st.1).2 := rfl

theorem addObjectStep_snd (D : Collaborators) (gen : Nat) (id : ObjectId) (shape : Shape)
    (transform : Transform) (areaType : AreaType) (st : TilesMap D × List TilePosition)
    (q : TilePosition) :
    (addObjectStep D gen id shape transform areaType st q).2 =
      if (D.tileAddObject (tileFor D gen st.1 q) id shape transform areaType).1 then st.2 ++ [q]
      else st.2 := by
  rw [← addTile_fst]; rfl

theorem addObject_fold_nonempty (D : Collaborators) (gen : Nat) (id : ObjectId) (shape : Shape)
    (transform : Transform) (areaType : AreaType) (ps : List TilePosition)
    (st : TilesMap D × List TilePosition) :
    (ps.foldl (addObjectStep D gen id shape transform areaType) st).2 ≠ [] ↔
      st.2 ≠ [] ∨ ∃ pre p post, ps = pre ++ p :: post ∧
        (D.tileAddObject (tileFor D gen
          (pre.foldl (addObjectStep D gen id shape transform areaType) st).1 p)
          id shape transform areaType).1 = true := by
  induction ps generalizing st with
  | nil => simp
  | cons q qs ih =>
    rw [List.foldl_cons, ih]
    have hstep : (addObjectStep D gen id shape transform areaType st q).2 ≠ [] ↔
        st.2 ≠ [] ∨ (D.tileAddObject (tileFor D gen st.1 q) id shape transform areaType).1
          = true := by
      rw [addObjectStep_snd]
      cases hacc : (D.tileAddObject (tileFor D gen st.1 q) id shape transform areaType).1 <;>
        simp
    constructor
    · rintro (h | ⟨pre, p, post, hsplit, hp⟩)
      · rcases hstep.mp h with h | h
        · exact Or.inl h
        · exact Or.inr ⟨[], q, qs, rfl, h⟩
      · exact Or.inr ⟨q :: pre, p, post, by simp [hsplit], by simpa using hp⟩
    · rintro (h | ⟨pre, p, post, hsplit, hp⟩)
      · exact Or.inl (hstep.mpr (Or.inl h))
      · cases pre with
        | nil =>
          simp only [List.nil_append, List.cons.injEq] at hsplit
          obtain ⟨rfl, rfl⟩ := hsplit
          exact Or.inl (hstep.mpr (Or.inr hp))
        | cons a pre =>
          simp only [List.cons_append, List.cons.injEq] at hsplit
          obtain ⟨rfl, rfl⟩ := hsplit
          exact Or.inr ⟨pre, p, post, rfl, by simpa using hp⟩

/-- C1: `addObject` returns true exactly when some visit of the grid-intersection
query had its tile accept the object (the tile's own `addObject`, on the tile found
or created at the position, in the registry as the earlier visits left it, returned
true); the revision afterwards is the revision before plus one when the call returns
true, and the revision before when it returns false. -/
theorem addObject_true_iff_tile_accepted (D : Collaborators) (m : Manager D) (id : ObjectId)
    (shape : Shape) (transform : Transform) (areaType : AreaType) :
    ((addObject D m id shape transform areaType).1 = true ↔
      ∃ pre p post, D.shapeTiles shape transform = pre ++ p :: post ∧
        (D.tileAddObject (tileFor D m.mTilesGeneration
          (pre.foldl (addObjectStep D m.mTilesGeneration id shape transform areaType)
            (m.mTiles, [])).1 p) id shape transform areaType).1 = true) ∧
    getRevision D (addObject D m id shape transform areaType).2 =
      getRevision D m + (if (addObject D m id shape transform areaType).1 then 1 else 0) := by
  have key := addObject_fold_nonempty D m.mTilesGeneration id shape transform areaType
    (D.shapeTiles shape transform) (m.mTiles, [])
  simp only [ne_eq, not_true_eq_false, false_or] at key
  unfold addObject getRevision
  by_cases hempty : ((D.shapeTiles shape transform).foldl
      (addObjectStep D m.mTilesGeneration id shape transform areaType) (m.mTiles, [])).2 = []
  · have hno := (not_congr key).mp (not_not.mpr hempty)
    simp only [hempty, List.isEmpty_nil, if_true]
    exact ⟨⟨fun h => by simp at h, fun h => absurd h hno⟩, by simp⟩
  · have hyes := key.mp hempty
    have hne : (((D.shapeTiles shape transform).foldl
      (addObjectStep D m.mTilesGeneration id shape transform areaType) (m.mTiles, [])).2).isEmpty
        = false := by
      cases hl : ((D.shapeTiles shape transform).foldl
        (addObjectStep D m.mTilesGeneration id shape transform areaType) (m.mTiles, [])).2 with
      | nil => exact absurd hl hempty
      | cons a l => rfl
    simp only [hne]
    exact ⟨⟨fun _ => hyes, fun _ => rfl⟩, by simp⟩

theorem addObject_fold_hasTile (D : Collaborators) (gen : Nat) (id : ObjectId) (shape : Shape)
    (transform : Transform) (areaType : AreaType) (ps : List TilePosition)
    (st : TilesMap D × List TilePosition) (q : TilePosition) :
    (tilesFind (ps.foldl (addObjectStep D gen id shape transform areaType) st).1 q).isSome = true ↔
      (tilesFind st.1 q).isSome = true ∨ q ∈ ps := by
  induction ps generalizing st with
  | nil => simp
  | cons a ps ih =>
    rw [List.foldl_cons, ih, addObjectStep_fst, addTile_find]
    by_cases hq : q = a
    · simp [hq]
    · simp [hq]

theorem addObject_tiles (D : Collaborators) (m : Manager D) (id : ObjectId) (shape : Shape)
    (transform : Transform) (areaType : AreaType) :
    (addObject D m id shape transform areaType).2.mTiles =
      ((D.shapeTiles shape transform).foldl
        (addObjectStep D m.mTilesGeneration id shape transform areaType) (m.mTiles, [])).1 := by
  unfold addObject
  dsimp only
  split <;> rfl

/-- C2: after `addObject` on a newly constructed manager, `hasTile` is true at exactly
the positions the grid-intersection query yields for the shape and transform, and
`getMesh` is none at every other position. -/
theorem addObject_empty_hasTile_iff (D : Collaborators) (id : ObjectId) (shape : Shape)
    (transform : Transform) (areaType : AreaType) (p : TilePosition) :
    (hasTile D (addObject D (Manager.empty D) id shape transform areaType).2 p = true ↔
      p ∈ D.shapeTiles shape transform) ∧
    (p ∉ D.shapeTiles shape transform →
      getMesh D (addObject D (Manager.empty D) id shape transform areaType).2 p = none) := by
  have key := addObject_fold_hasTile D (Manager.empty D).mTilesGeneration id shape transform
    areaType (D.shapeTiles shape transform) ((Manager.empty D).mTiles, []) p
  rw [← addObject_tiles] at key
  have hempty : (tilesFind (Manager.empty D).mTiles p).isSome = false := rfl
  simp only [hempty, Bool.false_eq_true, false_or] at key
  refine ⟨by simpa [hasTile] using key, fun hp => ?_⟩
  have hnone : tilesFind (addObject D (Manager.empty D) id shape transform areaType).2.mTiles p
      = none := by
    cases h : tilesFind (addObject D (Manager.empty D) id shape transform areaType).2.mTiles p with
    | none => rfl
    | some t => exact absurd (key.mp (by simp [h])) hp
  simp [getMesh, hnone]

theorem addObject_fold_offered (D : Collaborators) (gen : Nat) (id : ObjectId) (shape : Shape)
    (transform : Transform) (areaType : AreaType) (ps : List TilePosition)
    (st : TilesMap D × List TilePosition) (q : TilePosition)
    (h : q ∈ ps ∨ ∃ t, tilesFind st.1 q = some (D.tileAddObject t id shape transform areaType).2) :
    ∃ t, tilesFind (ps.foldl (addObjectStep D gen id shape transform areaType) st).1 q =
      some (D.tileAddObject t id shape transform areaType).2 := by
  induction ps generalizing st with
  | nil => simpa using h
  | cons a ps ih =>
    rw [List.foldl_cons]
    apply ih
    by_cases hq : q = a
    · right
      rw [addObjectStep_fst, addTile_find, if_pos hq]
      exact ⟨_, rfl⟩
    · rcases h with h | h
      · left
        simpa [hq] using h
      · right
        rw [addObjectStep_fst, addTile_find, if_neg hq]
        exact h

theorem addObject_fold_rejected (D : Collaborators) (gen : Nat) (id : ObjectId) (shape : Shape)
    (transform : Transform) (areaType : AreaType)
    (hreject : ∀ t : D.Tile, (D.tileAddObject (D.tileAddObject t id shape transform areaType).2
      id shape transform areaType).1 = false)
    (ps : List TilePosition) (st : TilesMap D × List TilePosition)
    (h : ∀ q ∈ ps, ∃ t, tilesFind st.1 q = some (D.tileAddObject t id shape transform areaType).2) :
    (ps.foldl (addObjectStep D gen id shape transform areaType) st).2 = st.2 ∧
    ∀ q, (tilesFind (ps.foldl (addObjectStep D gen id shape transform areaType) st).1 q).isSome =
      (tilesFind st.1 q).isSome := by
  induction ps generalizing st with
  | nil => simp
  | cons a ps ih =>
    rw [List.foldl_cons]
    obtain ⟨t, ht⟩ := h a (List.mem_cons_self a ps)
    have hfor : tileFor D gen st.1 a = (D.tileAddObject t id shape transform areaType).2 := by
      simp [tileFor, ht]
    have hnext : ∀ q ∈ ps, ∃ t, tilesFind (addObjectStep D gen id shape transform areaType st a).1 q
        = some (D.tileAddObject t id shape transform areaType).2 := by
      intro q hq
      rw [addObjectStep_fst, addTile_find]
      by_cases hqa : q = a
      · rw [if_pos hqa]; exact ⟨_, rfl⟩
      · rw [if_neg hqa]; exact h q (List.mem_cons_of_mem a hq)
    obtain ⟨h2, h1⟩ := ih _ hnext
    refine ⟨?_, fun q => ?_⟩
    · rw [h2, addObjectStep_snd, hfor, hreject t]
      simp
    · rw [h1 q, addObjectStep_fst, addTile_find]
      by_cases hqa : q = a
      · rw [if_pos hqa, hqa, ht]; rfl
      · rw [if_neg hqa]

/-- C3: when `addObject` has just returned true, the same call made again returns false
and leaves the revision, the set of positions that have a tile, the tiles generation
and the object membership table as they were; assumed of the tiles is that a tile
which has been offered the object rejects it when it is offered again. -/
theorem addObject_again_is_rejected (D : Collaborators) (m : Manager D) (id : ObjectId)
    (shape : Shape) (transform : Transform) (areaType : AreaType)
    (hreject : ∀ t : D.Tile, (D.tileAddObject (D.tileAddObject t id shape transform areaType).2
      id shape transform areaType).1 = false)
    (_hfirst : (addObject D m id shape transform areaType).1 = true) :
    (addObject D (addObject D m id shape transform areaType).2 id shape transform areaType).1
      = false ∧
    getRevision D
        (addObject D (addObject D m id shape transform areaType).2 id shape transform areaType).2
      = getRevision D (addObject D m id shape transform areaType).2 ∧
    (∀ p, hasTile D
        (addObject D (addObject D m id shape transform areaType).2 id shape transform areaType).2 p
      = hasTile D (addObject D m id shape transform areaType).2 p) ∧
    (addObject D (addObject D m id shape transform areaType).2 id shape transform
        areaType).2.mTilesGeneration
      = (addObject D m id shape transform areaType).2.mTilesGeneration ∧
    (addObject D (addObject D m id shape transform areaType).2 id shape transform
        areaType).2.mObjectsTilesPositions
      = (addObject D m id shape transform areaType).2.mObjectsTilesPositions := by
  generalize hm1 : (addObject D m id shape transform areaType).2 = m1
  have hoffered : ∀ q ∈ D.shapeTiles shape transform, ∃ t,
      tilesFind m1.mTiles q = some (D.tileAddObject t id shape transform areaType).2 := by
    intro q hq
    rw [← hm1, addObject_tiles]
    exact addObject_fold_offered D _ id shape transform areaType _ _ q (Or.inl hq)
  obtain ⟨hacc, hsome⟩ := addObject_fold_rejected D m1.mTilesGeneration id shape transform
    areaType hreject (D.shapeTiles shape transform) (m1.mTiles, []) hoffered
  have hcall : addObject D m1 id shape transform areaType =
      (false, { m1 with mTiles := ((D.shapeTiles shape transform).foldl
        (addObjectStep D m1.mTilesGeneration id shape transform areaType) (m1.mTiles, [])).1 }) := by
    unfold addObject
    simp only [hacc, List.isEmpty_nil, if_true]
  rw [hcall]
  exact ⟨rfl, rfl, fun p => by simpa [hasTile] using hsome p, rfl, rfl⟩

/-- Witness for C3: the box of the repository's tests added twice to a new manager. -/
theorem addObject_again_is_rejected_witness :
    (∀ t : SpecTile, (SpecTile.addObject (SpecTile.addObject t 7 0 0 0).2 7 0 0 0).1 = false) ∧
    (addObject testCollaborators (Manager.empty testCollaborators) 7 0 0 0).1 = true ∧
    (addObject testCollaborators managerWithBox 7 0 0 0).1 = false ∧
    getRevision testCollaborators (addObject testCollaborators managerWithBox 7 0 0 0).2
      = getRevision testCollaborators managerWithBox ∧
    (∀ p, hasTile testCollaborators (addObject testCollaborators managerWithBox 7 0 0 0).2 p
      = hasTile testCollaborators managerWithBox p) ∧
    (addObject testCollaborators managerWithBox 7 0 0 0).2.mTilesGeneration
      = managerWithBox.mTilesGeneration ∧
    (addObject testCollaborators managerWithBox 7 0 0 0).2.mObjectsTilesPositions
      = managerWithBox.mObjectsTilesPositions :=
  have hreject : ∀ t : SpecTile,
      (SpecTile.addObject (SpecTile.addObject t 7 0 0 0).2 7 0 0 0).1 = false := by
    intro t
    unfold SpecTile.addObject
    by_cases h : t.objects.any (fun o => o.1 == 7) = true
    · simp [h]
    · simp [h]
  ⟨hreject, by decide,
    addObject_again_is_rejected testCollaborators (Manager.empty testCollaborators) 7 0 0 0
      hreject (by decide)⟩

/-! ## removeObject -/

theorem removeTile_find (D : Collaborators) (id : ObjectId) (p q : TilePosition)
    (st : TilesMap D × Nat) :
    tilesFind (removeTile D id p st).2.1 q =
      if q = p then tileAfterRemove D id (tilesFind st.1 p) else tilesFind st.1 q := by
  unfold removeTile
  cases h : tilesFind st.1 p with
  | none =>
    by_cases hq : q = p
    · simp [tileAfterRemove, hq, h]
    · simp [hq]
  | some t =>
    by_cases hempty : D.tileIsEmpty (D.tileRemoveObject t id).2 = true
    · simp [tileAfterRemove, hempty, tilesFind_tilesErase]
    · simp [tileAfterRemove, hempty, tilesFind_tilesAssign, h]

theorem removeObjectStep_tiles (D : Collaborators) (id : ObjectId)
    (st : Sweep D RemovedRecastMeshObject) (p : TilePosition) :
    (removeObjectStep D id st p).tiles = (removeTile D id p (st.tiles, st.generation)).2.1 := rfl

theorem removeObject_fold_find (D : Collaborators) (id : ObjectId) (ps : List TilePosition)
    (hnodup : ps.Nodup) (st : Sweep D RemovedRecastMeshObject) (q : TilePosition) :
    tilesFind (ps.foldl (removeObjectStep D id) st).tiles q =
      if q ∈ ps then tileAfterRemove D id (tilesFind st.tiles q) else tilesFind st.tiles q := by
  induction ps generalizing st with
  | nil => simp
  | cons a ps ih =>
    obtain ⟨ha, hps⟩ := List.nodup_cons.mp hnodup
    rw [List.foldl_cons, ih hps, removeObjectStep_tiles, removeTile_find]
    by_cases hq : q = a
    · subst hq
      simp [ha]
    · simp [hq]

theorem removeObject_recorded (D : Collaborators) (m : Manager D) (id : ObjectId)
    (positions : List TilePosition) (hrec : m.mObjectsTilesPositions id = some positions) :
    removeObject D m id =
      ((positions.foldl (removeObjectStep D id)
          { tiles := m.mTiles, generation := m.mTilesGeneration, result := none }).result,
        { m with
          mTiles := (positions.foldl (removeObjectStep D id)
            { tiles := m.mTiles, generation := m.mTilesGeneration, result := none }).tiles
          mTilesGeneration := (positions.foldl (removeObjectStep D id)
            { tiles := m.mTiles, generation := m.mTilesGeneration, result := none }).generation
          mRevision :=
            if (positions.foldl (removeObjectStep D id)
              { tiles := m.mTiles, generation := m.mTilesGeneration, result := none }).result.isSome
            then m.mRevision + 1 else m.mRevision }) := by
  unfold removeObject
  rw [hrec]

/-- C4: for an id recorded with a list of distinct positions, after `removeObject` a
recorded position whose tile reports empty once the object is taken out has no tile
any more (`hasTile` false, `getMesh` none), a recorded position whose tile does not
report empty keeps its tile, in the state the tile's `removeObject` left it in, and
a position that is not recorded has the tile it had. -/
theorem removeObject_clears_recorded_tiles (D : Collaborators) (m : Manager D) (id : ObjectId)
    (positions : List TilePosition) (hrec : m.mObjectsTilesPositions id = some positions)
    (hnodup : positions.Nodup) (p : TilePosition) :
    (p ∈ positions → ∀ tile, tilesFind m.mTiles p = some tile →
      (D.tileIsEmpty (D.tileRemoveObject tile id).2 = true →
        hasTile D (removeObject D m id).2 p = false ∧ getMesh D (removeObject D m id).2 p = none) ∧
      (D.tileIsEmpty (D.tileRemoveObject tile id).2 = false →
        tilesFind (removeObject D m id).2.mTiles p = some (D.tileRemoveObject tile id).2)) ∧
    (p ∉ positions → tilesFind (removeObject D m id).2.mTiles p = tilesFind m.mTiles p) := by
  have key := removeObject_fold_find D id positions hnodup
    { tiles := m.mTiles, generation := m.mTilesGeneration, result := none } p
  rw [removeObject_recorded D m id positions hrec]
  dsimp only at key ⊢
  refine ⟨fun hp tile htile => ⟨fun hempty => ?_, fun hfull => ?_⟩, fun hp => ?_⟩
  · rw [if_pos hp, htile] at key
    simp only [tileAfterRemove, hempty, if_true] at key
    simp [hasTile, getMesh, key]
  · rw [if_pos hp, htile] at key
    simpa [tileAfterRemove, hfull] using key
  · rw [if_neg hp] at key
    exact key

/-- Witness for C4: removing the box of the repository's tests, seen at tile `(0, 0)`,
which held nothing but the box. -/
theorem removeObject_clears_recorded_tiles_witness :
    managerWithBox.mObjectsTilesPositions 7 = some [⟨-1, -1⟩, ⟨-1, 0⟩, ⟨0, -1⟩, ⟨0, 0⟩] ∧
    ([⟨-1, -1⟩, ⟨-1, 0⟩, ⟨0, -1⟩, ⟨0, 0⟩] : List TilePosition).Nodup ∧
    (⟨0, 0⟩ : TilePosition) ∈ ([⟨-1, -1⟩, ⟨-1, 0⟩, ⟨0, -1⟩, ⟨0, 0⟩] : List TilePosition) ∧
    tilesFind managerWithBox.mTiles ⟨0, 0⟩ = some
      { position := ⟨0, 0⟩, generation := 0, objects := [(7, 0, 0, 0)], water := [],
        reported := none } ∧
    hasTile testCollaborators (removeObject testCollaborators managerWithBox 7).2 ⟨0, 0⟩ = false ∧
    getMesh testCollaborators (removeObject testCollaborators managerWithBox 7).2 ⟨0, 0⟩ = none :=
  ⟨by decide, by decide, by decide, rfl,
    (((removeObject_clears_recorded_tiles testCollaborators managerWithBox 7
      [⟨-1, -1⟩, ⟨-1, 0⟩, ⟨0, -1⟩, ⟨0, 0⟩] (by decide) (by decide) ⟨0, 0⟩).1 (by decide)
      { position := ⟨0, 0⟩, generation := 0, objects := [(7, 0, 0, 0)], water := [],
        reported := none } rfl).1 (by decide))⟩

theorem removeObjectStep_result_of_none (D : Collaborators) (id : ObjectId)
    (st : Sweep D RemovedRecastMeshObject) (p : TilePosition) (h : st.result = none) :
    (removeObjectStep D id st p).result = (removeTile D id p (st.tiles, st.generation)).1 := by
  unfold removeObjectStep
  dsimp only
  rw [h]
  cases (removeTile D id p (st.tiles, st.generation)).1 <;> rfl

theorem removeObject_fold_result_of_some (D : Collaborators) (id : ObjectId)
    (ps : List TilePosition) (st : Sweep D RemovedRecastMeshObject)
    (r : RemovedRecastMeshObject) (h : st.result = some r) :
    (ps.foldl (removeObjectStep D id) st).result = some r := by
  induction ps generalizing st with
  | nil => simpa using h
  | cons a ps ih =>
    rw [List.foldl_cons]
    apply ih
    unfold removeObjectStep
    dsimp only
    rw [h]
    simp

theorem removeObject_fold_first (D : Collaborators) (id : ObjectId) (ps : List TilePosition)
    (st : Sweep D RemovedRecastMeshObject) (hst : st.result = none) :
    ((ps.foldl (removeObjectStep D id) st).result = none ↔
      ∀ pre p post, ps = pre ++ p :: post →
        (removeTile D id p ((pre.foldl (removeObjectStep D id) st).tiles,
          (pre.foldl (removeObjectStep D id) st).generation)).1 = none) ∧
    (∀ r, (ps.foldl (removeObjectStep D id) st).result = some r →
      ∃ pre p post, ps = pre ++ p :: post ∧
        (removeTile D id p ((pre.foldl (removeObjectStep D id) st).tiles,
          (pre.foldl (removeObjectStep D id) st).generation)).1 = some r ∧
        ∀ pre2 p2 post2, pre = pre2 ++ p2 :: post2 →
          (removeTile D id p2 ((pre2.foldl (removeObjectStep D id) st).tiles,
            (pre2.foldl (removeObjectStep D id) st).generation)).1 = none) := by
  induction ps generalizing st with
  | nil => simp [hst]
  | cons a ps ih =>
    rw [List.foldl_cons]
    have hstep := removeObjectStep_result_of_none D id st a hst
    cases ha : (removeTile D id a (st.tiles, st.generation)).1 with
    | none =>
      rw [ha] at hstep
      obtain ⟨ih1, ih2⟩ := ih (removeObjectStep D id st a) hstep
      constructor
      · rw [ih1]
        constructor
        · intro h pre p post hsplit
          cases pre with
          | nil =>
            simp only [List.nil_append, List.cons.injEq] at hsplit
            obtain ⟨rfl, rfl⟩ := hsplit
            simpa using ha
          | cons b pre =>
            simp only [List.cons_append, List.cons.injEq] at hsplit
            obtain ⟨rfl, rfl⟩ := hsplit
            simpa using h pre p post rfl
        · intro h pre p post hsplit
          simpa using h (a :: pre) p post (by simp [hsplit])
      · intro r hr
        obtain ⟨pre, p, post, hsplit, hp, hbefore⟩ := ih2 r hr
        refine ⟨a :: pre, p, post, by simp [hsplit], by simpa using hp, ?_⟩
        intro pre2 p2 post2 hsplit2
        cases pre2 with
        | nil =>
          simp only [List.nil_append, List.cons.injEq] at hsplit2
          obtain ⟨rfl, rfl⟩ := hsplit2
          simpa using ha
        | cons b pre2 =>
          simp only [List.cons_append, List.cons.injEq] at hsplit2
          obtain ⟨rfl, rfl⟩ := hsplit2
          simpa using hbefore pre2 p2 post2 rfl
    | some r0 =>
      rw [ha] at hstep
      have hfinal := removeObject_fold_result_of_some D id ps _ r0 hstep
      constructor
      · constructor
        · intro h
          rw [hfinal] at h
          exact absurd h (by simp)
        · intro h
          have := h [] a ps rfl
          simp only [List.foldl_nil] at this
          rw [ha] at this
          exact absurd this (by simp)
      · intro r hr
        rw [hfinal] at hr
        cases hr
        exact ⟨[], a, ps, rfl, by simpa using ha, by simp⟩

theorem removeTile_result_eq_none_iff (D : Collaborators) (id : ObjectId) (p : TilePosition)
    (st : TilesMap D × Nat) :
    (removeTile D id p st).1 = none ↔
      ∀ tile, tilesFind st.1 p = some tile → (D.tileRemoveObject tile id).1 = none := by
  unfold removeTile
  cases tilesFind st.1 p with
  | none => simp
  | some t =>
    dsimp only
    split <;> simp

theorem removeTile_result_eq_some_iff (D : Collaborators) (id : ObjectId) (p : TilePosition)
    (st : TilesMap D × Nat) (r : RemovedRecastMeshObject) :
    (removeTile D id p st).1 = some r ↔
      ∃ tile, tilesFind st.1 p = some tile ∧ (D.tileRemoveObject tile id).1 = some r := by
  unfold removeTile
  cases tilesFind st.1 p with
  | none => simp
  | some t =>
    dsimp only
    split <;> simp

/-- C5: for a recorded id, `removeObject` returns the summary that the tile's own
`removeObject` reported at the first position of the recorded list whose tile reported
one (the tile found at the position, in the registry as the earlier positions left
it; a position without a tile reports nothing), and returns nothing exactly when no
tile reports one; the revision moves by one exactly when the returned value is not
empty. When the recorded list has no position twice, as a sorted set has none, the
tiles are those of the registry before the call: the summary is the one reported by
the tile of the first recorded position whose tile, as the caller left it, reports
one. -/
theorem removeObject_returns_first_summary (D : Collaborators) (m : Manager D) (id : ObjectId)
    (positions : List TilePosition) (hrec : m.mObjectsTilesPositions id = some positions) :
    ((removeObject D m id).1 = none ↔
      ∀ pre p post, positions = pre ++ p :: post →
        ∀ tile, tilesFind (pre.foldl (removeObjectStep D id)
            { tiles := m.mTiles, generation := m.mTilesGeneration, result := none }).tiles p
            = some tile →
          (D.tileRemoveObject tile id).1 = none) ∧
    (∀ r, (removeObject D m id).1 = some r →
      ∃ pre p post tile, positions = pre ++ p :: post ∧
        tilesFind (pre.foldl (removeObjectStep D id)
            { tiles := m.mTiles, generation := m.mTilesGeneration, result := none }).tiles p
          = some tile ∧
        (D.tileRemoveObject tile id).1 = some r ∧
        ∀ pre2 p2 post2, pre = pre2 ++ p2 :: post2 →
          ∀ tile2, tilesFind (pre2.foldl (removeObjectStep D id)
              { tiles := m.mTiles, generation := m.mTilesGeneration, result := none }).tiles p2
              = some tile2 →
            (D.tileRemoveObject tile2 id).1 = none) ∧
    getRevision D (removeObject D m id).2 =
      getRevision D m + (if (removeObject D m id).1.isSome then 1 else 0) ∧
    (positions.Nodup →
      ((removeObject D m id).1 = none ↔
        ∀ p ∈ positions, ∀ tile, tilesFind m.mTiles p = some tile →
          (D.tileRemoveObject tile id).1 = none) ∧
      (∀ r, (removeObject D m id).1 = some r →
        ∃ pre p post tile, positions = pre ++ p :: post ∧
          tilesFind m.mTiles p = some tile ∧
          (D.tileRemoveObject tile id).1 = some r ∧
          ∀ q ∈ pre, ∀ tile2, tilesFind m.mTiles q = some tile2 →
            (D.tileRemoveObject tile2 id).1 = none)) := by
  obtain ⟨h1, h2⟩ := removeObject_fold_first D id positions
    { tiles := m.mTiles, generation := m.mTilesGeneration, result := none } rfl
  have hA : (removeObject D m id).1 = none ↔
      ∀ pre p post, positions = pre ++ p :: post →
        ∀ tile, tilesFind (pre.foldl (removeObjectStep D id)
            { tiles := m.mTiles, generation := m.mTilesGeneration, result := none }).tiles p
            = some tile →
          (D.tileRemoveObject tile id).1 = none := by
    rw [removeObject_recorded D m id positions hrec]
    dsimp only
    rw [h1]
    constructor
    · intro h pre p post hsplit
      exact (removeTile_result_eq_none_iff D id p _).mp (h pre p post hsplit)
    · intro h pre p post hsplit
      exact (removeTile_result_eq_none_iff D id p _).mpr (h pre p post hsplit)
  have hB : ∀ r, (removeObject D m id).1 = some r →
      ∃ pre p post tile, positions = pre ++ p :: post ∧
        tilesFind (pre.foldl (removeObjectStep D id)
            { tiles := m.mTiles, generation := m.mTilesGeneration, result := none }).tiles p
          = some tile ∧
        (D.tileRemoveObject tile id).1 = some r ∧
        ∀ pre2 p2 post2, pre = pre2 ++ p2 :: post2 →
          ∀ tile2, tilesFind (pre2.foldl (removeObjectStep D id)
              { tiles := m.mTiles, generation := m.mTilesGeneration, result := none }).tiles p2
              = some tile2 →
            (D.tileRemoveObject tile2 id).1 = none := by
    intro r hr
    rw [removeObject_recorded D m id positions hrec] at hr
    obtain ⟨pre, p, post, hsplit, hp, hbefore⟩ := h2 r hr
    obtain ⟨tile, hfind, htile⟩ := (removeTile_result_eq_some_iff D id p _ r).mp hp
    refine ⟨pre, p, post, tile, hsplit, hfind, htile, ?_⟩
    intro pre2 p2 post2 hsplit2
    exact (removeTile_result_eq_none_iff D id p2 _).mp (hbefore pre2 p2 post2 hsplit2)
  have hsame : positions.Nodup → ∀ pre p post, positions = pre ++ p :: post →
      tilesFind (pre.foldl (removeObjectStep D id)
        { tiles := m.mTiles, generation := m.mTilesGeneration, result := none }).tiles p
        = tilesFind m.mTiles p := by
    intro hnodup pre p post hsplit
    rw [hsplit] at hnodup
    have hpre : pre.Nodup := (List.nodup_append.mp hnodup).1
    have hp : p ∉ pre := fun hmem =>
      (List.nodup_append.mp hnodup).2.2 hmem (List.mem_cons_self p post)
    rw [removeObject_fold_find D id pre hpre _ p, if_neg hp]
  refine ⟨hA, hB, ?_, fun hnodup => ⟨?_, ?_⟩⟩
  · rw [removeObject_recorded D m id positions hrec]
    unfold getRevision
    dsimp only
    split <;> simp
  · rw [hA]
    constructor
    · intro h p hp tile hfind
      obtain ⟨pre, post, hsplit⟩ := List.append_of_mem hp
      exact h pre p post hsplit tile (by rw [hsame hnodup pre p post hsplit]; exact hfind)
    · intro h pre p post hsplit tile hfind
      rw [hsame hnodup pre p post hsplit] at hfind
      exact h p (by rw [hsplit]; simp) tile hfind
  · intro r hr
    obtain ⟨pre, p, post, tile, hsplit, hfind, htile, hbefore⟩ := hB r hr
    rw [hsame hnodup pre p post hsplit] at hfind
    refine ⟨pre, p, post, tile, hsplit, hfind, htile, ?_⟩
    intro q hq tile2 hfind2
    obtain ⟨pre2, post2, hsplit2⟩ := List.append_of_mem hq
    have hsplit3 : positions = pre2 ++ q :: (post2 ++ p :: post) := by
      rw [hsplit, hsplit2]
      simp
    exact hbefore pre2 q post2 hsplit2 tile2
      (by rw [hsame hnodup pre2 q _ hsplit3]; exact hfind2)

/-- Witness for C5: removing the box of the repository's tests returns the summary its
first tile reports and moves the revision from 1 to 2. -/
theorem removeObject_returns_first_summary_witness :
    managerWithBox.mObjectsTilesPositions 7 = some [⟨-1, -1⟩, ⟨-1, 0⟩, ⟨0, -1⟩, ⟨0, 0⟩] ∧
    (removeObject testCollaborators managerWithBox 7).1 = some { mShape := 0, mTransform := 0 } ∧
    getRevision testCollaborators (removeObject testCollaborators managerWithBox 7).2 =
      getRevision testCollaborators managerWithBox +
        (if (removeObject testCollaborators managerWithBox 7).1.isSome then 1 else 0) ∧
    getRevision testCollaborators (removeObject testCollaborators managerWithBox 7).2 = 2 ∧
    ∃ pre p post tile, [⟨-1, -1⟩, ⟨-1, 0⟩, ⟨0, -1⟩, ⟨0, 0⟩] = pre ++ p :: post ∧
      tilesFind managerWithBox.mTiles p = some tile ∧
      (testCollaborators.tileRemoveObject tile 7).1 = some { mShape := 0, mTransform := 0 } ∧
      ∀ q ∈ pre, ∀ tile2, tilesFind managerWithBox.mTiles q = some tile2 →
        (testCollaborators.tileRemoveObject tile2 7).1 = none :=
  have h := removeObject_returns_first_summary testCollaborators managerWithBox 7
    [⟨-1, -1⟩, ⟨-1, 0⟩, ⟨0, -1⟩, ⟨0, 0⟩] (by decide)
  ⟨by decide, by decide, h.2.2.1, by decide,
    (h.2.2.2 (by decide)).2 { mShape := 0, mTransform := 0 } (by decide)⟩

/-- C6: `removeObject` of an id that is not a key of the object membership table returns
nothing and leaves the manager as it was: revision, tiles generation, registry and
both membership tables. -/
theorem removeObject_absent_is_noop (D : Collaborators) (m : Manager D) (id : ObjectId)
    (habsent : m.mObjectsTilesPositions id = none) :
    (removeObject D m id).1 = none ∧ (removeObject D m id).2 = m := by
  unfold removeObject
  rw [habsent]
  exact ⟨rfl, rfl⟩

/-- Witness for C6: `removeObject` on a newly constructed manager. -/
theorem removeObject_absent_is_noop_witness :
    (Manager.empty testCollaborators).mObjectsTilesPositions 7 = none ∧
    (removeObject testCollaborators (Manager.empty testCollaborators) 7).1 = none ∧
    (removeObject testCollaborators (Manager.empty testCollaborators) 7).2
      = Manager.empty testCollaborators :=
  ⟨rfl, removeObject_absent_is_noop testCollaborators (Manager.empty testCollaborators) 7 rfl⟩

/-! ## addWater -/

theorem addWaterStep_find (D : Collaborators) (gen : Nat) (cellPosition : CellPosition)
    (cellSize : Int) (transform : Transform) (st : WaterState D) (p q : TilePosition) :
    tilesFind (addWaterStep D gen cellPosition cellSize transform st p).tiles q =
      if q = p then
        some (D.tileAddWater (tileFor D gen st.tiles p) cellPosition cellSize transform).2
      else tilesFind st.tiles q := by
  unfold addWaterStep tileFor
  cases h : tilesFind st.tiles p with
  | none => simp [tilesFind_tilesInsert _ _ _ _ h]
  | some t => simp [tilesFind_tilesAssign, h]

theorem addWaterStep_result (D : Collaborators) (gen : Nat) (cellPosition : CellPosition)
    (cellSize : Int) (transform : Transform) (st : WaterState D) (p : TilePosition) :
    (addWaterStep D gen cellPosition cellSize transform st p).result =
      ((D.tileAddWater (tileFor D gen st.tiles p) cellPosition cellSize transform).1
        || st.result) := by
  unfold addWaterStep tileFor
  cases tilesFind st.tiles p <;> rfl

theorem addWaterStep_tilesPositions (D : Collaborators) (gen : Nat)
    (cellPosition : CellPosition) (cellSize : Int) (transform : Transform) (st : WaterState D)
    (p : TilePosition) :
    (addWaterStep D gen cellPosition cellSize transform st p).tilesPositions =
      st.tilesPositions ++
        (if (D.tileAddWater (tileFor D gen st.tiles p) cellPosition cellSize transform).1
          then [p] else []) := by
  unfold addWaterStep tileFor
  cases tilesFind st.tiles p <;> dsimp only <;> split <;> simp

theorem addWater_fold_result (D : Collaborators) (gen : Nat) (cellPosition : CellPosition)
    (cellSize : Int) (transform : Transform) (ps : List TilePosition) (st : WaterState D) :
    (ps.foldl (addWaterStep D gen cellPosition cellSize transform) st).result = true ↔
      st.result = true ∨ ∃ pre p post, ps = pre ++ p :: post ∧
        (D.tileAddWater (tileFor D gen
          (pre.foldl (addWaterStep D gen cellPosition cellSize transform) st).tiles p)
          cellPosition cellSize transform).1 = true := by
  induction ps generalizing st with
  | nil => simp
  | cons q qs ih =>
    rw [List.foldl_cons, ih]
    have hstep : (addWaterStep D gen cellPosition cellSize transform st q).result = true ↔
        st.result = true ∨
          (D.tileAddWater (tileFor D gen st.tiles q) cellPosition cellSize transform).1
            = true := by
      rw [addWaterStep_result, Bool.or_eq_true]
      exact Or.comm
    constructor
    · rintro (h | ⟨pre, p, post, hsplit, hp⟩)
      · rcases hstep.mp h with h | h
        · exact Or.inl h
        · exact Or.inr ⟨[], q, qs, rfl, h⟩
      · exact Or.inr ⟨q :: pre, p, post, by simp [hsplit], by simpa using hp⟩
    · rintro (h | ⟨pre, p, post, hsplit, hp⟩)
      · exact Or.inl (hstep.mpr (Or.inl h))
      · cases pre with
        | nil =>
          simp only [List.nil_append, List.cons.injEq] at hsplit
          obtain ⟨rfl, rfl⟩ := hsplit
          exact Or.inl (hstep.mpr (Or.inr hp))
        | cons a pre =>
          simp only [List.cons_append, List.cons.injEq] at hsplit
          obtain ⟨rfl, rfl⟩ := hsplit
          exact Or.inr ⟨pre, p, post, rfl, by simpa using hp⟩

theorem addWaterExisting_result (D : Collaborators) (cellPosition : CellPosition)
    (cellSize : Int) (transform : Transform) (rest : TilesMap D)
    (tilesPositions : List TilePosition) (result : Bool) :
    (addWaterExisting D cellPosition cellSize transform rest tilesPositions result).result = true ↔
      result = true ∨
        ∃ e ∈ rest, (D.tileAddWater e.2 cellPosition cellSize transform).1 = true := by
  induction rest generalizing tilesPositions result with
  | nil => simp [addWaterExisting]
  | cons e rest ih =>
    obtain ⟨p, tile⟩ := e
    simp only [addWaterExisting, ih, Bool.or_eq_true, List.mem_cons, exists_eq_or_imp]
    tauto

theorem addWater_fst (D : Collaborators) (m : Manager D) (cellPosition : CellPosition)
    (cellSize : Int) (transform : Transform) :
    (addWater D m cellPosition cellSize transform).1 =
      (addWaterLoop D m cellPosition cellSize transform).result := rfl

theorem addWater_revision (D : Collaborators) (m : Manager D) (cellPosition : CellPosition)
    (cellSize : Int) (transform : Transform) :
    getRevision D (addWater D m cellPosition cellSize transform).2 =
      getRevision D m + (if (addWater D m cellPosition cellSize transform).1 then 1 else 0) := by
  unfold addWater getRevision
  dsimp only
  split <;> simp

/-- C9: `addWater` returns true exactly when a tile accepted the water: with the sentinel
cell size, when the tile's `addWater` returned true for some tile of the registry; with
a finite cell size, when it returned true at some visit of the grid-intersection query
(on the tile found or created at the position, in the registry as the earlier visits
left it). In both regimes the revision afterwards is the revision before plus one when
the call returns true, and the revision before when it returns false. -/
theorem addWater_true_iff_tile_accepted (D : Collaborators) (m : Manager D)
    (cellPosition : CellPosition) (cellSize : Int) (transform : Transform) :
    (cellSize = intMax →
      ((addWater D m cellPosition cellSize transform).1 = true ↔
        ∃ e ∈ m.mTiles, (D.tileAddWater e.2 cellPosition cellSize transform).1 = true)) ∧
    (cellSize ≠ intMax →
      ((addWater D m cellPosition cellSize transform).1 = true ↔
        ∃ pre p post, D.waterTiles cellSize transform = pre ++ p :: post ∧
          (D.tileAddWater (tileFor D m.mTilesGeneration
            (pre.foldl (addWaterStep D m.mTilesGeneration cellPosition cellSize transform)
              { tiles := m.mTiles
                tilesPositions := (m.mWaterTilesPositions cellPosition).getD []
                result := false }).tiles p) cellPosition cellSize transform).1 = true)) ∧
    getRevision D (addWater D m cellPosition cellSize transform).2 =
      getRevision D m + (if (addWater D m cellPosition cellSize transform).1 then 1 else 0) := by
  refine ⟨fun hmax => ?_, fun hfinite => ?_, addWater_revision D m cellPosition cellSize transform⟩
  · rw [addWater_fst]
    unfold addWaterLoop
    simp only [hmax, if_true]
    rw [addWaterExisting_result]
    simp
  · rw [addWater_fst]
    unfold addWaterLoop
    simp only [hfinite, if_false]
    rw [addWater_fold_result]
    simp

/-- Witness for C9: on the manager holding the box of the repository's tests, water of
the sentinel size and water of finite size 3 are both accepted and move the revision
from 1 to 2. -/
theorem addWater_true_iff_tile_accepted_witness :
    (addWater testCollaborators managerWithBox (0, 0) intMax 0).1 = true ∧
    getRevision testCollaborators (addWater testCollaborators managerWithBox (0, 0) intMax 0).2
      = 2 ∧
    (addWater testCollaborators managerWithBox (0, 0) 3 0).1 = true ∧
    getRevision testCollaborators (addWater testCollaborators managerWithBox (0, 0) 3 0).2
      = 2 ∧
    getRevision testCollaborators (addWater testCollaborators managerWithBox (0, 0) 3 0).2 =
      getRevision testCollaborators managerWithBox +
        (if (addWater testCollaborators managerWithBox (0, 0) 3 0).1 then 1 else 0) :=
  ⟨by decide, by decide, by decide, by decide,
    (addWater_true_iff_tile_accepted testCollaborators managerWithBox (0, 0) 3 0).2.2⟩

theorem addWater_fold_hasTile (D : Collaborators) (gen : Nat) (cellPosition : CellPosition)
    (cellSize : Int) (transform : Transform) (ps : List TilePosition) (st : WaterState D)
    (q : TilePosition) :
    (tilesFind (ps.foldl (addWaterStep D gen cellPosition cellSize transform) st).tiles q).isSome
        = true ↔
      (tilesFind st.tiles q).isSome = true ∨ q ∈ ps := by
  induction ps generalizing st with
  | nil => simp
  | cons a ps ih =>
    rw [List.foldl_cons, ih, addWaterStep_find]
    by_cases hq : q = a
    · simp [hq]
    · simp [hq]

theorem addWater_fold_tilesPositions (D : Collaborators) (gen : Nat)
    (cellPosition : CellPosition) (cellSize : Int) (transform : Transform)
    (init : WaterState D) (ps pre : List TilePosition) :
    (ps.foldl (addWaterStep D gen cellPosition cellSize transform)
        (pre.foldl (addWaterStep D gen cellPosition cellSize transform) init)).tilesPositions =
      (pre.foldl (addWaterStep D gen cellPosition cellSize transform) init).tilesPositions ++
        visitsAccepted (fun pre p => (D.tileAddWater (tileFor D gen
          (pre.foldl (addWaterStep D gen cellPosition cellSize transform) init).tiles p)
          cellPosition cellSize transform).1) pre ps := by
  induction ps generalizing pre with
  | nil => simp [visitsAccepted]
  | cons a ps ih =>
    have hpre : (pre ++ [a]).foldl (addWaterStep D gen cellPosition cellSize transform) init =
        addWaterStep D gen cellPosition cellSize transform
          (pre.foldl (addWaterStep D gen cellPosition cellSize transform) init) a := by
      simp [List.foldl_append]
    rw [List.foldl_cons, ← hpre, ih (pre ++ [a]), hpre, addWaterStep_tilesPositions]
    simp [visitsAccepted]

/-- C10: for a finite cell size and a cell position that is not yet a key of the water
membership table, after `addWater` every position yielded by the grid-intersection
query has a tile, and the list recorded for the cell is the yielded positions whose
tile accepted the water (the tile's `addWater`, on the tile found or created at the
position, in the registry as the earlier visits left it), in query order. -/
theorem addWater_finite_records_accepted (D : Collaborators) (m : Manager D)
    (cellPosition : CellPosition) (cellSize : Int) (transform : Transform)
    (hfinite : cellSize ≠ intMax) (hfresh : m.mWaterTilesPositions cellPosition = none) :
    (∀ p ∈ D.waterTiles cellSize transform,
      hasTile D (addWater D m cellPosition cellSize transform).2 p = true) ∧
    (addWater D m cellPosition cellSize transform).2.mWaterTilesPositions cellPosition =
      some (visitsAccepted (fun pre p => (D.tileAddWater (tileFor D m.mTilesGeneration
        (pre.foldl (addWaterStep D m.mTilesGeneration cellPosition cellSize transform)
          { tiles := m.mTiles, tilesPositions := [], result := false }).tiles p)
        cellPosition cellSize transform).1) [] (D.waterTiles cellSize transform)) := by
  have hloop : addWaterLoop D m cellPosition cellSize transform =
      (D.waterTiles cellSize transform).foldl
        (addWaterStep D m.mTilesGeneration cellPosition cellSize transform)
        { tiles := m.mTiles, tilesPositions := [], result := false } := by
    unfold addWaterLoop
    simp [hfinite, hfresh]
  constructor
  · intro p hp
    unfold hasTile addWater
    dsimp only
    rw [hloop]
    exact (addWater_fold_hasTile D _ cellPosition cellSize transform _ _ p).mpr (Or.inr hp)
  · unfold addWater
    dsimp only
    rw [hloop, Function.update_same]
    have key := addWater_fold_tilesPositions D m.mTilesGeneration cellPosition cellSize transform
      { tiles := m.mTiles, tilesPositions := [], result := false }
      (D.waterTiles cellSize transform) []
    simp only [List.foldl_nil, List.nil_append] at key
    rw [key]

/-- Witness for C10: water of size 3 added for cell `(0, 0)` to the manager holding the
box of the repository's tests. -/
theorem addWater_finite_records_accepted_witness :
    (3 : Int) ≠ intMax ∧
    managerWithBox.mWaterTilesPositions (0, 0) = none ∧
    (∀ p ∈ testCollaborators.waterTiles 3 0,
      hasTile testCollaborators (addWater testCollaborators managerWithBox (0, 0) 3 0).2 p = true) ∧
    (addWater testCollaborators managerWithBox (0, 0) 3 0).2.mWaterTilesPositions (0, 0) =
      some [⟨0, 0⟩, ⟨1, 0⟩, ⟨2, 0⟩] :=
  ⟨by decide, by decide,
    (addWater_finite_records_accepted testCollaborators managerWithBox (0, 0) 3 0
      (by decide) (by decide)).1,
    by decide⟩

/-! ## The order of tile positions and sorting -/

theorem TilePosition.le_def (a b : TilePosition) :
    a ≤ b ↔ a.x < b.x ∨ (a.x = b.x ∧ a.y ≤ b.y) := Iff.rfl

theorem TilePosition.lt_def (a b : TilePosition) :
    a < b ↔ a.x < b.x ∨ (a.x = b.x ∧ a.y < b.y) := Iff.rfl

instance : IsTotal TilePosition (· ≤ ·) :=
  ⟨fun a b => by
    simp only [TilePosition.le_def]
    omega⟩

instance : IsTrans TilePosition (· ≤ ·) :=
  ⟨fun a b c hab hbc => by
    simp only [TilePosition.le_def] at hab hbc ⊢
    omega⟩

theorem TilePosition.lt_of_le_of_ne (a b : TilePosition) (hle : a ≤ b) (hne : a ≠ b) : a < b := by
  have hne2 : ¬ (a.x = b.x ∧ a.y = b.y) := by
    intro h
    apply hne
    cases a; cases b
    simp only [TilePosition.mk.injEq]
    exact h
  simp only [TilePosition.le_def] at hle
  simp only [TilePosition.lt_def]
  omega

theorem sortTiles_sorted (l : List TilePosition) : (sortTiles l).Sorted (· ≤ ·) :=
  List.sorted_insertionSort (· ≤ ·) l

theorem mem_sortTiles (l : List TilePosition) (p : TilePosition) : p ∈ sortTiles l ↔ p ∈ l :=
  (List.perm_insertionSort (· ≤ ·) l).mem_iff

theorem sortTiles_nodup (l : List TilePosition) (h : l.Nodup) : (sortTiles l).Nodup :=
  (List.perm_insertionSort (· ≤ ·) l).nodup_iff.mpr h

theorem sortTiles_strictly_increasing (l : List TilePosition) (h : l.Nodup) :
    (sortTiles l).Sorted (· < ·) := by
  have hs : (sortTiles l).Pairwise (· ≤ ·) := sortTiles_sorted l
  have hn : (sortTiles l).Pairwise (· ≠ ·) := sortTiles_nodup l h
  exact (hs.and hn).imp (fun {a b} hab => TilePosition.lt_of_le_of_ne a b hab.1 hab.2)

/-! ## updateObject -/

theorem updateTile_find (D : Collaborators) (id : ObjectId) (transform : Transform)
    (areaType : AreaType) (p q : TilePosition) (tiles : TilesMap D) (hq : q ≠ p) :
    tilesFind (updateTile D id transform areaType p tiles).2 q = tilesFind tiles q := by
  unfold updateTile
  cases h : tilesFind tiles p with
  | none => rfl
  | some t => simp [tilesFind_tilesAssign, hq]

theorem updateObjectStep_find (D : Collaborators) (id : ObjectId) (shape : Shape)
    (transform : Transform) (areaType : AreaType) (oldTiles newTiles : List TilePosition)
    (st : UpdateState D) (p q : TilePosition) (hq : q ≠ p) :
    tilesFind (updateObjectStep D id shape transform areaType oldTiles newTiles st p).tiles q =
      tilesFind st.tiles q := by
  unfold updateObjectStep
  by_cases hnew : p ∈ newTiles
  · by_cases hold : p ∈ oldTiles
    · simp only [hnew, hold, if_true]
      exact updateTile_find D id transform areaType p q st.tiles hq
    · simp only [hnew, hold, if_true, if_false]
      rw [addTile_find, if_neg hq]
  · simp only [hnew, if_false]
    rw [removeTile_find, if_neg hq]

/-- Whether the model of `updateObject` passes a position to `onChangedTile`: exactly
when the position is outside the intersection of *old* and *new*. -/
theorem updateObjectStep_changedTiles (D : Collaborators) (id : ObjectId) (shape : Shape)
    (transform : Transform) (areaType : AreaType) (oldTiles newTiles : List TilePosition)
    (st : UpdateState D) (p : TilePosition) :
    (updateObjectStep D id shape transform areaType oldTiles newTiles st p).changedTiles =
      st.changedTiles ++
        (if decide (p ∉ newTiles) || decide (p ∉ oldTiles) then [p] else []) := by
  unfold updateObjectStep
  by_cases hnew : p ∈ newTiles
  · by_cases hold : p ∈ oldTiles
    · simp [hnew, hold]
    · simp [hnew, hold]
  · simp [hnew]

theorem updateObject_fold_changedTiles (D : Collaborators) (id : ObjectId) (shape : Shape)
    (transform : Transform) (areaType : AreaType) (oldTiles newTiles : List TilePosition)
    (ps : List TilePosition) (st : UpdateState D) :
    (ps.foldl (updateObjectStep D id shape transform areaType oldTiles newTiles) st).changedTiles =
      st.changedTiles ++
        ps.filter (fun p => decide (p ∉ newTiles) || decide (p ∉ oldTiles)) := by
  induction ps generalizing st with
  | nil => simp
  | cons a ps ih =>
    rw [List.foldl_cons, ih, updateObjectStep_changedTiles, List.filter_cons]
    split <;> simp

theorem tilesDiffer_eq_true_iff (oldTiles newTiles : List TilePosition) :
    tilesDiffer oldTiles newTiles = true ↔ ¬ ∀ p, p ∈ oldTiles ↔ p ∈ newTiles := by
  have hsame : (oldTiles.all (fun p => decide (p ∈ newTiles)) &&
      newTiles.all (fun p => decide (p ∈ oldTiles))) = true ↔
      ∀ p, p ∈ oldTiles ↔ p ∈ newTiles := by
    simp only [Bool.and_eq_true, List.all_eq_true, decide_eq_true_eq]
    exact ⟨fun h p => ⟨h.1 p, h.2 p⟩, fun h => ⟨fun p hp => (h p).mp hp, fun p hp => (h p).mpr hp⟩⟩
  unfold tilesDiffer
  rw [← hsame]
  cases (oldTiles.all (fun p => decide (p ∈ newTiles)) &&
      newTiles.all (fun p => decide (p ∈ oldTiles))) <;> simp

theorem updateObject_recorded (D : Collaborators) (m : Manager D) (id : ObjectId) (shape : Shape)
    (transform : Transform) (areaType : AreaType) (oldTiles : List TilePosition)
    (hrec : m.mObjectsTilesPositions id = some oldTiles) :
    (updateObject D m id shape transform areaType).1 =
        tilesDiffer oldTiles (D.shapeTiles shape transform) ∧
    (updateObject D m id shape transform areaType).2.1.mRevision =
        (if tilesDiffer oldTiles (D.shapeTiles shape transform) then m.mRevision + 1
          else m.mRevision) ∧
    (updateObject D m id shape transform areaType).2.2 =
        ((sortTiles (oldTiles ++ D.shapeTiles shape transform).dedup).foldl
          (updateObjectStep D id shape transform areaType oldTiles (D.shapeTiles shape transform))
          { tiles := m.mTiles, generation := m.mTilesGeneration, changedTiles := [] }).changedTiles := by
  unfold updateObject
  rw [hrec]
  exact ⟨rfl, rfl, rfl⟩

theorem updateObject_changedTiles (D : Collaborators) (m : Manager D) (id : ObjectId)
    (shape : Shape) (transform : Transform) (areaType : AreaType) (oldTiles : List TilePosition)
    (hrec : m.mObjectsTilesPositions id = some oldTiles) :
    (updateObject D m id shape transform areaType).2.2 =
      (sortTiles (oldTiles ++ D.shapeTiles shape transform).dedup).filter
        (fun p => decide (p ∉ D.shapeTiles shape transform) || decide (p ∉ oldTiles)) := by
  rw [(updateObject_recorded D m id shape transform areaType oldTiles hrec).2.2,
    updateObject_fold_changedTiles]
  simp

theorem addObject_fold_all_accepted (D : Collaborators) (gen : Nat) (id : ObjectId)
    (shape : Shape) (transform : Transform) (areaType : AreaType) (ps : List TilePosition)
    (st : TilesMap D × List TilePosition)
    (hacc : ∀ pre p post, ps = pre ++ p :: post →
      (D.tileAddObject (tileFor D gen
        (pre.foldl (addObjectStep D gen id shape transform areaType) st).1 p)
        id shape transform areaType).1 = true) :
    (ps.foldl (addObjectStep D gen id shape transform areaType) st).2 = st.2 ++ ps := by
  induction ps generalizing st with
  | nil => simp
  | cons a ps ih =>
    have ha := hacc [] a ps rfl
    simp only [List.foldl_nil] at ha
    rw [List.foldl_cons, ih, addObjectStep_snd, ha]
    · simp
    · intro pre p post hsplit
      simpa using hacc (a :: pre) p post (by simp [hsplit])

theorem addObject_fold_offered_accepted (D : Collaborators) (gen : Nat) (id : ObjectId)
    (shape : Shape) (transform : Transform) (areaType : AreaType) (ps : List TilePosition)
    (st : TilesMap D × List TilePosition)
    (hacc : ∀ pre p post, ps = pre ++ p :: post →
      (D.tileAddObject (tileFor D gen
        (pre.foldl (addObjectStep D gen id shape transform areaType) st).1 p)
        id shape transform areaType).1 = true)
    (q : TilePosition)
    (h : q ∈ ps ∨ ∃ t, (D.tileAddObject t id shape transform areaType).1 = true ∧
      tilesFind st.1 q = some (D.tileAddObject t id shape transform areaType).2) :
    ∃ t, (D.tileAddObject t id shape transform areaType).1 = true ∧
      tilesFind (ps.foldl (addObjectStep D gen id shape transform areaType) st).1 q =
        some (D.tileAddObject t id shape transform areaType).2 := by
  induction ps generalizing st with
  | nil => simpa using h
  | cons a ps ih =>
    have ha := hacc [] a ps rfl
    simp only [List.foldl_nil] at ha
    rw [List.foldl_cons]
    apply ih
    · intro pre p post hsplit
      simpa using hacc (a :: pre) p post (by simp [hsplit])
    · by_cases hq : q = a
      · right
        rw [addObjectStep_fst, addTile_find, if_pos hq]
        exact ⟨_, ha, rfl⟩
      · rcases h with h | h
        · left
          simpa [hq] using h
        · right
          rw [addObjectStep_fst, addTile_find, if_neg hq]
          exact h

theorem addObject_recorded_of_true (D : Collaborators) (m : Manager D) (id : ObjectId)
    (shape : Shape) (transform : Transform) (areaType : AreaType)
    (htrue : (addObject D m id shape transform areaType).1 = true) :
    (addObject D m id shape transform areaType).2.mObjectsTilesPositions id =
      some (sortTiles ((D.shapeTiles shape transform).foldl
        (addObjectStep D m.mTilesGeneration id shape transform areaType) (m.mTiles, [])).2) ∧
    (addObject D m id shape transform areaType).2.mRevision = m.mRevision + 1 := by
  unfold addObject at htrue ⊢
  dsimp only at htrue ⊢
  split
  · rename_i h
    rw [if_pos h] at htrue
    exact absurd htrue (by simp)
  · simp

/-! ## addWater with the sentinel cell size -/

theorem addWaterExisting_tiles (D : Collaborators) (cellPosition : CellPosition)
    (cellSize : Int) (transform : Transform) (rest : TilesMap D)
    (tilesPositions : List TilePosition) (result : Bool) :
    (addWaterExisting D cellPosition cellSize transform rest tilesPositions result).tiles =
      rest.map (fun e => (e.1, (D.tileAddWater e.2 cellPosition cellSize transform).2)) := by
  induction rest generalizing tilesPositions result with
  | nil => rfl
  | cons e rest ih =>
    obtain ⟨p, tile⟩ := e
    simp only [addWaterExisting, ih, List.map_cons]

theorem tilesFind_map (D : Collaborators) (f : D.Tile → D.Tile) (tiles : TilesMap D)
    (p : TilePosition) :
    tilesFind (tiles.map (fun e => (e.1, f e.2))) p = (tilesFind tiles p).map f := by
  induction tiles with
  | nil => rfl
  | cons e rest ih =>
    obtain ⟨q, t⟩ := e
    by_cases hq : q = p
    · simp [tilesFind, hq]
    · simp [tilesFind, hq, ih]

theorem addWater_sentinel_tiles (D : Collaborators) (m : Manager D)
    (cellPosition : CellPosition) (transform : Transform) :
    (addWater D m cellPosition intMax transform).2.mTiles =
      m.mTiles.map (fun e => (e.1, (D.tileAddWater e.2 cellPosition intMax transform).2)) := by
  unfold addWater addWaterLoop
  simp only [if_true]
  exact addWaterExisting_tiles D cellPosition intMax transform m.mTiles _ false

/-- C11: `addWater` with the sentinel cell size (`INT_MAX`) creates no tile: at every
position `hasTile` after the call is `hasTile` before it, and the registry after the
call is the registry before it with each tile replaced by what its own `addWater`
left, so the water is offered to exactly the tiles present at call time. -/
theorem addWater_sentinel_creates_no_tile (D : Collaborators) (m : Manager D)
    (cellPosition : CellPosition) (transform : Transform) :
    (∀ p, hasTile D (addWater D m cellPosition intMax transform).2 p = hasTile D m p) ∧
    (addWater D m cellPosition intMax transform).2.mTiles =
      m.mTiles.map (fun e => (e.1, (D.tileAddWater e.2 cellPosition intMax transform).2)) := by
  refine ⟨fun p => ?_, addWater_sentinel_tiles D m cellPosition transform⟩
  unfold hasTile
  rw [addWater_sentinel_tiles,
    tilesFind_map D (fun t => (D.tileAddWater t cellPosition intMax transform).2)]
  cases tilesFind m.mTiles p <;> rfl

/-! ## removeWater -/

/-- C14: `removeWater` of a cell position that is not a key of the water membership
table returns nothing and leaves the manager as it was: revision, tiles generation,
registry and both membership tables. -/
theorem removeWater_absent_is_noop (D : Collaborators) (m : Manager D)
    (cellPosition : CellPosition) (habsent : m.mWaterTilesPositions cellPosition = none) :
    (removeWater D m cellPosition).1 = none ∧ (removeWater D m cellPosition).2 = m := by
  unfold removeWater
  rw [habsent]
  exact ⟨rfl, rfl⟩

/-- Witness for C14: `removeWater` on a newly constructed manager, as in the repository's
test `remove_water_for_absent_cell_should_return_nullopt`. -/
theorem removeWater_absent_is_noop_witness :
    (Manager.empty testCollaborators).mWaterTilesPositions (0, 0) = none ∧
    (removeWater testCollaborators (Manager.empty testCollaborators) (0, 0)).1 = none ∧
    (removeWater testCollaborators (Manager.empty testCollaborators) (0, 0)).2
      = Manager.empty testCollaborators :=
  ⟨rfl, removeWater_absent_is_noop testCollaborators (Manager.empty testCollaborators) (0, 0) rfl⟩

theorem removeWaterStep_find (D : Collaborators) (cellPosition : CellPosition)
    (st : Sweep D Water) (p q : TilePosition) :
    tilesFind (removeWaterStep D cellPosition st p).tiles q =
      if q = p then tileAfterRemoveWater D cellPosition (tilesFind st.tiles p)
      else tilesFind st.tiles q := by
  unfold removeWaterStep
  cases h : tilesFind st.tiles p with
  | none =>
    by_cases hq : q = p
    · simp [tileAfterRemoveWater, hq, h]
    · simp [hq]
  | some t =>
    by_cases hempty : D.tileIsEmpty (D.tileRemoveWater t cellPosition).2 = true
    · simp [tileAfterRemoveWater, hempty, tilesFind_tilesErase]
    · simp [tileAfterRemoveWater, hempty, tilesFind_tilesAssign, h]

theorem tileAfterRemoveWater_again (D : Collaborators) (cellPosition : CellPosition)
    (hagain : ∀ t, (D.tileRemoveWater (D.tileRemoveWater t cellPosition).2 cellPosition).2 =
      (D.tileRemoveWater t cellPosition).2)
    (found : Option D.Tile) :
    tileAfterRemoveWater D cellPosition (tileAfterRemoveWater D cellPosition found) =
      tileAfterRemoveWater D cellPosition found := by
  cases found with
  | none => rfl
  | some t =>
    by_cases hempty : D.tileIsEmpty (D.tileRemoveWater t cellPosition).2 = true
    · simp [tileAfterRemoveWater, hempty]
    · simp [tileAfterRemoveWater, hempty, hagain t]

theorem removeWater_fold_find (D : Collaborators) (cellPosition : CellPosition)
    (hagain : ∀ t, (D.tileRemoveWater (D.tileRemoveWater t cellPosition).2 cellPosition).2 =
      (D.tileRemoveWater t cellPosition).2)
    (ps : List TilePosition) (st : Sweep D Water) (q : TilePosition) :
    tilesFind (ps.foldl (removeWaterStep D cellPosition) st).tiles q =
      if q ∈ ps then tileAfterRemoveWater D cellPosition (tilesFind st.tiles q)
      else tilesFind st.tiles q := by
  induction ps generalizing st with
  | nil => simp
  | cons a ps ih =>
    rw [List.foldl_cons, ih, removeWaterStep_find]
    by_cases hq : q = a
    · subst hq
      by_cases hmem : q ∈ ps
      · simp [hmem, tileAfterRemoveWater_again D cellPosition hagain]
      · simp [hmem]
    · simp [hq]

theorem removeWater_recorded (D : Collaborators) (m : Manager D) (cellPosition : CellPosition)
    (positions : List TilePosition) (hrec : m.mWaterTilesPositions cellPosition = some positions) :
    removeWater D m cellPosition =
      ((positions.foldl (removeWaterStep D cellPosition)
          { tiles := m.mTiles, generation := m.mTilesGeneration, result := none }).result,
        { m with
          mTiles := (positions.foldl (removeWaterStep D cellPosition)
            { tiles := m.mTiles, generation := m.mTilesGeneration, result := none }).tiles
          mTilesGeneration := (positions.foldl (removeWaterStep D cellPosition)
            { tiles := m.mTiles, generation := m.mTilesGeneration, result := none }).generation
          mRevision :=
            if (positions.foldl (removeWaterStep D cellPosition)
              { tiles := m.mTiles, generation := m.mTilesGeneration, result := none }).result.isSome
            then m.mRevision + 1 else m.mRevision }) := by
  unfold removeWater
  rw [hrec]

/-- C12: for a recorded water cell, after `removeWater` a recorded position whose tile
reports empty once the water is taken out has no tile any more, a recorded position
whose tile does not report empty keeps its tile, in the state the tile's `removeWater`
left it in, a recorded position that has no tile is skipped, and a position that is
not recorded has the tile it had. Assumed of the tiles is that taking the cell out of
a tile a second time leaves the tile as the first time left it (a recorded list may
name a position more than once). -/
theorem removeWater_clears_recorded_tiles (D : Collaborators) (m : Manager D)
    (cellPosition : CellPosition) (positions : List TilePosition)
    (hrec : m.mWaterTilesPositions cellPosition = some positions)
    (hagain : ∀ t, (D.tileRemoveWater (D.tileRemoveWater t cellPosition).2 cellPosition).2 =
      (D.tileRemoveWater t cellPosition).2)
    (p : TilePosition) :
    (p ∈ positions → ∀ tile, tilesFind m.mTiles p = some tile →
      (D.tileIsEmpty (D.tileRemoveWater tile cellPosition).2 = true →
        hasTile D (removeWater D m cellPosition).2 p = false) ∧
      (D.tileIsEmpty (D.tileRemoveWater tile cellPosition).2 = false →
        tilesFind (removeWater D m cellPosition).2.mTiles p =
          some (D.tileRemoveWater tile cellPosition).2)) ∧
    (p ∈ positions → tilesFind m.mTiles p = none →
      tilesFind (removeWater D m cellPosition).2.mTiles p = none) ∧
    (p ∉ positions → tilesFind (removeWater D m cellPosition).2.mTiles p = tilesFind m.mTiles p) := by
  have key := removeWater_fold_find D cellPosition hagain positions
    { tiles := m.mTiles, generation := m.mTilesGeneration, result := none } p
  rw [removeWater_recorded D m cellPosition positions hrec]
  dsimp only at key ⊢
  refine ⟨fun hp tile htile => ⟨fun hempty => ?_, fun hfull => ?_⟩, fun hp hnone => ?_,
    fun hp => ?_⟩
  · rw [if_pos hp, htile] at key
    simp only [tileAfterRemoveWater, hempty, if_true] at key
    simp [hasTile, key]
  · rw [if_pos hp, htile] at key
    simpa [tileAfterRemoveWater, hfull] using key
  · rw [if_pos hp, hnone] at key
    simpa [tileAfterRemoveWater] using key
  · rw [if_neg hp] at key
    exact key

theorem SpecTile.removeWater_again (t : SpecTile) (cellPosition : CellPosition) :
    (SpecTile.removeWater (SpecTile.removeWater t cellPosition).2 cellPosition).2 =
      (SpecTile.removeWater t cellPosition).2 := by
  cases h : t.water.find? (fun w => w.1 == cellPosition) with
  | none => simp [SpecTile.removeWater, h]
  | some w =>
    have hnone : (t.water.filter (fun e => !(e.1 == cellPosition))).find?
        (fun w => w.1 == cellPosition) = none := by
      rw [List.find?_eq_none]
      intro x hx
      have := (List.mem_filter.mp hx).2
      simpa using this
    simp [SpecTile.removeWater, h, hnone]

/-- Witness for C12: the scenario of the repository's test
`remove_water_for_existing_cell_should_leave_not_empty_tiles`; the tile at `(1, 0)`
held only the water and is erased, the tile at `(0, 0)` also holds the box and stays. -/
theorem removeWater_clears_recorded_tiles_witness :
    managerWithBoxAndWater.mWaterTilesPositions (0, 0) = some [⟨0, 0⟩, ⟨1, 0⟩, ⟨2, 0⟩] ∧
    (∀ t : SpecTile, (SpecTile.removeWater (SpecTile.removeWater t (0, 0)).2 (0, 0)).2 =
      (SpecTile.removeWater t (0, 0)).2) ∧
    hasTile testCollaborators managerWithBoxAndWater ⟨1, 0⟩ = true ∧
    hasTile testCollaborators (removeWater testCollaborators managerWithBoxAndWater (0, 0)).2
      ⟨1, 0⟩ = false ∧
    hasTile testCollaborators (removeWater testCollaborators managerWithBoxAndWater (0, 0)).2
      ⟨0, 0⟩ = true :=
  ⟨by decide, fun t => SpecTile.removeWater_again t (0, 0), by decide,
    ((removeWater_clears_recorded_tiles testCollaborators managerWithBoxAndWater (0, 0)
      [⟨0, 0⟩, ⟨1, 0⟩, ⟨2, 0⟩] (by decide) (fun t => SpecTile.removeWater_again t (0, 0))
      ⟨1, 0⟩).1 (by decide)
      { position := ⟨1, 0⟩, generation := 0, objects := [],
        water := [((0, 0), { mCellSize := 3, mTransform := 0 })], reported := none }
      rfl).1 (by decide),
    by decide⟩

theorem removeWaterStep_result_of_none (D : Collaborators) (cellPosition : CellPosition)
    (st : Sweep D Water) (p : TilePosition) (h : st.result = none) :
    (removeWaterStep D cellPosition st p).result = removeWaterResult D cellPosition st.tiles p := by
  unfold removeWaterStep removeWaterResult
  cases tilesFind st.tiles p with
  | none => exact h
  | some t =>
    dsimp only
    rw [h]
    cases (D.tileRemoveWater t cellPosition).1 <;> rfl

theorem removeWater_fold_result_of_some (D : Collaborators) (cellPosition : CellPosition)
    (ps : List TilePosition) (st : Sweep D Water) (r : Water) (h : st.result = some r) :
    (ps.foldl (removeWaterStep D cellPosition) st).result = some r := by
  induction ps generalizing st with
  | nil => simpa using h
  | cons a ps ih =>
    rw [List.foldl_cons]
    apply ih
    unfold removeWaterStep
    cases tilesFind st.tiles a with
    | none => exact h
    | some t =>
      dsimp only
      rw [h]
      simp

theorem removeWater_fold_first (D : Collaborators) (cellPosition : CellPosition)
    (ps : List TilePosition) (st : Sweep D Water) (hst : st.result = none) :
    ((ps.foldl (removeWaterStep D cellPosition) st).result = none ↔
      ∀ pre p post, ps = pre ++ p :: post →
        removeWaterResult D cellPosition
          (pre.foldl (removeWaterStep D cellPosition) st).tiles p = none) ∧
    (∀ r, (ps.foldl (removeWaterStep D cellPosition) st).result = some r →
      ∃ pre p post, ps = pre ++ p :: post ∧
        removeWaterResult D cellPosition
          (pre.foldl (removeWaterStep D cellPosition) st).tiles p = some r ∧
        ∀ pre2 p2 post2, pre = pre2 ++ p2 :: post2 →
          removeWaterResult D cellPosition
            (pre2.foldl (removeWaterStep D cellPosition) st).tiles p2 = none) := by
  induction ps generalizing st with
  | nil => simp [hst]
  | cons a ps ih =>
    rw [List.foldl_cons]
    have hstep := removeWaterStep_result_of_none D cellPosition st a hst
    cases ha : removeWaterResult D cellPosition st.tiles a with
    | none =>
      rw [ha] at hstep
      obtain ⟨ih1, ih2⟩ := ih (removeWaterStep D cellPosition st a) hstep
      constructor
      · rw [ih1]
        constructor
        · intro h pre p post hsplit
          cases pre with
          | nil =>
            simp only [List.nil_append, List.cons.injEq] at hsplit
            obtain ⟨rfl, rfl⟩ := hsplit
            simpa using ha
          | cons b pre =>
            simp only [List.cons_append, List.cons.injEq] at hsplit
            obtain ⟨rfl, rfl⟩ := hsplit
            simpa using h pre p post rfl
        · intro h pre p post hsplit
          simpa using h (a :: pre) p post (by simp [hsplit])
      · intro r hr
        obtain ⟨pre, p, post, hsplit, hp, hbefore⟩ := ih2 r hr
        refine ⟨a :: pre, p, post, by simp [hsplit], by simpa using hp, ?_⟩
        intro pre2 p2 post2 hsplit2
        cases pre2 with
        | nil =>
          simp only [List.nil_append, List.cons.injEq] at hsplit2
          obtain ⟨rfl, rfl⟩ := hsplit2
          simpa using ha
        | cons b pre2 =>
          simp only [List.cons_append, List.cons.injEq] at hsplit2
          obtain ⟨rfl, rfl⟩ := hsplit2
          simpa using hbefore pre2 p2 post2 rfl
    | some r0 =>
      rw [ha] at hstep
      have hfinal := removeWater_fold_result_of_some D cellPosition ps _ r0 hstep
      constructor
      · constructor
        · intro h
          rw [hfinal] at h
          exact absurd h (by simp)
        · intro h
          have := h [] a ps rfl
          simp only [List.foldl_nil] at this
          rw [ha] at this
          exact absurd this (by simp)
      · intro r hr
        rw [hfinal] at hr
        cases hr
        exact ⟨[], a, ps, rfl, by simpa using ha, by simp⟩

/-- Tiles recorded by the finite branch of `addWater` hold the water: when the query
yields no position twice, every position of `tilesPositions` has a tile that is the
result of an accepted `addWater`. -/
theorem addWater_fold_recorded_accepted (D : Collaborators) (gen : Nat)
    (cellPosition : CellPosition) (cellSize : Int) (transform : Transform)
    (ps : List TilePosition) (hnodup : ps.Nodup) (st : WaterState D)
    (hnew : ∀ p ∈ st.tilesPositions, p ∉ ps)
    (hst : ∀ p ∈ st.tilesPositions, ∃ t,
      (D.tileAddWater t cellPosition cellSize transform).1 = true ∧
      tilesFind st.tiles p = some (D.tileAddWater t cellPosition cellSize transform).2) :
    ∀ p ∈ (ps.foldl (addWaterStep D gen cellPosition cellSize transform) st).tilesPositions,
      ∃ t, (D.tileAddWater t cellPosition cellSize transform).1 = true ∧
        tilesFind (ps.foldl (addWaterStep D gen cellPosition cellSize transform) st).tiles p =
          some (D.tileAddWater t cellPosition cellSize transform).2 := by
  induction ps generalizing st with
  | nil => simpa using hst
  | cons a ps ih =>
    obtain ⟨ha, hps⟩ := List.nodup_cons.mp hnodup
    rw [List.foldl_cons]
    apply ih hps
    · intro p hp
      rw [addWaterStep_tilesPositions] at hp
      rcases List.mem_append.mp hp with hp | hp
      · exact fun h => hnew p hp (List.mem_cons_of_mem a h)
      · split at hp
        · simp only [List.mem_singleton] at hp
          subst hp
          exact ha
        · simp at hp
    · intro p hp
      rw [addWaterStep_tilesPositions] at hp
      rw [addWaterStep_find]
      rcases List.mem_append.mp hp with hp | hp
      · have hpa : p ≠ a := fun h => hnew p hp (h ▸ List.mem_cons_self a ps)
        rw [if_neg hpa]
        exact hst p hp
      · split at hp
        · rename_i hacc
          simp only [List.mem_singleton] at hp
          subst hp
          rw [if_pos rfl]
          exact ⟨_, hacc, rfl⟩
        · simp at hp

theorem addWater_fold_tilesPositions_mono (D : Collaborators) (gen : Nat)
    (cellPosition : CellPosition) (cellSize : Int) (transform : Transform)
    (ps : List TilePosition) (st : WaterState D) (p : TilePosition)
    (hp : p ∈ st.tilesPositions) :
    p ∈ (ps.foldl (addWaterStep D gen cellPosition cellSize transform) st).tilesPositions := by
  have key := addWater_fold_tilesPositions D gen cellPosition cellSize transform st ps []
  simp only [List.foldl_nil] at key
  rw [key]
  exact List.mem_append_left _ hp

theorem addWater_fold_result_recorded (D : Collaborators) (gen : Nat)
    (cellPosition : CellPosition) (cellSize : Int) (transform : Transform)
    (ps : List TilePosition) (st : WaterState D)
    (h : (ps.foldl (addWaterStep D gen cellPosition cellSize transform) st).result = true) :
    st.result = true ∨
      ∃ p, p ∈ (ps.foldl (addWaterStep D gen cellPosition cellSize transform) st).tilesPositions := by
  induction ps generalizing st with
  | nil => exact Or.inl (by simpa using h)
  | cons a ps ih =>
    rw [List.foldl_cons] at h ⊢
    rcases ih _ h with h1 | h1
    · rw [addWaterStep_result, Bool.or_eq_true] at h1
      rcases h1 with h1 | h1
      · right
        refine ⟨a, addWater_fold_tilesPositions_mono D gen cellPosition cellSize transform ps _ a ?_⟩
        rw [addWaterStep_tilesPositions, h1]
        simp
      · exact Or.inl h1
    · exact Or.inr h1

/-- C13: for a recorded cell, `removeWater` returns the first non-empty summary reported
along the recorded list (the tile's `removeWater` at a position, in the registry as the
earlier positions left it; a position without a tile reports nothing), and returns
nothing exactly when no position reports one; the revision moves by one exactly when
the returned value is not empty. In particular `removeWater` right after a finite
`addWater` that returned true on a newly constructed manager returns a summary whose
cell size is the one added; assumed there is that the query yields no position twice
and that a tile which accepted the water reports it, with its cell size, when the
water is taken out. -/
theorem removeWater_returns_first_summary (D : Collaborators) (m : Manager D)
    (cellPosition : CellPosition) :
    (∀ positions, m.mWaterTilesPositions cellPosition = some positions →
      ((removeWater D m cellPosition).1 = none ↔
        ∀ pre p post, positions = pre ++ p :: post →
          removeWaterResult D cellPosition
            (pre.foldl (removeWaterStep D cellPosition)
              { tiles := m.mTiles, generation := m.mTilesGeneration, result := none }).tiles p
            = none) ∧
      (∀ r, (removeWater D m cellPosition).1 = some r →
        ∃ pre p post, positions = pre ++ p :: post ∧
          removeWaterResult D cellPosition
            (pre.foldl (removeWaterStep D cellPosition)
              { tiles := m.mTiles, generation := m.mTilesGeneration, result := none }).tiles p
            = some r ∧
          ∀ pre2 p2 post2, pre = pre2 ++ p2 :: post2 →
            removeWaterResult D cellPosition
              (pre2.foldl (removeWaterStep D cellPosition)
                { tiles := m.mTiles, generation := m.mTilesGeneration, result := none }).tiles p2
              = none) ∧
      getRevision D (removeWater D m cellPosition).2 =
        getRevision D m + (if (removeWater D m cellPosition).1.isSome then 1 else 0)) ∧
    (∀ cellSize transform, cellSize ≠ intMax → (D.waterTiles cellSize transform).Nodup →
      (∀ t, (D.tileAddWater t cellPosition cellSize transform).1 = true →
        ∃ w, (D.tileRemoveWater (D.tileAddWater t cellPosition cellSize transform).2
          cellPosition).1 = some w ∧ w.mCellSize = cellSize) →
      (addWater D (Manager.empty D) cellPosition cellSize transform).1 = true →
      ∃ w, (removeWater D (addWater D (Manager.empty D) cellPosition cellSize transform).2
        cellPosition).1 = some w ∧ w.mCellSize = cellSize) := by
  constructor
  · intro positions hrec
    obtain ⟨h1, h2⟩ := removeWater_fold_first D cellPosition positions
      { tiles := m.mTiles, generation := m.mTilesGeneration, result := none } rfl
    rw [removeWater_recorded D m cellPosition positions hrec]
    refine ⟨h1, h2, ?_⟩
    unfold getRevision
    dsimp only
    split <;> simp
  · intro cellSize transform hfinite hnodup hround htrue
    have hloop : addWaterLoop D (Manager.empty D) cellPosition cellSize transform =
        (D.waterTiles cellSize transform).foldl
          (addWaterStep D 0 cellPosition cellSize transform)
          { tiles := [], tilesPositions := [], result := false } := by
      unfold addWaterLoop
      simp [hfinite, Manager.empty]
    rw [addWater_fst, hloop] at htrue
    have hrecorded := addWater_fold_recorded_accepted D 0 cellPosition cellSize transform
      (D.waterTiles cellSize transform) hnodup
      { tiles := [], tilesPositions := [], result := false } (by simp) (by simp)
    have hsome := addWater_fold_result_recorded D 0 cellPosition cellSize transform _ _ htrue
    simp only [Bool.false_eq_true, false_or] at hsome
    generalize hfinal : (D.waterTiles cellSize transform).foldl
      (addWaterStep D 0 cellPosition cellSize transform)
      { tiles := [], tilesPositions := [], result := false } = final at hrecorded hsome
    have hrec : (addWater D (Manager.empty D) cellPosition cellSize transform).2.mWaterTilesPositions
        cellPosition = some final.tilesPositions := by
      unfold addWater
      dsimp only
      rw [hloop, hfinal, Function.update_same]
    have htiles : (addWater D (Manager.empty D) cellPosition cellSize transform).2.mTiles =
        final.tiles := by
      unfold addWater
      dsimp only
      rw [hloop, hfinal]
    rw [removeWater_recorded D _ cellPosition _ hrec, htiles]
    dsimp only
    cases hl : final.tilesPositions with
    | nil =>
      obtain ⟨p, hp⟩ := hsome
      rw [hl] at hp
      exact absurd hp (by simp)
    | cons p0 rest =>
      obtain ⟨t, hacc, hfind⟩ := hrecorded p0 (by rw [hl]; exact List.mem_cons_self _ _)
      obtain ⟨w, hw, hsize⟩ := hround t hacc
      refine ⟨w, ?_, hsize⟩
      rw [List.foldl_cons]
      apply removeWater_fold_result_of_some
      rw [removeWaterStep_result_of_none _ _ _ _ rfl]
      unfold removeWaterResult
      dsimp only
      rw [hfind]
      exact hw

theorem SpecTile.removeWater_after_addWater (t : SpecTile) (cellPosition : CellPosition)
    (cellSize : Int) (transform : Transform)
    (hacc : (SpecTile.addWater t cellPosition cellSize transform).1 = true) :
    ∃ w, (SpecTile.removeWater (SpecTile.addWater t cellPosition cellSize transform).2
      cellPosition).1 = some w ∧ w.mCellSize = cellSize := by
  have hany : t.water.any (fun w => w.1 == cellPosition) = false := by
    cases hh : t.water.any (fun w => w.1 == cellPosition) with
    | false => rfl
    | true => simp [SpecTile.addWater, hh] at hacc
  have hnone : t.water.find? (fun w => w.1 == cellPosition) = none := by
    rw [List.find?_eq_none]
    intro x hx
    have := List.any_eq_false.mp hany x hx
    simpa using this
  refine ⟨{ mCellSize := cellSize, mTransform := transform }, ?_, rfl⟩
  simp [SpecTile.addWater, SpecTile.removeWater, hany, List.find?_append, hnone]

/-- Witness for C13: the scenario of the repository's test
`remove_water_for_existing_cell_should_return_removed_water` (with cell size `3`):
water added to a newly constructed manager and removed again. -/
theorem removeWater_returns_first_summary_witness :
    (3 : Int) ≠ intMax ∧
    (testCollaborators.waterTiles 3 0).Nodup ∧
    (addWater testCollaborators (Manager.empty testCollaborators) (0, 0) 3 0).1 = true ∧
    (removeWater testCollaborators
      (addWater testCollaborators (Manager.empty testCollaborators) (0, 0) 3 0).2 (0, 0)).1 =
      some { mCellSize := 3, mTransform := 0 } ∧
    ∃ w, (removeWater testCollaborators
      (addWater testCollaborators (Manager.empty testCollaborators) (0, 0) 3 0).2 (0, 0)).1 =
      some w ∧ w.mCellSize = 3 :=
  ⟨by decide, by decide, by decide, by decide,
    (removeWater_returns_first_summary testCollaborators (Manager.empty testCollaborators)
      (0, 0)).2 3 0 (by decide) (by decide)
      (fun t hacc => SpecTile.removeWater_after_addWater t (0, 0) 3 0 hacc) (by decide)⟩

/-! ## The counters over the public calls -/

theorem addObject_revision (D : Collaborators) (m : Manager D) (id : ObjectId) (shape : Shape)
    (transform : Transform) (areaType : AreaType) :
    (addObject D m id shape transform areaType).2.mRevision =
      m.mRevision + (if (addObject D m id shape transform areaType).1 then 1 else 0) := by
  unfold addObject
  dsimp only
  split <;> simp

theorem removeObject_revision (D : Collaborators) (m : Manager D) (id : ObjectId) :
    (removeObject D m id).2.mRevision =
      m.mRevision + (if (removeObject D m id).1.isSome then 1 else 0) := by
  unfold removeObject
  cases m.mObjectsTilesPositions id with
  | none => simp
  | some positions =>
    dsimp only
    split <;> simp

theorem removeWater_revision (D : Collaborators) (m : Manager D) (cellPosition : CellPosition) :
    (removeWater D m cellPosition).2.mRevision =
      m.mRevision + (if (removeWater D m cellPosition).1.isSome then 1 else 0) := by
  unfold removeWater
  cases m.mWaterTilesPositions cellPosition with
  | none => simp
  | some positions =>
    dsimp only
    split <;> simp

theorem reportNavMeshChange_counters (D : Collaborators) (m : Manager D)
    (tilePosition : TilePosition) (recastMeshVersion navMeshVersion : Version) :
    (reportNavMeshChange D m tilePosition recastMeshVersion navMeshVersion).mRevision =
        m.mRevision ∧
    (reportNavMeshChange D m tilePosition recastMeshVersion navMeshVersion).mTilesGeneration =
        m.mTilesGeneration := by
  unfold reportNavMeshChange
  cases tilesFind m.mTiles tilePosition <;> exact ⟨rfl, rfl⟩

/-- C15: for every manager state and every public call (`addObject`, `removeObject`,
`addWater`, `removeWater`, `getMesh`, `hasTile`, `getRevision`, `reportNavMeshChange`),
the revision after the call is the revision before it or exactly one more, however
many tiles the call touches. -/
theorem revision_moves_by_at_most_one (D : Collaborators) (m : Manager D) (call : Call) :
    getRevision D (call.run D m) = getRevision D m ∨
    getRevision D (call.run D m) = getRevision D m + 1 := by
  unfold getRevision
  cases call with
  | addObject id shape transform areaType =>
    have h := addObject_revision D m id shape transform areaType
    simp only [Call.run]
    split at h <;> omega
  | removeObject id =>
    have h := removeObject_revision D m id
    simp only [Call.run]
    split at h <;> omega
  | addWater cellPosition cellSize transform =>
    have h := addWater_revision D m cellPosition cellSize transform
    unfold getRevision at h
    simp only [Call.run]
    split at h <;> omega
  | removeWater cellPosition =>
    have h := removeWater_revision D m cellPosition
    simp only [Call.run]
    split at h <;> omega
  | getMesh p => exact Or.inl rfl
  | hasTile p => exact Or.inl rfl
  | getRevision => exact Or.inl rfl
  | reportNavMeshChange p r n =>
    exact Or.inl (reportNavMeshChange_counters D m p r n).1

theorem tilesFind_eq_none_iff {D : Collaborators} (tiles : TilesMap D) (p : TilePosition) :
    tilesFind tiles p = none ↔ p ∉ tiles.map Prod.fst := by
  induction tiles with
  | nil => simp [tilesFind]
  | cons e rest ih =>
    obtain ⟨q, u⟩ := e
    by_cases hq : q = p
    · simp [tilesFind, hq]
    · have hq2 : ¬ p = q := fun h => hq h.symm
      simp [tilesFind, hq, hq2, ih]

theorem tilesAssign_keys {D : Collaborators} (tiles : TilesMap D) (p : TilePosition)
    (t : D.Tile) : (tilesAssign tiles p t).map Prod.fst = tiles.map Prod.fst := by
  induction tiles with
  | nil => rfl
  | cons e rest ih =>
    obtain ⟨q, u⟩ := e
    by_cases hq : q = p
    · simp [tilesAssign, hq]
    · simp [tilesAssign, hq, ih]

theorem tilesAssign_length {D : Collaborators} (tiles : TilesMap D) (p : TilePosition)
    (t : D.Tile) : (tilesAssign tiles p t).length = tiles.length := by
  have h := congrArg List.length (tilesAssign_keys tiles p t)
  simpa using h

theorem tilesErase_keys_nodup {D : Collaborators} (tiles : TilesMap D) (p : TilePosition)
    (h : (tiles.map Prod.fst).Nodup) : ((tilesErase tiles p).map Prod.fst).Nodup := by
  unfold tilesErase
  exact h.sublist ((List.filter_sublist tiles).map Prod.fst)

theorem tilesErase_of_absent {D : Collaborators} (tiles : TilesMap D) (p : TilePosition)
    (h : p ∉ tiles.map Prod.fst) : tilesErase tiles p = tiles := by
  unfold tilesErase
  rw [List.filter_eq_self]
  intro e he
  have : e.1 ≠ p := fun heq => h (heq ▸ List.mem_map_of_mem Prod.fst he)
  simpa using this

theorem tilesErase_length {D : Collaborators} (tiles : TilesMap D) (p : TilePosition)
    (t : D.Tile) (hkeys : (tiles.map Prod.fst).Nodup) (hfind : tilesFind tiles p = some t) :
    (tilesErase tiles p).length + 1 = tiles.length := by
  induction tiles with
  | nil => simp [tilesFind] at hfind
  | cons e rest ih =>
    obtain ⟨q, u⟩ := e
    simp only [List.map_cons, List.nodup_cons] at hkeys
    by_cases hq : q = p
    · subst hq
      have hrest := tilesErase_of_absent rest q hkeys.1
      unfold tilesErase at hrest ⊢
      rw [List.filter_cons_of_neg (by simp), hrest]
      rfl
    · have hfind2 : tilesFind rest p = some t := by simpa [tilesFind, hq] using hfind
      have := ih hkeys.2 hfind2
      unfold tilesErase at this ⊢
      rw [List.filter_cons_of_pos (by simpa using hq)]
      simp only [List.length_cons]
      omega

theorem removeTile_count (D : Collaborators) (id : ObjectId) (p : TilePosition)
    (st : TilesMap D × Nat) (hkeys : (st.1.map Prod.fst).Nodup) :
    ((removeTile D id p st).2.1.map Prod.fst).Nodup ∧
    (removeTile D id p st).2.2 + (removeTile D id p st).2.1.length = st.2 + st.1.length := by
  unfold removeTile
  cases h : tilesFind st.1 p with
  | none => exact ⟨hkeys, rfl⟩
  | some t =>
    dsimp only
    by_cases hempty : D.tileIsEmpty (D.tileRemoveObject t id).2 = true
    · simp only [hempty, if_true]
      refine ⟨tilesErase_keys_nodup _ _ hkeys, ?_⟩
      have := tilesErase_length st.1 p t hkeys h
      omega
    · simp only [hempty, if_false, Bool.false_eq_true]
      exact ⟨by rw [tilesAssign_keys]; exact hkeys, by rw [tilesAssign_length]⟩

theorem removeObject_fold_count (D : Collaborators) (id : ObjectId) (ps : List TilePosition)
    (st : Sweep D RemovedRecastMeshObject) (hkeys : (st.tiles.map Prod.fst).Nodup) :
    (((ps.foldl (removeObjectStep D id) st).tiles).map Prod.fst).Nodup ∧
    (ps.foldl (removeObjectStep D id) st).generation +
        (ps.foldl (removeObjectStep D id) st).tiles.length =
      st.generation + st.tiles.length := by
  induction ps generalizing st with
  | nil => exact ⟨hkeys, rfl⟩
  | cons a ps ih =>
    rw [List.foldl_cons]
    obtain ⟨h1, h2⟩ := removeTile_count D id a (st.tiles, st.generation) hkeys
    obtain ⟨h3, h4⟩ := ih (removeObjectStep D id st a) h1
    exact ⟨h3, by rw [h4]; exact h2⟩

theorem removeWaterStep_count (D : Collaborators) (cellPosition : CellPosition)
    (st : Sweep D Water) (p : TilePosition) (hkeys : (st.tiles.map Prod.fst).Nodup) :
    (((removeWaterStep D cellPosition st p).tiles).map Prod.fst).Nodup ∧
    (removeWaterStep D cellPosition st p).generation +
        (removeWaterStep D cellPosition st p).tiles.length =
      st.generation + st.tiles.length := by
  unfold removeWaterStep
  cases h : tilesFind st.tiles p with
  | none => exact ⟨hkeys, rfl⟩
  | some t =>
    dsimp only
    by_cases hempty : D.tileIsEmpty (D.tileRemoveWater t cellPosition).2 = true
    · simp only [hempty, if_true]
      refine ⟨tilesErase_keys_nodup _ _ hkeys, ?_⟩
      have := tilesErase_length st.tiles p t hkeys h
      omega
    · simp only [hempty, if_false, Bool.false_eq_true]
      exact ⟨by rw [tilesAssign_keys]; exact hkeys, by rw [tilesAssign_length]⟩

theorem removeWater_fold_count (D : Collaborators) (cellPosition : CellPosition)
    (ps : List TilePosition) (st : Sweep D Water) (hkeys : (st.tiles.map Prod.fst).Nodup) :
    (((ps.foldl (removeWaterStep D cellPosition) st).tiles).map Prod.fst).Nodup ∧
    (ps.foldl (removeWaterStep D cellPosition) st).generation +
        (ps.foldl (removeWaterStep D cellPosition) st).tiles.length =
      st.generation + st.tiles.length := by
  induction ps generalizing st with
  | nil => exact ⟨hkeys, rfl⟩
  | cons a ps ih =>
    rw [List.foldl_cons]
    obtain ⟨h1, h2⟩ := removeWaterStep_count D cellPosition st a hkeys
    obtain ⟨h3, h4⟩ := ih (removeWaterStep D cellPosition st a) h1
    exact ⟨h3, by rw [h4]; exact h2⟩

theorem tileAfterRemove_isSome (D : Collaborators) (id : ObjectId) (found : Option D.Tile)
    (h : (tileAfterRemove D id found).isSome = true) : found.isSome = true := by
  cases found with
  | none => simp [tileAfterRemove] at h
  | some t => rfl

theorem tileAfterRemoveWater_isSome (D : Collaborators) (cellPosition : CellPosition)
    (found : Option D.Tile)
    (h : (tileAfterRemoveWater D cellPosition found).isSome = true) : found.isSome = true := by
  cases found with
  | none => simp [tileAfterRemoveWater] at h
  | some t => rfl

theorem removeObject_fold_no_new_tile (D : Collaborators) (id : ObjectId)
    (ps : List TilePosition) (st : Sweep D RemovedRecastMeshObject) (q : TilePosition)
    (h : (tilesFind (ps.foldl (removeObjectStep D id) st).tiles q).isSome = true) :
    (tilesFind st.tiles q).isSome = true := by
  induction ps generalizing st with
  | nil => simpa using h
  | cons a ps ih =>
    rw [List.foldl_cons] at h
    have h2 := ih _ h
    rw [removeObjectStep_tiles, removeTile_find] at h2
    by_cases hq : q = a
    · rw [if_pos hq] at h2
      rw [hq]
      exact tileAfterRemove_isSome D id _ h2
    · rw [if_neg hq] at h2
      exact h2

theorem removeWater_fold_no_new_tile (D : Collaborators) (cellPosition : CellPosition)
    (ps : List TilePosition) (st : Sweep D Water) (q : TilePosition)
    (h : (tilesFind (ps.foldl (removeWaterStep D cellPosition) st).tiles q).isSome = true) :
    (tilesFind st.tiles q).isSome = true := by
  induction ps generalizing st with
  | nil => simpa using h
  | cons a ps ih =>
    rw [List.foldl_cons] at h
    have h2 := ih _ h
    rw [removeWaterStep_find] at h2
    by_cases hq : q = a
    · rw [if_pos hq] at h2
      rw [hq]
      exact tileAfterRemoveWater_isSome D cellPosition _ h2
    · rw [if_neg hq] at h2
      exact h2

theorem removeObject_count (D : Collaborators) (m : Manager D) (id : ObjectId)
    (hkeys : m.keysDistinct) :
    (removeObject D m id).2.keysDistinct ∧
    (removeObject D m id).2.mTilesGeneration + (removeObject D m id).2.mTiles.length =
      m.mTilesGeneration + m.mTiles.length ∧
    ∀ p, hasTile D (removeObject D m id).2 p = true → hasTile D m p = true := by
  cases hrec : m.mObjectsTilesPositions id with
  | none =>
    have h : removeObject D m id = (none, m) := by
      unfold removeObject
      rw [hrec]
    rw [h]
    exact ⟨hkeys, rfl, fun p hp => hp⟩
  | some positions =>
    rw [removeObject_recorded D m id positions hrec]
    obtain ⟨h1, h2⟩ := removeObject_fold_count D id positions
      { tiles := m.mTiles, generation := m.mTilesGeneration, result := none } hkeys
    exact ⟨h1, h2, fun p hp => removeObject_fold_no_new_tile D id positions _ p hp⟩

theorem removeWater_count (D : Collaborators) (m : Manager D) (cellPosition : CellPosition)
    (hkeys : m.keysDistinct) :
    (removeWater D m cellPosition).2.keysDistinct ∧
    (removeWater D m cellPosition).2.mTilesGeneration +
        (removeWater D m cellPosition).2.mTiles.length =
      m.mTilesGeneration + m.mTiles.length ∧
    ∀ p, hasTile D (removeWater D m cellPosition).2 p = true → hasTile D m p = true := by
  cases hrec : m.mWaterTilesPositions cellPosition with
  | none =>
    have h : removeWater D m cellPosition = (none, m) := by
      unfold removeWater
      rw [hrec]
    rw [h]
    exact ⟨hkeys, rfl, fun p hp => hp⟩
  | some positions =>
    rw [removeWater_recorded D m cellPosition positions hrec]
    obtain ⟨h1, h2⟩ := removeWater_fold_count D cellPosition positions
      { tiles := m.mTiles, generation := m.mTilesGeneration, result := none } hkeys
    exact ⟨h1, h2, fun p hp => removeWater_fold_no_new_tile D cellPosition positions _ p hp⟩

theorem addObject_generation (D : Collaborators) (m : Manager D) (id : ObjectId) (shape : Shape)
    (transform : Transform) (areaType : AreaType) :
    (addObject D m id shape transform areaType).2.mTilesGeneration = m.mTilesGeneration := by
  unfold addObject
  dsimp only
  split <;> rfl

theorem addWater_generation (D : Collaborators) (m : Manager D) (cellPosition : CellPosition)
    (cellSize : Int) (transform : Transform) :
    (addWater D m cellPosition cellSize transform).2.mTilesGeneration = m.mTilesGeneration := rfl

/-- C16: the tiles generation of a newly constructed manager is 0; a call of
`removeObject` or `removeWater` on a registry that binds no position twice raises it
by exactly the number of tiles the call erases (the registry shrinks by as many
entries as the generation grows, and the call puts no tile where there was none);
every other public call (`addObject`, `addWater`, `getMesh`, `hasTile`, `getRevision`,
`reportNavMeshChange`) leaves it as it was. -/
theorem tilesGeneration_counts_erased_tiles (D : Collaborators) :
    (Manager.empty D).mTilesGeneration = 0 ∧
    (∀ (m : Manager D) (call : Call), m.keysDistinct →
      ((∃ id, call = Call.removeObject id) ∨ (∃ cellPosition, call = Call.removeWater cellPosition)) →
      (call.run D m).mTilesGeneration + (call.run D m).mTiles.length =
        m.mTilesGeneration + m.mTiles.length ∧
      ∀ p, hasTile D (call.run D m) p = true → hasTile D m p = true) ∧
    (∀ (m : Manager D) (call : Call),
      (∀ id, call ≠ Call.removeObject id) →
      (∀ cellPosition, call ≠ Call.removeWater cellPosition) →
      (call.run D m).mTilesGeneration = m.mTilesGeneration) := by
  refine ⟨rfl, ?_, ?_⟩
  · rintro m call hkeys (⟨id, rfl⟩ | ⟨cellPosition, rfl⟩)
    · exact (removeObject_count D m id hkeys).2
    · exact (removeWater_count D m cellPosition hkeys).2
  · intro m call hobj hwater
    cases call with
    | addObject id shape transform areaType =>
      exact addObject_generation D m id shape transform areaType
    | removeObject id => exact absurd rfl (hobj id)
    | addWater cellPosition cellSize transform =>
      exact addWater_generation D m cellPosition cellSize transform
    | removeWater cellPosition => exact absurd rfl (hwater cellPosition)
    | getMesh p => rfl
    | hasTile p => rfl
    | getRevision => rfl
    | reportNavMeshChange p r n => exact (reportNavMeshChange_counters D m p r n).2

/-- Witness for C16: removing the box of the repository's tests erases its four tiles and
moves the tiles generation from 0 to 4. -/
theorem tilesGeneration_counts_erased_tiles_witness :
    managerWithBox.keysDistinct ∧
    managerWithBox.mTilesGeneration = 0 ∧
    managerWithBox.mTiles.length = 4 ∧
    ((Call.removeObject 7).run testCollaborators managerWithBox).mTiles.length = 0 ∧
    ((Call.removeObject 7).run testCollaborators managerWithBox).mTilesGeneration = 4 ∧
    ((Call.removeObject 7).run testCollaborators managerWithBox).mTilesGeneration +
        ((Call.removeObject 7).run testCollaborators managerWithBox).mTiles.length =
      managerWithBox.mTilesGeneration + managerWithBox.mTiles.length :=
  have hkeys : managerWithBox.keysDistinct := by
    unfold Manager.keysDistinct
    decide
  ⟨hkeys, by decide, by decide, by decide, by decide,
    ((tilesGeneration_counts_erased_tiles testCollaborators).2.1 managerWithBox
      (Call.removeObject 7) hkeys (Or.inl ⟨7, rfl⟩)).1⟩

/-! ## Generation stamps -/

theorem stampAt_eq_none {D : Collaborators} (stamp : D.Tile → Nat) (tiles : TilesMap D)
    (p : TilePosition) : stampAt stamp tiles p = none ↔ tilesFind tiles p = none := by
  unfold stampAt
  cases tilesFind tiles p <;> simp

theorem addsStamp_refl {D : Collaborators} (stamp : D.Tile → Nat) (gen : Nat)
    (tiles : TilesMap D) : AddsStamp stamp gen tiles tiles :=
  fun _ => Or.inl rfl

theorem addsStamp_trans {D : Collaborators} {stamp : D.Tile → Nat} {gen : Nat}
    {a b c : TilesMap D} (hab : AddsStamp stamp gen a b) (hbc : AddsStamp stamp gen b c) :
    AddsStamp stamp gen a c := by
  intro p
  rcases hab p with h1 | ⟨h1, h1b⟩ <;> rcases hbc p with h2 | ⟨h2, h2b⟩
  · exact Or.inl (h2.trans h1)
  · exact Or.inr ⟨by rw [← h1]; exact h2, h2b⟩
  · exact Or.inr ⟨h1, by rw [h2]; exact h1b⟩
  · rw [h2] at h1b
    exact absurd h1b (by simp)

theorem addTile_addsStamp (D : Collaborators) (stamp : D.Tile → Nat) (hs : KeepsStamp D stamp)
    (gen : Nat) (id : ObjectId) (shape : Shape) (transform : Transform) (areaType : AreaType)
    (p : TilePosition) (tiles : TilesMap D) :
    AddsStamp stamp gen tiles (addTile D gen id shape transform areaType p tiles).2 := by
  intro q
  unfold stampAt
  rw [addTile_find]
  by_cases hq : q = p
  · subst hq
    rw [if_pos rfl]
    unfold tileFor
    cases h : tilesFind tiles q with
    | none => exact Or.inr ⟨rfl, by simp [hs.addObject, hs.makeTile]⟩
    | some t => exact Or.inl (by simp [hs.addObject])
  · rw [if_neg hq]
    exact Or.inl rfl

theorem addObject_fold_addsStamp (D : Collaborators) (stamp : D.Tile → Nat)
    (hs : KeepsStamp D stamp) (gen : Nat) (id : ObjectId) (shape : Shape)
    (transform : Transform) (areaType : AreaType) (ps : List TilePosition)
    (st : TilesMap D × List TilePosition) :
    AddsStamp stamp gen st.1
      (ps.foldl (addObjectStep D gen id shape transform areaType) st).1 := by
  induction ps generalizing st with
  | nil => exact addsStamp_refl stamp gen st.1
  | cons a ps ih =>
    rw [List.foldl_cons]
    refine addsStamp_trans ?_ (ih _)
    rw [addObjectStep_fst]
    exact addTile_addsStamp D stamp hs gen id shape transform areaType a st.1

theorem addWaterStep_addsStamp (D : Collaborators) (stamp : D.Tile → Nat)
    (hs : KeepsStamp D stamp) (gen : Nat) (cellPosition : CellPosition) (cellSize : Int)
    (transform : Transform) (st : WaterState D) (p : TilePosition) :
    AddsStamp stamp gen st.tiles
      (addWaterStep D gen cellPosition cellSize transform st p).tiles := by
  intro q
  unfold stampAt
  rw [addWaterStep_find]
  by_cases hq : q = p
  · subst hq
    rw [if_pos rfl]
    unfold tileFor
    cases h : tilesFind st.tiles q with
    | none => exact Or.inr ⟨rfl, by simp [hs.addWater, hs.makeTile]⟩
    | some t => exact Or.inl (by simp [hs.addWater])
  · rw [if_neg hq]
    exact Or.inl rfl

theorem addWater_fold_addsStamp (D : Collaborators) (stamp : D.Tile → Nat)
    (hs : KeepsStamp D stamp) (gen : Nat) (cellPosition : CellPosition) (cellSize : Int)
    (transform : Transform) (ps : List TilePosition) (st : WaterState D) :
    AddsStamp stamp gen st.tiles
      (ps.foldl (addWaterStep D gen cellPosition cellSize transform) st).tiles := by
  induction ps generalizing st with
  | nil => exact addsStamp_refl stamp gen st.tiles
  | cons a ps ih =>
    rw [List.foldl_cons]
    exact addsStamp_trans
      (addWaterStep_addsStamp D stamp hs gen cellPosition cellSize transform st a) (ih _)

theorem addObject_addsStamp (D : Collaborators) (stamp : D.Tile → Nat) (hs : KeepsStamp D stamp)
    (m : Manager D) (id : ObjectId) (shape : Shape) (transform : Transform)
    (areaType : AreaType) :
    AddsStamp stamp m.mTilesGeneration m.mTiles
      (addObject D m id shape transform areaType).2.mTiles := by
  rw [addObject_tiles]
  exact addObject_fold_addsStamp D stamp hs _ id shape transform areaType _ _

theorem addWater_addsStamp (D : Collaborators) (stamp : D.Tile → Nat) (hs : KeepsStamp D stamp)
    (m : Manager D) (cellPosition : CellPosition) (cellSize : Int) (transform : Transform) :
    AddsStamp stamp m.mTilesGeneration m.mTiles
      (addWater D m cellPosition cellSize transform).2.mTiles := by
  by_cases hmax : cellSize = intMax
  · subst hmax
    intro p
    left
    unfold stampAt
    rw [addWater_sentinel_tiles,
      tilesFind_map D (fun t => (D.tileAddWater t cellPosition intMax transform).2)]
    cases tilesFind m.mTiles p with
    | none => rfl
    | some t => simp [hs.addWater]
  · have htiles : (addWater D m cellPosition cellSize transform).2.mTiles =
        ((D.waterTiles cellSize transform).foldl
          (addWaterStep D m.mTilesGeneration cellPosition cellSize transform)
          { tiles := m.mTiles
            tilesPositions := (m.mWaterTilesPositions cellPosition).getD []
            result := false }).tiles := by
      unfold addWater addWaterLoop
      simp [hmax]
    rw [htiles]
    exact addWater_fold_addsStamp D stamp hs _ cellPosition cellSize transform _ _

theorem reportNavMeshChange_addsStamp (D : Collaborators) (stamp : D.Tile → Nat)
    (hs : KeepsStamp D stamp) (m : Manager D) (tilePosition : TilePosition)
    (recastMeshVersion navMeshVersion : Version) :
    AddsStamp stamp m.mTilesGeneration m.mTiles
      (reportNavMeshChange D m tilePosition recastMeshVersion navMeshVersion).mTiles := by
  intro p
  left
  unfold reportNavMeshChange stampAt
  cases h : tilesFind m.mTiles tilePosition with
  | none => rfl
  | some t =>
    dsimp only
    rw [tilesFind_tilesAssign]
    by_cases hp : p = tilePosition
    · subst hp
      simp [h, hs.reportNavMeshChange]
    · rw [if_neg hp]

theorem removesStamp_refl {D : Collaborators} (stamp : D.Tile → Nat) (st : TilesMap D × Nat) :
    RemovesStamp stamp st st :=
  ⟨le_refl _, fun _ => Or.inl rfl⟩

theorem removesStamp_trans {D : Collaborators} {stamp : D.Tile → Nat}
    {a b c : TilesMap D × Nat} (hab : RemovesStamp stamp a b) (hbc : RemovesStamp stamp b c) :
    RemovesStamp stamp a c := by
  refine ⟨le_trans hab.1 hbc.1, fun p => ?_⟩
  rcases hab.2 p with h1 | ⟨h1, h1b⟩ <;> rcases hbc.2 p with h2 | ⟨h2, h2b⟩
  · exact Or.inl (h2.trans h1)
  · exact Or.inr ⟨h2, lt_of_le_of_lt hab.1 h2b⟩
  · exact Or.inr ⟨by rw [h2]; exact h1, lt_of_lt_of_le h1b hbc.1⟩
  · exact Or.inr ⟨h2, lt_of_le_of_lt hab.1 h2b⟩

theorem removeTile_removesStamp (D : Collaborators) (stamp : D.Tile → Nat)
    (hs : KeepsStamp D stamp) (id : ObjectId) (p : TilePosition) (st : TilesMap D × Nat) :
    RemovesStamp stamp st (removeTile D id p st).2 := by
  unfold removeTile
  cases h : tilesFind st.1 p with
  | none => exact removesStamp_refl stamp st
  | some t =>
    dsimp only
    by_cases hempty : D.tileIsEmpty (D.tileRemoveObject t id).2 = true
    · simp only [hempty, if_true]
      refine ⟨Nat.le_succ _, fun q => ?_⟩
      unfold stampAt
      rw [tilesFind_tilesErase]
      by_cases hq : q = p
      · exact Or.inr ⟨by simp [hq], Nat.lt_succ_self _⟩
      · exact Or.inl (by rw [if_neg hq])
    · simp only [hempty, if_false, Bool.false_eq_true]
      refine ⟨le_refl _, fun q => Or.inl ?_⟩
      unfold stampAt
      rw [tilesFind_tilesAssign]
      by_cases hq : q = p
      · subst hq
        simp [h, hs.removeObject]
      · rw [if_neg hq]

theorem removeObject_fold_removesStamp (D : Collaborators) (stamp : D.Tile → Nat)
    (hs : KeepsStamp D stamp) (id : ObjectId) (ps : List TilePosition)
    (st : Sweep D RemovedRecastMeshObject) :
    RemovesStamp stamp (st.tiles, st.generation)
      ((ps.foldl (removeObjectStep D id) st).tiles,
        (ps.foldl (removeObjectStep D id) st).generation) := by
  induction ps generalizing st with
  | nil => exact removesStamp_refl stamp _
  | cons a ps ih =>
    rw [List.foldl_cons]
    exact removesStamp_trans
      (removeTile_removesStamp D stamp hs id a (st.tiles, st.generation))
      (ih (removeObjectStep D id st a))

theorem removeWaterStep_removesStamp (D : Collaborators) (stamp : D.Tile → Nat)
    (hs : KeepsStamp D stamp) (cellPosition : CellPosition) (st : Sweep D Water)
    (p : TilePosition) :
    RemovesStamp stamp (st.tiles, st.generation)
      ((removeWaterStep D cellPosition st p).tiles,
        (removeWaterStep D cellPosition st p).generation) := by
  unfold removeWaterStep
  cases h : tilesFind st.tiles p with
  | none => exact removesStamp_refl stamp _
  | some t =>
    dsimp only
    by_cases hempty : D.tileIsEmpty (D.tileRemoveWater t cellPosition).2 = true
    · simp only [hempty, if_true]
      refine ⟨Nat.le_succ _, fun q => ?_⟩
      unfold stampAt
      rw [tilesFind_tilesErase]
      by_cases hq : q = p
      · exact Or.inr ⟨by simp [hq], Nat.lt_succ_self _⟩
      · exact Or.inl (by rw [if_neg hq])
    · simp only [hempty, if_false, Bool.false_eq_true]
      refine ⟨le_refl _, fun q => Or.inl ?_⟩
      unfold stampAt
      rw [tilesFind_tilesAssign]
      by_cases hq : q = p
      · subst hq
        simp [h, hs.removeWater]
      · rw [if_neg hq]

theorem removeWater_fold_removesStamp (D : Collaborators) (stamp : D.Tile → Nat)
    (hs : KeepsStamp D stamp) (cellPosition : CellPosition) (ps : List TilePosition)
    (st : Sweep D Water) :
    RemovesStamp stamp (st.tiles, st.generation)
      ((ps.foldl (removeWaterStep D cellPosition) st).tiles,
        (ps.foldl (removeWaterStep D cellPosition) st).generation) := by
  induction ps generalizing st with
  | nil => exact removesStamp_refl stamp _
  | cons a ps ih =>
    rw [List.foldl_cons]
    exact removesStamp_trans
      (removeWaterStep_removesStamp D stamp hs cellPosition st a)
      (ih (removeWaterStep D cellPosition st a))

theorem removeObject_removesStamp (D : Collaborators) (stamp : D.Tile → Nat)
    (hs : KeepsStamp D stamp) (m : Manager D) (id : ObjectId) :
    RemovesStamp stamp (m.mTiles, m.mTilesGeneration)
      ((removeObject D m id).2.mTiles, (removeObject D m id).2.mTilesGeneration) := by
  cases hrec : m.mObjectsTilesPositions id with
  | none =>
    have h : removeObject D m id = (none, m) := by
      unfold removeObject
      rw [hrec]
    rw [h]
    exact removesStamp_refl stamp _
  | some positions =>
    rw [removeObject_recorded D m id positions hrec]
    exact removeObject_fold_removesStamp D stamp hs id positions
      { tiles := m.mTiles, generation := m.mTilesGeneration, result := none }

theorem removeWater_removesStamp (D : Collaborators) (stamp : D.Tile → Nat)
    (hs : KeepsStamp D stamp) (m : Manager D) (cellPosition : CellPosition) :
    RemovesStamp stamp (m.mTiles, m.mTilesGeneration)
      ((removeWater D m cellPosition).2.mTiles,
        (removeWater D m cellPosition).2.mTilesGeneration) := by
  cases hrec : m.mWaterTilesPositions cellPosition with
  | none =>
    have h : removeWater D m cellPosition = (none, m) := by
      unfold removeWater
      rw [hrec]
    rw [h]
    exact removesStamp_refl stamp _
  | some positions =>
    rw [removeWater_recorded D m cellPosition positions hrec]
    exact removeWater_fold_removesStamp D stamp hs cellPosition positions
      { tiles := m.mTiles, generation := m.mTilesGeneration, result := none }

theorem StampStep.of_adds {D : Collaborators} {stamp : D.Tile → Nat} {m after : Manager D}
    (hgen : after.mTilesGeneration = m.mTilesGeneration)
    (h : AddsStamp stamp m.mTilesGeneration m.mTiles after.mTiles) : StampStep stamp m after := by
  refine ⟨le_of_eq hgen.symm, fun p => ?_⟩
  rcases h p with h1 | h1
  · exact Or.inl h1
  · exact Or.inr (Or.inr ⟨h1.1, _, h1.2, le_refl _, le_of_eq hgen.symm⟩)

theorem StampStep.of_removes {D : Collaborators} {stamp : D.Tile → Nat} {m after : Manager D}
    (h : RemovesStamp stamp (m.mTiles, m.mTilesGeneration)
      (after.mTiles, after.mTilesGeneration)) : StampStep stamp m after := by
  refine ⟨h.1, fun p => ?_⟩
  rcases h.2 p with h1 | h1
  · exact Or.inl h1
  · exact Or.inr (Or.inl h1)

theorem call_run_stampStep (D : Collaborators) (stamp : D.Tile → Nat) (hs : KeepsStamp D stamp)
    (m : Manager D) (call : Call) : StampStep stamp m (call.run D m) := by
  cases call with
  | addObject id shape transform areaType =>
    exact StampStep.of_adds (addObject_generation D m id shape transform areaType)
      (addObject_addsStamp D stamp hs m id shape transform areaType)
  | removeObject id => exact StampStep.of_removes (removeObject_removesStamp D stamp hs m id)
  | addWater cellPosition cellSize transform =>
    exact StampStep.of_adds (addWater_generation D m cellPosition cellSize transform)
      (addWater_addsStamp D stamp hs m cellPosition cellSize transform)
  | removeWater cellPosition =>
    exact StampStep.of_removes (removeWater_removesStamp D stamp hs m cellPosition)
  | getMesh p => exact StampStep.of_adds rfl (addsStamp_refl stamp _ _)
  | hasTile p => exact StampStep.of_adds rfl (addsStamp_refl stamp _ _)
  | getRevision => exact StampStep.of_adds rfl (addsStamp_refl stamp _ _)
  | reportNavMeshChange p r n =>
    exact StampStep.of_adds (reportNavMeshChange_counters D m p r n).2
      (reportNavMeshChange_addsStamp D stamp hs m p r n)

theorem updateTile_stampAt (D : Collaborators) (stamp : D.Tile → Nat) (hs : KeepsStamp D stamp)
    (id : ObjectId) (transform : Transform) (areaType : AreaType) (p q : TilePosition)
    (tiles : TilesMap D) :
    stampAt stamp (updateTile D id transform areaType p tiles).2 q = stampAt stamp tiles q := by
  unfold updateTile stampAt
  cases h : tilesFind tiles p with
  | none => rfl
  | some t =>
    dsimp only
    rw [tilesFind_tilesAssign]
    by_cases hq : q = p
    · subst hq
      simp [h, hs.updateObject]
    · rw [if_neg hq]

theorem updateObjectStep_stamp (D : Collaborators) (stamp : D.Tile → Nat)
    (hs : KeepsStamp D stamp) (id : ObjectId) (shape : Shape) (transform : Transform)
    (areaType : AreaType) (oldTiles newTiles : List TilePosition) (st : UpdateState D)
    (a : TilePosition) :
    st.generation ≤
        (updateObjectStep D id shape transform areaType oldTiles newTiles st a).generation ∧
    ∀ q,
      stampAt stamp (updateObjectStep D id shape transform areaType oldTiles newTiles st a).tiles q
          = stampAt stamp st.tiles q ∨
      (stampAt stamp
          (updateObjectStep D id shape transform areaType oldTiles newTiles st a).tiles q = none ∧
        st.generation <
          (updateObjectStep D id shape transform areaType oldTiles newTiles st a).generation) ∨
      (stampAt stamp st.tiles q = none ∧
        ∃ g, stampAt stamp
            (updateObjectStep D id shape transform areaType oldTiles newTiles st a).tiles q
              = some g ∧
          st.generation ≤ g ∧
          g ≤ (updateObjectStep D id shape transform areaType oldTiles newTiles st a).generation) := by
  unfold updateObjectStep
  by_cases hnew : a ∈ newTiles
  · by_cases hold : a ∈ oldTiles
    · simp only [hnew, hold, if_true]
      exact ⟨le_refl _, fun q =>
        Or.inl (updateTile_stampAt D stamp hs id transform areaType a q st.tiles)⟩
    · simp only [hnew, hold, if_true, if_false]
      refine ⟨le_refl _, fun q => ?_⟩
      rcases addTile_addsStamp D stamp hs st.generation id shape transform areaType a st.tiles q
        with h | h
      · exact Or.inl h
      · exact Or.inr (Or.inr ⟨h.1, _, h.2, le_refl _, le_refl _⟩)
  · simp only [hnew, if_false]
    have h := removeTile_removesStamp D stamp hs id a (st.tiles, st.generation)
    refine ⟨h.1, fun q => ?_⟩
    rcases h.2 q with h1 | h1
    · exact Or.inl h1
    · exact Or.inr (Or.inl h1)

theorem updateObject_fold_stamp (D : Collaborators) (stamp : D.Tile → Nat)
    (hs : KeepsStamp D stamp) (id : ObjectId) (shape : Shape) (transform : Transform)
    (areaType : AreaType) (oldTiles newTiles : List TilePosition) (ps : List TilePosition)
    (hnodup : ps.Nodup) (st : UpdateState D) :
    st.generation ≤
        (ps.foldl (updateObjectStep D id shape transform areaType oldTiles newTiles) st).generation ∧
    ∀ q,
      (q ∉ ps →
        tilesFind (ps.foldl (updateObjectStep D id shape transform areaType oldTiles newTiles)
          st).tiles q = tilesFind st.tiles q) ∧
      (stampAt stamp (ps.foldl (updateObjectStep D id shape transform areaType oldTiles newTiles)
          st).tiles q = stampAt stamp st.tiles q ∨
        (stampAt stamp (ps.foldl (updateObjectStep D id shape transform areaType oldTiles
            newTiles) st).tiles q = none ∧
          st.generation < (ps.foldl (updateObjectStep D id shape transform areaType oldTiles
            newTiles) st).generation) ∨
        (stampAt stamp st.tiles q = none ∧
          ∃ g, stampAt stamp (ps.foldl (updateObjectStep D id shape transform areaType oldTiles
              newTiles) st).tiles q = some g ∧
            st.generation ≤ g ∧
            g ≤ (ps.foldl (updateObjectStep D id shape transform areaType oldTiles newTiles)
              st).generation)) := by
  induction ps generalizing st with
  | nil => exact ⟨le_refl _, fun q => ⟨fun _ => rfl, Or.inl rfl⟩⟩
  | cons a ps ih =>
    obtain ⟨ha, hps⟩ := List.nodup_cons.mp hnodup
    rw [List.foldl_cons]
    obtain ⟨hgen1, hstep⟩ := updateObjectStep_stamp D stamp hs id shape transform areaType
      oldTiles newTiles st a
    obtain ⟨hgen2, hrest⟩ := ih hps
      (updateObjectStep D id shape transform areaType oldTiles newTiles st a)
    refine ⟨le_trans hgen1 hgen2, fun q => ⟨fun hq => ?_, ?_⟩⟩
    · have hqa : q ≠ a := fun h => hq (h ▸ List.mem_cons_self a ps)
      have hqps : q ∉ ps := fun h => hq (List.mem_cons_of_mem a h)
      rw [(hrest q).1 hqps]
      exact updateObjectStep_find D id shape transform areaType oldTiles newTiles st a q hqa
    · by_cases hqa : q = a
      · subst hqa
        have hsame : stampAt stamp
            (ps.foldl (updateObjectStep D id shape transform areaType oldTiles newTiles)
              (updateObjectStep D id shape transform areaType oldTiles newTiles st q)).tiles q =
            stampAt stamp
              (updateObjectStep D id shape transform areaType oldTiles newTiles st q).tiles q := by
          unfold stampAt
          rw [(hrest q).1 ha]
        rw [hsame]
        rcases hstep q with h | ⟨h, hlt⟩ | ⟨h, g, hg, hge, hle⟩
        · exact Or.inl h
        · exact Or.inr (Or.inl ⟨h, lt_of_lt_of_le hlt hgen2⟩)
        · exact Or.inr (Or.inr ⟨h, g, hg, hge, le_trans hle hgen2⟩)
      · have hsame : stampAt stamp
            (updateObjectStep D id shape transform areaType oldTiles newTiles st a).tiles q =
            stampAt stamp st.tiles q := by
          unfold stampAt
          rw [updateObjectStep_find D id shape transform areaType oldTiles newTiles st a q hqa]
        rcases (hrest q).2 with h | ⟨h, hlt⟩ | ⟨h, g, hg, hge, hle⟩
        · exact Or.inl (h.trans hsame)
        · exact Or.inr (Or.inl ⟨h, lt_of_le_of_lt hgen1 hlt⟩)
        · exact Or.inr (Or.inr ⟨by rw [← hsame]; exact h, g, hg, le_trans hgen1 hge, hle⟩)

theorem updateObject_stampStep (D : Collaborators) (stamp : D.Tile → Nat)
    (hs : KeepsStamp D stamp) (m : Manager D) (id : ObjectId) (shape : Shape)
    (transform : Transform) (areaType : AreaType) :
    StampStep stamp m (updateObject D m id shape transform areaType).2.1 := by
  cases hrec : m.mObjectsTilesPositions id with
  | none =>
    have h : updateObject D m id shape transform areaType = (false, m, []) := by
      unfold updateObject
      rw [hrec]
    rw [h]
    exact ⟨le_refl _, fun p => Or.inl rfl⟩
  | some oldTiles =>
    obtain ⟨hgen, hq⟩ := updateObject_fold_stamp D stamp hs id shape transform areaType oldTiles
      (D.shapeTiles shape transform)
      (sortTiles (oldTiles ++ D.shapeTiles shape transform).dedup)
      (sortTiles_nodup _ (List.nodup_dedup _))
      { tiles := m.mTiles, generation := m.mTilesGeneration, changedTiles := [] }
    unfold updateObject
    rw [hrec]
    exact ⟨hgen, fun p => (hq p).2⟩

theorem operation_run_stampStep (D : Collaborators) (stamp : D.Tile → Nat)
    (hs : KeepsStamp D stamp) (m : Manager D) (operation : Operation) :
    StampStep stamp m (operation.run D m) := by
  cases operation with
  | call c => exact call_run_stampStep D stamp hs m c
  | updateObject id shape transform areaType =>
    exact updateObject_stampStep D stamp hs m id shape transform areaType

theorem StampStep.bounded {D : Collaborators} {stamp : D.Tile → Nat} {m after : Manager D}
    (h : StampStep stamp m after) (hm : StampsBounded stamp m) : StampsBounded stamp after := by
  intro p g hg
  rcases h.2 p with h1 | ⟨h1, _⟩ | ⟨_, g2, h1, _, hle⟩
  · exact le_trans (hm p g (by rw [← h1]; exact hg)) h.1
  · rw [h1] at hg
    exact absurd hg (by simp)
  · rw [h1] at hg
    cases hg
    exact hle

theorem runCalls_cons (D : Collaborators) (m : Manager D) (call : Call) (calls : List Call) :
    runCalls D m (call :: calls) = runCalls D (call.run D m) calls := rfl

theorem runCalls_append (D : Collaborators) (m : Manager D) (calls more : List Call) :
    runCalls D m (calls ++ more) = runCalls D (runCalls D m calls) more := by
  unfold runCalls
  rw [List.foldl_append]

theorem runOperations_cons (D : Collaborators) (m : Manager D) (operation : Operation)
    (operations : List Operation) :
    runOperations D m (operation :: operations) =
      runOperations D (operation.run D m) operations := rfl

theorem runOperations_append (D : Collaborators) (m : Manager D)
    (operations more : List Operation) :
    runOperations D m (operations ++ more) =
      runOperations D (runOperations D m operations) more := by
  unfold runOperations
  rw [List.foldl_append]

theorem runOperations_stampsBounded (D : Collaborators) (stamp : D.Tile → Nat)
    (hs : KeepsStamp D stamp) (operations : List Operation) (m : Manager D)
    (hm : StampsBounded stamp m) : StampsBounded stamp (runOperations D m operations) := by
  induction operations generalizing m with
  | nil => exact hm
  | cons c cs ih =>
    rw [runOperations_cons]
    exact ih _ ((operation_run_stampStep D stamp hs m c).bounded hm)

theorem runOperations_generation_mono (D : Collaborators) (stamp : D.Tile → Nat)
    (hs : KeepsStamp D stamp) (operations : List Operation) (m : Manager D) :
    m.mTilesGeneration ≤ (runOperations D m operations).mTilesGeneration := by
  induction operations generalizing m with
  | nil => exact le_refl _
  | cons c cs ih =>
    rw [runOperations_cons]
    exact le_trans (operation_run_stampStep D stamp hs m c).1 (ih _)

/-- A stamp seen at a position is either still there or below the generation. -/
theorem runOperations_stamp_kept_or_passed (D : Collaborators) (stamp : D.Tile → Nat)
    (hs : KeepsStamp D stamp) (p : TilePosition) (s : Nat) (operations : List Operation) (m : Manager D)
    (hm : StampsBounded stamp m)
    (h : stampAt stamp m.mTiles p = some s ∨ s < m.mTilesGeneration) :
    stampAt stamp (runOperations D m operations).mTiles p = some s ∨
      s < (runOperations D m operations).mTilesGeneration := by
  induction operations generalizing m with
  | nil => exact h
  | cons c cs ih =>
    rw [runOperations_cons]
    have hstep := operation_run_stampStep D stamp hs m c
    apply ih _ (hstep.bounded hm)
    rcases h with h | h
    · rcases hstep.2 p with h1 | ⟨_, h1⟩ | ⟨h1, _⟩
      · exact Or.inl (h1.trans h)
      · exact Or.inr (lt_of_le_of_lt (hm p s h) h1)
      · rw [h] at h1
        exact absurd h1 (by simp)
    · exact Or.inr (lt_of_lt_of_le h hstep.1)

/-- From a state on, a tile standing at a position carries a stamp that is at least a
bound the generation had reached when the position had no tile or only tiles stamped
that high. -/
theorem runOperations_stamp_at_least (D : Collaborators) (stamp : D.Tile → Nat)
    (hs : KeepsStamp D stamp) (p : TilePosition) (bound : Nat) (operations : List Operation)
    (m : Manager D) (hgen : bound ≤ m.mTilesGeneration)
    (h : ∀ g, stampAt stamp m.mTiles p = some g → bound ≤ g) :
    ∀ g, stampAt stamp (runOperations D m operations).mTiles p = some g → bound ≤ g := by
  induction operations generalizing m with
  | nil => exact h
  | cons c cs ih =>
    rw [runOperations_cons]
    have hstep := operation_run_stampStep D stamp hs m c
    apply ih _ (le_trans hgen hstep.1)
    intro g hg
    rcases hstep.2 p with h1 | ⟨h1, _⟩ | ⟨_, g2, h1, hge, _⟩
    · exact h g (by rw [← h1]; exact hg)
    · rw [h1] at hg
      exact absurd hg (by simp)
    · rw [h1] at hg
      cases hg
      exact le_trans hgen hge

/-- C17: for every sequence of manager operations starting from a newly constructed manager,
when a tile stands at a position, the position later has no tile (the tile was
erased), and later again a tile stands there, the generation stamp of the later tile
is strictly greater than the stamp of the earlier one; `stamp` reads the stamp of a
tile, which is the generation handed to its constructor and is changed by none of
its member functions. -/
theorem recreated_tile_has_greater_stamp (D : Collaborators) (stamp : D.Tile → Nat)
    (hs : KeepsStamp D stamp) (before between later : List Operation) (p : TilePosition)
    (destroyed recreated : D.Tile)
    (h1 : tilesFind (runOperations D (Manager.empty D) before).mTiles p = some destroyed)
    (h2 : tilesFind (runOperations D (Manager.empty D) (before ++ between)).mTiles p = none)
    (h3 : tilesFind (runOperations D (Manager.empty D) (before ++ between ++ later)).mTiles p =
      some recreated) :
    stamp destroyed < stamp recreated := by
  rw [runOperations_append] at h2
  rw [runOperations_append, runOperations_append] at h3
  have hempty : StampsBounded stamp (Manager.empty D) := by
    intro q g hg
    simp [stampAt, Manager.empty, tilesFind] at hg
  have hb1 := runOperations_stampsBounded D stamp hs before _ hempty
  generalize runOperations D (Manager.empty D) before = m1 at h1 h2 h3 hb1
  have hpassed := runOperations_stamp_kept_or_passed D stamp hs p (stamp destroyed) between m1 hb1
    (Or.inl (by simp [stampAt, h1]))
  generalize runOperations D m1 between = m2 at h2 h3 hpassed
  have hlt : stamp destroyed < m2.mTilesGeneration := by
    rcases hpassed with h | h
    · simp [stampAt, h2] at h
    · exact h
  have hlater := runOperations_stamp_at_least D stamp hs p m2.mTilesGeneration later m2 (le_refl _)
    (by
      intro g hg
      simp [stampAt, h2] at hg)
    (stamp recreated) (by simp [stampAt, h3])
  exact lt_of_lt_of_le hlt hlater

theorem SpecTile.keepsStamp (shapeTiles : Shape → Transform → List TilePosition)
    (waterTiles : Int → Transform → List TilePosition) :
    KeepsStamp (specCollaborators shapeTiles waterTiles) SpecTile.generation where
  makeTile := fun _ _ => rfl
  addObject := fun t id shape transform areaType => by
    show (SpecTile.addObject t id shape transform areaType).2.generation = t.generation
    unfold SpecTile.addObject
    split <;> rfl
  updateObject := fun t id transform areaType => by
    show (SpecTile.updateObject t id transform areaType).2.generation = t.generation
    unfold SpecTile.updateObject
    split <;> rfl
  removeObject := fun t id => by
    show (SpecTile.removeObject t id).2.generation = t.generation
    unfold SpecTile.removeObject
    split <;> rfl
  addWater := fun t cellPosition cellSize transform => by
    show (SpecTile.addWater t cellPosition cellSize transform).2.generation = t.generation
    unfold SpecTile.addWater
    split <;> rfl
  removeWater := fun t cellPosition => by
    show (SpecTile.removeWater t cellPosition).2.generation = t.generation
    unfold SpecTile.removeWater
    split <;> rfl
  reportNavMeshChange := fun _ _ _ => rfl

/-- Witness for C17: the box of the repository's tests is added one tile to the right,
moved to the identity transform and moved back; the tile at `(1, 0)` is first stamped
0, is erased by the first move, and is created again by the second move with stamp 4. -/
theorem recreated_tile_has_greater_stamp_witness :
    tilesFind (runOperations testCollaborators (Manager.empty testCollaborators)
      [Operation.call (Call.addObject 7 0 1 0)]).mTiles ⟨1, 0⟩ = some
        { position := ⟨1, 0⟩, generation := 0, objects := [(7, 0, 1, 0)], water := [],
          reported := none } ∧
    tilesFind (runOperations testCollaborators (Manager.empty testCollaborators)
      ([Operation.call (Call.addObject 7 0 1 0)] ++ [Operation.updateObject 7 0 0 0])).mTiles
      ⟨1, 0⟩ = none ∧
    tilesFind (runOperations testCollaborators (Manager.empty testCollaborators)
      ([Operation.call (Call.addObject 7 0 1 0)] ++ [Operation.updateObject 7 0 0 0] ++
        [Operation.updateObject 7 0 1 0])).mTiles ⟨1, 0⟩ = some
        { position := ⟨1, 0⟩, generation := 4, objects := [(7, 0, 1, 0)], water := [],
          reported := none } ∧
    (0 : Nat) < 4 :=
  ⟨rfl, rfl, rfl,
    recreated_tile_has_greater_stamp testCollaborators SpecTile.generation
      (SpecTile.keepsStamp blockTiles stripTiles)
      [Operation.call (Call.addObject 7 0 1 0)] [Operation.updateObject 7 0 0 0]
      [Operation.updateObject 7 0 1 0] ⟨1, 0⟩
      { position := ⟨1, 0⟩, generation := 0, objects := [(7, 0, 1, 0)], water := [],
        reported := none }
      { position := ⟨1, 0⟩, generation := 4, objects := [(7, 0, 1, 0)], water := [],
        reported := none }
      rfl rfl rfl⟩

/-! ## What the calls do to the membership tables -/

/-- C20 (as amended): `removeObject` does not change the object membership table; an id
that was recorded is still a key afterwards, with the list recorded before. -/
theorem removeObject_keeps_table (D : Collaborators) (m : Manager D) (id : ObjectId) :
    (removeObject D m id).2.mObjectsTilesPositions = m.mObjectsTilesPositions := by
  unfold removeObject
  cases m.mObjectsTilesPositions id <;> rfl

/-- Counterexample to C20 as stated: the box of the repository's tests is recorded under
id `7`; `removeObject` returns its summary and erases its four tiles, and id `7` is
still a key of the object membership table, with the same list. -/
theorem removeObject_leaves_id_recorded :
    managerWithBox.mObjectsTilesPositions 7 = some [⟨-1, -1⟩, ⟨-1, 0⟩, ⟨0, -1⟩, ⟨0, 0⟩] ∧
    (removeObject testCollaborators managerWithBox 7).1 = some { mShape := 0, mTransform := 0 } ∧
    (removeObject testCollaborators managerWithBox 7).2.mTiles.length = 0 ∧
    (removeObject testCollaborators managerWithBox 7).2.mObjectsTilesPositions 7 =
      some [⟨-1, -1⟩, ⟨-1, 0⟩, ⟨0, -1⟩, ⟨0, 0⟩] ∧
    ¬ ((removeObject testCollaborators managerWithBox 7).2.mObjectsTilesPositions 7 = none) := by
  refine ⟨by decide, by decide, by decide, by decide, by decide⟩

theorem addObject_fold_all_rejected (D : Collaborators) (gen : Nat) (id : ObjectId)
    (shape : Shape) (transform : Transform) (areaType : AreaType) (ps : List TilePosition)
    (st : TilesMap D × List TilePosition)
    (hrej : ∀ q ∈ ps, ∃ t, tilesFind st.1 q = some t ∧
      D.tileAddObject t id shape transform areaType = (false, t)) :
    ps.foldl (addObjectStep D gen id shape transform areaType) st = st := by
  induction ps generalizing st with
  | nil => rfl
  | cons a ps ih =>
    obtain ⟨t, hfind, hadd⟩ := hrej a (List.mem_cons_self a ps)
    have hstep : addObjectStep D gen id shape transform areaType st a = st := by
      unfold addObjectStep addTile
      rw [hfind]
      dsimp only
      rw [hadd]
      dsimp only
      rw [tilesAssign_self _ _ _ hfind]
      simp
    rw [List.foldl_cons, hstep]
    exact ih st (fun q hq => hrej q (List.mem_cons_of_mem a hq))

/-- Counterexample to C19 as stated, twice. After the box of the repository's tests is
added and removed, id `7` is still a key of the object table, and `addObject` with the
same shape and transform returns true. And while id `7` is recorded for the box at the
identity transform, `addObject` with id `7` and the transform one tile to the right
returns true, creates the tile at `(1, 0)`, moves the revision from 1 to 2 and
replaces the recorded list. -/
theorem addObject_on_recorded_id_can_succeed :
    ((removeObject testCollaborators managerWithBox 7).2.mObjectsTilesPositions 7 =
        some [⟨-1, -1⟩, ⟨-1, 0⟩, ⟨0, -1⟩, ⟨0, 0⟩] ∧
      (addObject testCollaborators (removeObject testCollaborators managerWithBox 7).2
        7 0 0 0).1 = true) ∧
    (managerWithBox.mObjectsTilesPositions 7 = some [⟨-1, -1⟩, ⟨-1, 0⟩, ⟨0, -1⟩, ⟨0, 0⟩] ∧
      (addObject testCollaborators managerWithBox 7 0 1 0).1 = true ∧
      hasTile testCollaborators managerWithBox ⟨1, 0⟩ = false ∧
      hasTile testCollaborators (addObject testCollaborators managerWithBox 7 0 1 0).2 ⟨1, 0⟩
        = true ∧
      getRevision testCollaborators managerWithBox = 1 ∧
      getRevision testCollaborators (addObject testCollaborators managerWithBox 7 0 1 0).2 = 2 ∧
      (addObject testCollaborators managerWithBox 7 0 1 0).2.mObjectsTilesPositions 7 =
        some [⟨1, -1⟩, ⟨1, 0⟩]) := by
  refine ⟨⟨by decide, by decide⟩,
    by decide, by decide, by decide, by decide, by decide, by decide, by decide⟩

theorem addObject_fold_acc_mono (D : Collaborators) (gen : Nat) (id : ObjectId)
    (shape : Shape) (transform : Transform) (areaType : AreaType) (ps : List TilePosition)
    (st : TilesMap D × List TilePosition) (q : TilePosition) (hq : q ∈ st.2) :
    q ∈ (ps.foldl (addObjectStep D gen id shape transform areaType) st).2 := by
  induction ps generalizing st with
  | nil => exact hq
  | cons a ps ih =>
    rw [List.foldl_cons]
    apply ih
    rw [addObjectStep_snd]
    split
    · exact List.mem_append_left _ hq
    · exact hq

/-- A position the query yields and that had no tile gets a new tile, and a new tile
that accepts its first object puts the position on the list. -/
theorem addObject_fold_new_tile_recorded (D : Collaborators) (gen : Nat) (id : ObjectId)
    (shape : Shape) (transform : Transform) (areaType : AreaType)
    (hfresh : ∀ p g, (D.tileAddObject (D.makeTile p g) id shape transform areaType).1 = true)
    (ps : List TilePosition) (st : TilesMap D × List TilePosition) (q : TilePosition)
    (hq : q ∈ ps) (hnone : tilesFind st.1 q = none) :
    q ∈ (ps.foldl (addObjectStep D gen id shape transform areaType) st).2 := by
  induction ps generalizing st with
  | nil => simp at hq
  | cons a ps ih =>
    rw [List.foldl_cons]
    by_cases hqa : q = a
    · subst hqa
      apply addObject_fold_acc_mono
      rw [addObjectStep_snd]
      have hfor : tileFor D gen st.1 q = D.makeTile q gen := by
        simp [tileFor, hnone]
      rw [hfor, hfresh q gen]
      simp
    · apply ih
      · simpa [hqa] using hq
      · rw [addObjectStep_fst, addTile_find, if_neg hqa]
        exact hnone

theorem addWater_fold_new_tile_recorded (D : Collaborators) (gen : Nat)
    (cellPosition : CellPosition) (cellSize : Int) (transform : Transform)
    (hfresh : ∀ p g, (D.tileAddWater (D.makeTile p g) cellPosition cellSize transform).1 = true)
    (ps : List TilePosition) (st : WaterState D) (q : TilePosition)
    (hq : q ∈ ps) (hnone : tilesFind st.tiles q = none) :
    q ∈ (ps.foldl (addWaterStep D gen cellPosition cellSize transform) st).tilesPositions := by
  induction ps generalizing st with
  | nil => simp at hq
  | cons a ps ih =>
    rw [List.foldl_cons]
    by_cases hqa : q = a
    · subst hqa
      apply addWater_fold_tilesPositions_mono
      rw [addWaterStep_tilesPositions]
      have hfor : tileFor D gen st.tiles q = D.makeTile q gen := by
        simp [tileFor, hnone]
      rw [hfor, hfresh q gen]
      simp
    · apply ih
      · simpa [hqa] using hq
      · rw [addWaterStep_find, if_neg hqa]
        exact hnone

theorem addWaterExisting_tilesPositions_mono (D : Collaborators) (cellPosition : CellPosition)
    (cellSize : Int) (transform : Transform) (rest : TilesMap D)
    (tilesPositions : List TilePosition) (result : Bool) (q : TilePosition)
    (hq : q ∈ tilesPositions) :
    q ∈ (addWaterExisting D cellPosition cellSize transform rest tilesPositions
      result).tilesPositions := by
  induction rest generalizing tilesPositions result with
  | nil => exact hq
  | cons e rest ih =>
    obtain ⟨p, tile⟩ := e
    simp only [addWaterExisting]
    apply ih
    split
    · exact List.mem_append_left _ hq
    · exact hq

theorem addWaterLoop_tilesPositions_mono (D : Collaborators) (m : Manager D)
    (cellPosition : CellPosition) (cellSize : Int) (transform : Transform)
    (positions : List TilePosition) (hrec : m.mWaterTilesPositions cellPosition = some positions)
    (q : TilePosition) (hq : q ∈ positions) :
    q ∈ (addWaterLoop D m cellPosition cellSize transform).tilesPositions := by
  unfold addWaterLoop
  simp only [hrec, Option.getD_some]
  split
  · exact addWaterExisting_tilesPositions_mono D cellPosition cellSize transform _ _ _ q hq
  · exact addWater_fold_tilesPositions_mono D _ cellPosition cellSize transform _ _ q hq

theorem recorded_after_addObject (D : Collaborators) (m : Manager D) (id : ObjectId) (shape : Shape)
    (transform : Transform) (areaType : AreaType) (hnew : m.mObjectsTilesPositions id = none)
    (p : TilePosition) (h : Recorded m p) :
    Recorded (addObject D m id shape transform areaType).2 p := by
  rcases h with ⟨id2, positions, hrec, hp⟩ | ⟨cellPosition, positions, hrec, hp⟩
  · left
    refine ⟨id2, positions, ?_, hp⟩
    have hne : id2 ≠ id := by
      intro heq
      rw [heq, hnew] at hrec
      exact absurd hrec (by simp)
    unfold DetourNavigator.addObject
    dsimp only
    split
    · exact hrec
    · simpa [Function.update, hne] using hrec
  · right
    refine ⟨cellPosition, positions, ?_, hp⟩
    unfold DetourNavigator.addObject
    dsimp only
    split <;> exact hrec

theorem recorded_after_addWater (D : Collaborators) (m : Manager D) (cellPosition : CellPosition)
    (cellSize : Int) (transform : Transform) (p : TilePosition) (h : Recorded m p) :
    Recorded (addWater D m cellPosition cellSize transform).2 p := by
  rcases h with ⟨id, positions, hrec, hp⟩ | ⟨cell2, positions, hrec, hp⟩
  · exact Or.inl ⟨id, positions, hrec, hp⟩
  · right
    by_cases hcell : cell2 = cellPosition
    · subst hcell
      refine ⟨cell2, (addWaterLoop D m cell2 cellSize transform).tilesPositions, ?_,
        addWaterLoop_tilesPositions_mono D m cell2 cellSize transform positions hrec p hp⟩
      unfold DetourNavigator.addWater
      simp
    · refine ⟨cell2, positions, ?_, hp⟩
      unfold DetourNavigator.addWater
      simpa [Function.update, hcell] using hrec

theorem removeObject_tables (D : Collaborators) (m : Manager D) (id : ObjectId) :
    (removeObject D m id).2.mObjectsTilesPositions = m.mObjectsTilesPositions ∧
    (removeObject D m id).2.mWaterTilesPositions = m.mWaterTilesPositions := by
  unfold removeObject
  cases m.mObjectsTilesPositions id <;> exact ⟨rfl, rfl⟩

theorem removeWater_tables (D : Collaborators) (m : Manager D) (cellPosition : CellPosition) :
    (removeWater D m cellPosition).2.mObjectsTilesPositions = m.mObjectsTilesPositions ∧
    (removeWater D m cellPosition).2.mWaterTilesPositions = m.mWaterTilesPositions := by
  unfold removeWater
  cases m.mWaterTilesPositions cellPosition <;> exact ⟨rfl, rfl⟩

theorem removeObject_no_new_tile (D : Collaborators) (m : Manager D) (id : ObjectId)
    (p : TilePosition) (h : hasTile D (removeObject D m id).2 p = true) :
    hasTile D m p = true := by
  cases hrec : m.mObjectsTilesPositions id with
  | none =>
    have hnoop : removeObject D m id = (none, m) := by
      unfold removeObject
      rw [hrec]
    rw [hnoop] at h
    exact h
  | some positions =>
    rw [removeObject_recorded D m id positions hrec] at h
    exact removeObject_fold_no_new_tile D id positions _ p h

theorem removeWater_no_new_tile (D : Collaborators) (m : Manager D)
    (cellPosition : CellPosition) (p : TilePosition)
    (h : hasTile D (removeWater D m cellPosition).2 p = true) : hasTile D m p = true := by
  cases hrec : m.mWaterTilesPositions cellPosition with
  | none =>
    have hnoop : removeWater D m cellPosition = (none, m) := by
      unfold removeWater
      rw [hrec]
    rw [hnoop] at h
    exact h
  | some positions =>
    rw [removeWater_recorded D m cellPosition positions hrec] at h
    exact removeWater_fold_no_new_tile D cellPosition positions _ p h

theorem recorded_of_hasTile (D : Collaborators)
    (hfreshObject : ∀ p g id shape transform areaType,
      (D.tileAddObject (D.makeTile p g) id shape transform areaType).1 = true)
    (hfreshWater : ∀ p g cellPosition cellSize transform,
      (D.tileAddWater (D.makeTile p g) cellPosition cellSize transform).1 = true)
    (m : Manager D) (hm : ReachedWithNewIds D m) (p : TilePosition)
    (hp : hasTile D m p = true) : Recorded m p := by
  induction hm with
  | empty => simp [hasTile, Manager.empty, tilesFind] at hp
  | @addObject m id shape transform areaType _ hnew ih =>
    by_cases hbefore : hasTile D m p = true
    · exact recorded_after_addObject D m id shape transform areaType hnew p (ih hbefore)
    · have hnone : tilesFind m.mTiles p = none := by
        unfold hasTile at hbefore
        cases h : tilesFind m.mTiles p with
        | none => rfl
        | some t => simp [h] at hbefore
      unfold hasTile at hp
      rw [addObject_tiles] at hp
      have hmem : p ∈ D.shapeTiles shape transform := by
        rcases (addObject_fold_hasTile D _ id shape transform areaType _ _ p).mp hp with h | h
        · simp [hnone] at h
        · exact h
      have hacc := addObject_fold_new_tile_recorded D m.mTilesGeneration id shape transform
        areaType (fun q g => hfreshObject q g id shape transform areaType)
        (D.shapeTiles shape transform) (m.mTiles, []) p hmem hnone
      left
      refine ⟨id, sortTiles ((D.shapeTiles shape transform).foldl
        (addObjectStep D m.mTilesGeneration id shape transform areaType) (m.mTiles, [])).2, ?_,
        (mem_sortTiles _ p).mpr hacc⟩
      unfold DetourNavigator.addObject
      dsimp only
      split
      · rename_i hempty
        rw [List.isEmpty_iff] at hempty
        rw [hempty] at hacc
        exact absurd hacc (by simp)
      · simp
  | @removeObject m id _ ih =>
    have hrec := ih (removeObject_no_new_tile D m id p hp)
    unfold Recorded at hrec ⊢
    rw [(removeObject_tables D m id).1, (removeObject_tables D m id).2]
    exact hrec
  | @addWater m cellPosition cellSize transform _ ih =>
    by_cases hbefore : hasTile D m p = true
    · exact recorded_after_addWater D m cellPosition cellSize transform p (ih hbefore)
    · have hnone : tilesFind m.mTiles p = none := by
        unfold hasTile at hbefore
        cases h : tilesFind m.mTiles p with
        | none => rfl
        | some t => simp [h] at hbefore
      by_cases hmax : cellSize = intMax
      · subst hmax
        unfold hasTile at hp
        rw [addWater_sentinel_tiles,
          tilesFind_map D (fun t => (D.tileAddWater t cellPosition intMax transform).2),
          hnone] at hp
        simp at hp
      · have hloop : addWaterLoop D m cellPosition cellSize transform =
            (D.waterTiles cellSize transform).foldl
              (addWaterStep D m.mTilesGeneration cellPosition cellSize transform)
              { tiles := m.mTiles
                tilesPositions := (m.mWaterTilesPositions cellPosition).getD []
                result := false } := by
          unfold addWaterLoop
          simp [hmax]
        have htiles : (addWater D m cellPosition cellSize transform).2.mTiles =
            (addWaterLoop D m cellPosition cellSize transform).tiles := rfl
        unfold hasTile at hp
        rw [htiles, hloop] at hp
        have hmem : p ∈ D.waterTiles cellSize transform := by
          rcases (addWater_fold_hasTile D _ cellPosition cellSize transform _ _ p).mp hp
            with h | h
          · simp [hnone] at h
          · exact h
        have hacc := addWater_fold_new_tile_recorded D m.mTilesGeneration cellPosition cellSize
          transform (fun q g => hfreshWater q g cellPosition cellSize transform)
          (D.waterTiles cellSize transform)
          { tiles := m.mTiles
            tilesPositions := (m.mWaterTilesPositions cellPosition).getD []
            result := false } p hmem hnone
        right
        refine ⟨cellPosition, (addWaterLoop D m cellPosition cellSize transform).tilesPositions,
          ?_, by rw [hloop]; exact hacc⟩
        unfold DetourNavigator.addWater
        simp
  | @removeWater m cellPosition _ ih =>
    have hrec := ih (removeWater_no_new_tile D m cellPosition p hp)
    unfold Recorded at hrec ⊢
    rw [(removeWater_tables D m cellPosition).1, (removeWater_tables D m cellPosition).2]
    exact hrec

/-- Counterexample to C18 as stated, in both directions. After the box of the
repository's tests is added and removed, id `7` still has `(0, 0)` in its recorded
list and no tile exists there. After the box is added at the identity transform and
added again, under the same id, one tile to the right, a tile exists at `(-1, -1)`
and no object id or water cell has that position in its list. -/
theorem tile_and_record_can_disagree :
    (hasTile testCollaborators (runCalls testCollaborators (Manager.empty testCollaborators)
        [Call.addObject 7 0 0 0, Call.removeObject 7]) ⟨0, 0⟩ = false ∧
      Recorded (runCalls testCollaborators (Manager.empty testCollaborators)
        [Call.addObject 7 0 0 0, Call.removeObject 7]) ⟨0, 0⟩) ∧
    (hasTile testCollaborators (runCalls testCollaborators (Manager.empty testCollaborators)
        [Call.addObject 7 0 0 0, Call.addObject 7 0 1 0]) ⟨-1, -1⟩ = true ∧
      ¬ Recorded (runCalls testCollaborators (Manager.empty testCollaborators)
        [Call.addObject 7 0 0 0, Call.addObject 7 0 1 0]) ⟨-1, -1⟩) := by
  refine ⟨⟨by decide, Or.inl ⟨7, [⟨-1, -1⟩, ⟨-1, 0⟩, ⟨0, -1⟩, ⟨0, 0⟩], by decide, by decide⟩⟩,
    ⟨by decide, ?_⟩⟩
  have hobjects : (runCalls testCollaborators (Manager.empty testCollaborators)
      [Call.addObject 7 0 0 0, Call.addObject 7 0 1 0]).mObjectsTilesPositions =
      Function.update (Function.update
        (fun _ => none : ObjectId → Option (List TilePosition)) 7
        (some [⟨-1, -1⟩, ⟨-1, 0⟩, ⟨0, -1⟩, ⟨0, 0⟩])) 7 (some [⟨1, -1⟩, ⟨1, 0⟩]) := rfl
  have hwater : (runCalls testCollaborators (Manager.empty testCollaborators)
      [Call.addObject 7 0 0 0, Call.addObject 7 0 1 0]).mWaterTilesPositions =
      (fun _ => none : CellPosition → Option (List TilePosition)) := rfl
  rintro (⟨id, positions, hrec, hp⟩ | ⟨cellPosition, positions, hrec, hp⟩)
  · rw [hobjects] at hrec
    by_cases hid : id = 7
    · subst hid
      simp only [Function.update_same, Option.some.injEq] at hrec
      subst hrec
      exact absurd hp (by decide)
    · simp [Function.update, hid] at hrec
  · rw [hwater] at hrec
    exact absurd hrec (by simp)

/-! ## The registry stays a map -/

theorem tilesInsert_keys_nodup {D : Collaborators} (tiles : TilesMap D) (p : TilePosition)
    (t : D.Tile) (habsent : tilesFind tiles p = none) (hkeys : (tiles.map Prod.fst).Nodup) :
    ((tilesInsert tiles p t).map Prod.fst).Nodup := by
  induction tiles with
  | nil => simp [tilesInsert]
  | cons e rest ih =>
    obtain ⟨q, u⟩ := e
    have hq : ¬ q = p := by
      intro h
      simp [tilesFind, h] at habsent
    have hrest : tilesFind rest p = none := by
      simpa [tilesFind, hq] using habsent
    simp only [List.map_cons, List.nodup_cons] at hkeys
    by_cases hlt : p < q
    · simp only [tilesInsert, hlt, if_true, List.map_cons, List.nodup_cons]
      refine ⟨?_, hkeys⟩
      have := (tilesFind_eq_none_iff ((q, u) :: rest) p).mp habsent
      simpa using this
    · simp only [tilesInsert, hlt, hq, if_false, List.map_cons, List.nodup_cons]
      refine ⟨?_, ih hrest hkeys.2⟩
      intro hmem
      have hfound : tilesFind (tilesInsert rest p t) q ≠ none := by
        intro hnone
        exact (tilesFind_eq_none_iff _ q).mp hnone hmem
      rw [tilesFind_tilesInsert _ _ _ _ hrest, if_neg hq] at hfound
      exact hfound ((tilesFind_eq_none_iff rest q).mpr hkeys.1)

theorem addTile_keys_nodup (D : Collaborators) (gen : Nat) (id : ObjectId) (shape : Shape)
    (transform : Transform) (areaType : AreaType) (p : TilePosition) (tiles : TilesMap D)
    (hkeys : (tiles.map Prod.fst).Nodup) :
    ((addTile D gen id shape transform areaType p tiles).2.map Prod.fst).Nodup := by
  unfold addTile
  cases h : tilesFind tiles p with
  | none => exact tilesInsert_keys_nodup _ _ _ h hkeys
  | some t =>
    dsimp only
    rw [tilesAssign_keys]
    exact hkeys

theorem addObject_keysDistinct (D : Collaborators) (m : Manager D) (id : ObjectId)
    (shape : Shape) (transform : Transform) (areaType : AreaType) (hkeys : m.keysDistinct) :
    (addObject D m id shape transform areaType).2.keysDistinct := by
  unfold Manager.keysDistinct at hkeys ⊢
  rw [addObject_tiles]
  generalize D.shapeTiles shape transform = ps
  have key : ∀ (st : TilesMap D × List TilePosition), (st.1.map Prod.fst).Nodup →
      ((ps.foldl (addObjectStep D m.mTilesGeneration id shape transform areaType) st).1.map
        Prod.fst).Nodup := by
    induction ps with
    | nil => exact fun st h => h
    | cons a ps ih =>
      intro st h
      rw [List.foldl_cons]
      apply ih
      rw [addObjectStep_fst]
      exact addTile_keys_nodup D _ id shape transform areaType a st.1 h
  exact key (m.mTiles, []) hkeys

theorem addWaterStep_keys_nodup (D : Collaborators) (gen : Nat) (cellPosition : CellPosition)
    (cellSize : Int) (transform : Transform) (st : WaterState D) (p : TilePosition)
    (hkeys : (st.tiles.map Prod.fst).Nodup) :
    ((addWaterStep D gen cellPosition cellSize transform st p).tiles.map Prod.fst).Nodup := by
  unfold addWaterStep
  cases h : tilesFind st.tiles p with
  | none => exact tilesInsert_keys_nodup _ _ _ h hkeys
  | some t =>
    dsimp only
    rw [tilesAssign_keys]
    exact hkeys

theorem addWater_keysDistinct (D : Collaborators) (m : Manager D) (cellPosition : CellPosition)
    (cellSize : Int) (transform : Transform) (hkeys : m.keysDistinct) :
    (addWater D m cellPosition cellSize transform).2.keysDistinct := by
  unfold Manager.keysDistinct at hkeys ⊢
  by_cases hmax : cellSize = intMax
  · subst hmax
    rw [addWater_sentinel_tiles, List.map_map]
    exact hkeys
  · have htiles : (addWater D m cellPosition cellSize transform).2.mTiles =
        ((D.waterTiles cellSize transform).foldl
          (addWaterStep D m.mTilesGeneration cellPosition cellSize transform)
          { tiles := m.mTiles
            tilesPositions := (m.mWaterTilesPositions cellPosition).getD []
            result := false }).tiles := by
      unfold addWater addWaterLoop
      simp [hmax]
    rw [htiles]
    generalize D.waterTiles cellSize transform = ps
    have key : ∀ (st : WaterState D), (st.tiles.map Prod.fst).Nodup →
        ((ps.foldl (addWaterStep D m.mTilesGeneration cellPosition cellSize transform)
          st).tiles.map Prod.fst).Nodup := by
      induction ps with
      | nil => exact fun st h => h
      | cons a ps ih =>
        intro st h
        rw [List.foldl_cons]
        exact ih _ (addWaterStep_keys_nodup D _ cellPosition cellSize transform st a h)
    exact key _ hkeys

theorem reportNavMeshChange_keysDistinct (D : Collaborators) (m : Manager D)
    (tilePosition : TilePosition) (recastMeshVersion navMeshVersion : Version)
    (hkeys : m.keysDistinct) :
    (reportNavMeshChange D m tilePosition recastMeshVersion navMeshVersion).keysDistinct := by
  unfold Manager.keysDistinct at hkeys ⊢
  unfold reportNavMeshChange
  cases tilesFind m.mTiles tilePosition with
  | none => exact hkeys
  | some t =>
    dsimp only
    rw [tilesAssign_keys]
    exact hkeys

theorem Call.run_keysDistinct (D : Collaborators) (m : Manager D) (call : Call)
    (hkeys : m.keysDistinct) : (call.run D m).keysDistinct := by
  cases call with
  | addObject id shape transform areaType =>
    exact addObject_keysDistinct D m id shape transform areaType hkeys
  | removeObject id => exact (removeObject_count D m id hkeys).1
  | addWater cellPosition cellSize transform =>
    exact addWater_keysDistinct D m cellPosition cellSize transform hkeys
  | removeWater cellPosition => exact (removeWater_count D m cellPosition hkeys).1
  | getMesh p => exact hkeys
  | hasTile p => exact hkeys
  | getRevision => exact hkeys
  | reportNavMeshChange p r n => exact reportNavMeshChange_keysDistinct D m p r n hkeys

/-- Every state reached from a newly constructed manager by public calls has a registry
that binds no position twice. -/
theorem runCalls_keysDistinct (D : Collaborators) (calls : List Call) (m : Manager D)
    (hkeys : m.keysDistinct) : (runCalls D m calls).keysDistinct := by
  induction calls generalizing m with
  | nil => exact hkeys
  | cons c cs ih =>
    rw [runCalls_cons]
    exact ih _ (Call.run_keysDistinct D m c hkeys)

theorem Manager.empty_keysDistinct (D : Collaborators) : (Manager.empty D).keysDistinct := by
  simp [Manager.keysDistinct, Manager.empty]

theorem addObject_fold_acc_visited (D : Collaborators) (gen : Nat) (id : ObjectId)
    (shape : Shape) (transform : Transform) (areaType : AreaType) (ps : List TilePosition)
    (st : TilesMap D × List TilePosition) (q : TilePosition)
    (hq : q ∈ (ps.foldl (addObjectStep D gen id shape transform areaType) st).2) :
    q ∈ st.2 ∨ q ∈ ps := by
  induction ps generalizing st with
  | nil => exact Or.inl hq
  | cons a ps ih =>
    rw [List.foldl_cons] at hq
    rcases ih _ hq with h | h
    · rw [addObjectStep_snd] at h
      split at h
      · rcases List.mem_append.mp h with h | h
        · exact Or.inl h
        · exact Or.inr (by simpa using Or.inl (List.mem_singleton.mp h))
      · exact Or.inl h
    · exact Or.inr (List.mem_cons_of_mem a h)

theorem addWater_fold_tilesPositions_visited (D : Collaborators) (gen : Nat)
    (cellPosition : CellPosition) (cellSize : Int) (transform : Transform)
    (ps : List TilePosition) (st : WaterState D) (q : TilePosition)
    (hq : q ∈ (ps.foldl (addWaterStep D gen cellPosition cellSize transform) st).tilesPositions) :
    q ∈ st.tilesPositions ∨ q ∈ ps := by
  induction ps generalizing st with
  | nil => exact Or.inl hq
  | cons a ps ih =>
    rw [List.foldl_cons] at hq
    rcases ih _ hq with h | h
    · rw [addWaterStep_tilesPositions] at h
      rcases List.mem_append.mp h with h | h
      · exact Or.inl h
      · split at h
        · exact Or.inr (by simpa using Or.inl (List.mem_singleton.mp h))
        · simp at h
    · exact Or.inr (List.mem_cons_of_mem a h)

theorem addWaterExisting_tilesPositions_visited (D : Collaborators)
    (cellPosition : CellPosition) (cellSize : Int) (transform : Transform) (rest : TilesMap D)
    (tilesPositions : List TilePosition) (result : Bool) (q : TilePosition)
    (hq : q ∈ (addWaterExisting D cellPosition cellSize transform rest tilesPositions
      result).tilesPositions) :
    q ∈ tilesPositions ∨ q ∈ rest.map Prod.fst := by
  induction rest generalizing tilesPositions result with
  | nil => exact Or.inl hq
  | cons e rest ih =>
    obtain ⟨p, tile⟩ := e
    simp only [addWaterExisting] at hq
    rcases ih _ _ hq with h | h
    · split at h
      · rcases List.mem_append.mp h with h | h
        · exact Or.inl h
        · exact Or.inr (by simpa using Or.inl (List.mem_singleton.mp h))
      · exact Or.inl h
    · exact Or.inr (by simpa using Or.inr h)

theorem addObject_hasTile_mono (D : Collaborators) (m : Manager D) (id : ObjectId)
    (shape : Shape) (transform : Transform) (areaType : AreaType) (p : TilePosition)
    (h : hasTile D m p = true ∨ p ∈ D.shapeTiles shape transform) :
    hasTile D (addObject D m id shape transform areaType).2 p = true := by
  unfold hasTile at h ⊢
  rw [addObject_tiles]
  exact (addObject_fold_hasTile D _ id shape transform areaType _ _ p).mpr h

theorem addWater_hasTile_mono (D : Collaborators) (m : Manager D) (cellPosition : CellPosition)
    (cellSize : Int) (transform : Transform) (p : TilePosition)
    (h : hasTile D m p = true ∨ (cellSize ≠ intMax ∧ p ∈ D.waterTiles cellSize transform)) :
    hasTile D (addWater D m cellPosition cellSize transform).2 p = true := by
  by_cases hmax : cellSize = intMax
  · subst hmax
    rcases h with h | h
    · unfold hasTile at h ⊢
      rw [addWater_sentinel_tiles,
        tilesFind_map D (fun t => (D.tileAddWater t cellPosition intMax transform).2)]
      cases hf : tilesFind m.mTiles p with
      | none => simp [hf] at h
      | some t => rfl
    · exact absurd rfl h.1
  · have htiles : (addWater D m cellPosition cellSize transform).2.mTiles =
        ((D.waterTiles cellSize transform).foldl
          (addWaterStep D m.mTilesGeneration cellPosition cellSize transform)
          { tiles := m.mTiles
            tilesPositions := (m.mWaterTilesPositions cellPosition).getD []
            result := false }).tiles := by
      unfold addWater addWaterLoop
      simp [hmax]
    unfold hasTile at h ⊢
    rw [htiles]
    refine (addWater_fold_hasTile D _ cellPosition cellSize transform _ _ p).mpr ?_
    rcases h with h | h
    · exact Or.inl h
    · exact Or.inr h.2

/-- What `addWater` records for its cell was recorded for it before, or is a position
with a tile after the call. -/
theorem addWaterLoop_tilesPositions_origin (D : Collaborators) (m : Manager D)
    (cellPosition : CellPosition) (cellSize : Int) (transform : Transform) (q : TilePosition)
    (hq : q ∈ (addWaterLoop D m cellPosition cellSize transform).tilesPositions) :
    q ∈ (m.mWaterTilesPositions cellPosition).getD [] ∨
      hasTile D m q = true ∨ (cellSize ≠ intMax ∧ q ∈ D.waterTiles cellSize transform) := by
  unfold addWaterLoop at hq
  by_cases hmax : cellSize = intMax
  · simp only [hmax, if_true] at hq
    rcases addWaterExisting_tilesPositions_visited D cellPosition intMax transform _ _ _ q hq
      with h | h
    · exact Or.inl h
    · right; left
      unfold hasTile
      cases hf : tilesFind m.mTiles q with
      | none => exact absurd h ((tilesFind_eq_none_iff _ q).mp hf)
      | some t => rfl
  · simp only [hmax, if_false] at hq
    rcases addWater_fold_tilesPositions_visited D _ cellPosition cellSize transform _ _ q hq
      with h | h
    · exact Or.inl h
    · exact Or.inr (Or.inr ⟨hmax, h⟩)

theorem hasTile_of_recorded (D : Collaborators) (m : Manager D) (hm : ReachedByAdding D m)
    (p : TilePosition) (hp : Recorded m p) : hasTile D m p = true := by
  induction hm with
  | empty =>
    rcases hp with ⟨id, positions, hrec, _⟩ | ⟨cellPosition, positions, hrec, _⟩
    · simp [Manager.empty] at hrec
    · simp [Manager.empty] at hrec
  | @addObject m id shape transform areaType _ _ ih =>
    apply addObject_hasTile_mono
    rcases hp with ⟨id2, positions, hrec, hmem⟩ | ⟨cellPosition, positions, hrec, hmem⟩
    · unfold DetourNavigator.addObject at hrec
      dsimp only at hrec
      split at hrec
      · exact Or.inl (ih (Or.inl ⟨id2, positions, hrec, hmem⟩))
      · by_cases hid : id2 = id
        · subst hid
          simp only [Function.update_same, Option.some.injEq] at hrec
          subst hrec
          rcases addObject_fold_acc_visited D _ id2 shape transform areaType _ _ p
            ((mem_sortTiles _ p).mp hmem) with h | h
          · simp at h
          · exact Or.inr h
        · simp only [Function.update, hid, dite_false] at hrec
          exact Or.inl (ih (Or.inl ⟨id2, positions, hrec, hmem⟩))
    · have hwater : (DetourNavigator.addObject D m id shape transform
          areaType).2.mWaterTilesPositions = m.mWaterTilesPositions := by
        unfold DetourNavigator.addObject
        dsimp only
        split <;> rfl
      rw [hwater] at hrec
      exact Or.inl (ih (Or.inr ⟨cellPosition, positions, hrec, hmem⟩))
  | @addWater m cellPosition cellSize transform _ ih =>
    apply addWater_hasTile_mono
    rcases hp with ⟨id, positions, hrec, hmem⟩ | ⟨cell2, positions, hrec, hmem⟩
    · exact Or.inl (ih (Or.inl ⟨id, positions, hrec, hmem⟩))
    · by_cases hcell : cell2 = cellPosition
      · subst hcell
        have hrec2 : some (addWaterLoop D m cell2 cellSize transform).tilesPositions =
            some positions := by
          unfold DetourNavigator.addWater at hrec
          simpa using hrec
        simp only [Option.some.injEq] at hrec2
        subst hrec2
        rcases addWaterLoop_tilesPositions_origin D m cell2 cellSize transform p hmem
          with h | h | h
        · cases hold : m.mWaterTilesPositions cell2 with
          | none => simp [hold] at h
          | some recorded =>
            simp only [hold, Option.getD_some] at h
            exact Or.inl (ih (Or.inr ⟨cell2, recorded, hold, h⟩))
        · exact Or.inl h
        · exact Or.inr h
      · have hrec2 : m.mWaterTilesPositions cell2 = some positions := by
          unfold DetourNavigator.addWater at hrec
          simpa [Function.update, hcell] using hrec
        exact Or.inl (ih (Or.inr ⟨cell2, positions, hrec2, hmem⟩))

theorem ReachedByAdding.reachedWithNewIds (D : Collaborators) (m : Manager D)
    (hm : ReachedByAdding D m) : ReachedWithNewIds D m := by
  induction hm with
  | empty => exact ReachedWithNewIds.empty
  | addObject id shape transform areaType _ hnew ih =>
    exact ReachedWithNewIds.addObject id shape transform areaType ih hnew
  | addWater cellPosition cellSize transform _ ih =>
    exact ReachedWithNewIds.addWater cellPosition cellSize transform ih

/-! ## The remaining contracts of the tile manager -/

/-- C21 (as amended): `removeWater` does not change the water membership table; a cell
position that was recorded is still a key afterwards and its entry holds the list
recorded before, whether or not any of the recorded tiles still existed. -/
theorem removeWater_keeps_table (D : Collaborators) (m : Manager D)
    (cellPosition : CellPosition) :
    (removeWater D m cellPosition).2.mWaterTilesPositions = m.mWaterTilesPositions := by
  unfold removeWater
  cases m.mWaterTilesPositions cellPosition <;> rfl

/-- Counterexample to C21 as stated: in the scenario of the repository's test
`remove_water_for_existing_cell_should_leave_not_empty_tiles` cell `(0, 0)` is recorded
with three tile positions; `removeWater` returns the water, and the entry of the cell
still holds the three positions. -/
theorem removeWater_leaves_entry_filled :
    managerWithBoxAndWater.mWaterTilesPositions (0, 0) = some [⟨0, 0⟩, ⟨1, 0⟩, ⟨2, 0⟩] ∧
    (removeWater testCollaborators managerWithBoxAndWater (0, 0)).1 =
      some { mCellSize := 3, mTransform := 0 } ∧
    (removeWater testCollaborators managerWithBoxAndWater (0, 0)).2.mWaterTilesPositions (0, 0) =
      some [⟨0, 0⟩, ⟨1, 0⟩, ⟨2, 0⟩] ∧
    ¬ ((removeWater testCollaborators managerWithBoxAndWater (0, 0)).2.mWaterTilesPositions (0, 0)
      = some []) ∧
    ¬ ((removeWater testCollaborators managerWithBoxAndWater (0, 0)).2.mWaterTilesPositions (0, 0)
      = none) := by
  refine ⟨by decide, by decide, by decide, by decide, by decide⟩

/-- C24: for a newly constructed manager and every tile position, `getMesh` returns
none, `hasTile` is false, `getRevision` is 0, and the registry holds no tile. -/
theorem new_manager_has_no_tile (D : Collaborators) (p : TilePosition) :
    getMesh D (Manager.empty D) p = none ∧
    hasTile D (Manager.empty D) p = false ∧
    getRevision D (Manager.empty D) = 0 ∧
    (Manager.empty D).mTiles = [] :=
  ⟨rfl, rfl, rfl, rfl⟩

theorem addObject_fold_positions (D : Collaborators) (gen : Nat) (id : ObjectId)
    (shape : Shape) (transform : Transform) (areaType : AreaType)
    (init : TilesMap D × List TilePosition) (ps pre : List TilePosition) :
    (ps.foldl (addObjectStep D gen id shape transform areaType)
        (pre.foldl (addObjectStep D gen id shape transform areaType) init)).2 =
      (pre.foldl (addObjectStep D gen id shape transform areaType) init).2 ++
        visitsAccepted (fun pre p => (D.tileAddObject (tileFor D gen
          (pre.foldl (addObjectStep D gen id shape transform areaType) init).1 p)
          id shape transform areaType).1) pre ps := by
  induction ps generalizing pre with
  | nil => simp [visitsAccepted]
  | cons a ps ih =>
    have hpre : (pre ++ [a]).foldl (addObjectStep D gen id shape transform areaType) init =
        addObjectStep D gen id shape transform areaType
          (pre.foldl (addObjectStep D gen id shape transform areaType) init) a := by
      simp [List.foldl_append]
    rw [List.foldl_cons, ← hpre, ih (pre ++ [a]), hpre, addObjectStep_snd]
    split <;> simp [visitsAccepted, *]

/-- C23: when `addObject` returns true, the list recorded for the id afterwards is the
sorted list of the positions whose tile accepted the object during this call (the
tile's `addObject` on the tile found or created at the position, in the registry as
the earlier visits left it): it is in increasing order (`x` then `y`), it has exactly
those positions, and it does not depend on what was recorded for the id before. The
lists of the other ids are as they were. -/
theorem addObject_records_sorted_accepted (D : Collaborators) (m : Manager D) (id : ObjectId)
    (shape : Shape) (transform : Transform) (areaType : AreaType)
    (htrue : (addObject D m id shape transform areaType).1 = true) :
    ∃ positions,
      (addObject D m id shape transform areaType).2.mObjectsTilesPositions id = some positions ∧
      positions.Sorted (· ≤ ·) ∧
      positions.Perm (visitsAccepted (fun pre p => (D.tileAddObject (tileFor D m.mTilesGeneration
        (pre.foldl (addObjectStep D m.mTilesGeneration id shape transform areaType)
          (m.mTiles, [])).1 p) id shape transform areaType).1) [] (D.shapeTiles shape transform)) ∧
      ∀ other, other ≠ id →
        (addObject D m id shape transform areaType).2.mObjectsTilesPositions other =
          m.mObjectsTilesPositions other := by
  have hrec := (addObject_recorded_of_true D m id shape transform areaType htrue).1
  have hpos := addObject_fold_positions D m.mTilesGeneration id shape transform areaType
    (m.mTiles, []) (D.shapeTiles shape transform) []
  simp only [List.foldl_nil, List.nil_append] at hpos
  refine ⟨_, hrec, sortTiles_sorted _, ?_, fun other hother => ?_⟩
  · rw [hpos]
    exact List.perm_insertionSort (· ≤ ·) _
  · unfold addObject
    dsimp only
    split
    · rfl
    · simp [Function.update, hother]

/-- Witness for C23: the box of the repository's tests added to a newly constructed
manager is recorded at its four tiles, in increasing order. -/
theorem addObject_records_sorted_accepted_witness :
    (addObject testCollaborators (Manager.empty testCollaborators) 7 0 0 0).1 = true ∧
    (addObject testCollaborators (Manager.empty testCollaborators) 7 0 0 0).2.mObjectsTilesPositions
      7 = some [⟨-1, -1⟩, ⟨-1, 0⟩, ⟨0, -1⟩, ⟨0, 0⟩] ∧
    ∃ positions,
      (addObject testCollaborators (Manager.empty testCollaborators) 7 0 0
        0).2.mObjectsTilesPositions 7 = some positions ∧
      positions.Sorted (· ≤ ·) :=
  ⟨by decide, by decide,
    (addObject_records_sorted_accepted testCollaborators (Manager.empty testCollaborators)
      7 0 0 0 (by decide)).imp (fun _ h => ⟨h.1, h.2.1⟩)⟩

theorem removeObject_fold_leftByRemove (D : Collaborators) (id : ObjectId)
    (ps : List TilePosition) (st : Sweep D RemovedRecastMeshObject) (q : TilePosition)
    (h : q ∈ ps ∨ LeftByRemove D id st.tiles q) :
    LeftByRemove D id (ps.foldl (removeObjectStep D id) st).tiles q := by
  induction ps generalizing st with
  | nil => simpa using h
  | cons a ps ih =>
    rw [List.foldl_cons]
    apply ih
    by_cases hq : q = a
    · right
      subst hq
      unfold LeftByRemove
      rw [removeObjectStep_tiles, removeTile_find, if_pos rfl]
      cases hfind : tilesFind st.tiles q with
      | none => exact Or.inl rfl
      | some t =>
        by_cases hempty : D.tileIsEmpty (D.tileRemoveObject t id).2 = true
        · left
          simp [tileAfterRemove, hempty]
        · right
          refine ⟨t, by simp [tileAfterRemove, hempty], by simpa using hempty⟩
    · rcases h with h | h
      · left
        simpa [hq] using h
      · right
        unfold LeftByRemove at h ⊢
        rw [removeObjectStep_tiles, removeTile_find, if_neg hq]
        exact h

theorem removeObjectStep_of_leftByRemove (D : Collaborators) (id : ObjectId)
    (hgone : ∀ t, D.tileRemoveObject (D.tileRemoveObject t id).2 id =
      (none, (D.tileRemoveObject t id).2))
    (st : Sweep D RemovedRecastMeshObject) (a : TilePosition)
    (hleft : LeftByRemove D id st.tiles a) (hresult : st.result = none) :
    removeObjectStep D id st a = st := by
  obtain ⟨tiles, generation, result⟩ := st
  simp only at hleft hresult
  subst hresult
  rcases hleft with hnone | ⟨t, hfind, hfull⟩
  · simp [removeObjectStep, removeTile, hnone]
  · simp [removeObjectStep, removeTile, hfind, hgone t, hfull, tilesAssign_self _ _ _ hfind]

theorem removeObject_fold_of_leftByRemove (D : Collaborators) (id : ObjectId)
    (hgone : ∀ t, D.tileRemoveObject (D.tileRemoveObject t id).2 id =
      (none, (D.tileRemoveObject t id).2))
    (ps : List TilePosition) (st : Sweep D RemovedRecastMeshObject)
    (hleft : ∀ q ∈ ps, LeftByRemove D id st.tiles q) (hresult : st.result = none) :
    ps.foldl (removeObjectStep D id) st = st := by
  induction ps with
  | nil => rfl
  | cons a ps ih =>
    rw [List.foldl_cons,
      removeObjectStep_of_leftByRemove D id hgone st a (hleft a (List.mem_cons_self a ps)) hresult]
    exact ih (fun q hq => hleft q (List.mem_cons_of_mem a hq))

/-- C26: for every manager state and every id, a `removeObject` that immediately follows
a `removeObject` of the same id returns nothing and leaves the manager as the first
call left it (revision, tiles generation, registry, both tables), also where tiles
at the former positions of the object still exist for other geometry. Assumed of the
tiles is that a tile which has been asked to remove the id returns nothing, and stays
as it is, when asked again. -/
theorem removeObject_again_is_noop (D : Collaborators) (m : Manager D) (id : ObjectId)
    (hgone : ∀ t, D.tileRemoveObject (D.tileRemoveObject t id).2 id =
      (none, (D.tileRemoveObject t id).2)) :
    removeObject D (removeObject D m id).2 id = (none, (removeObject D m id).2) := by
  cases hrec : m.mObjectsTilesPositions id with
  | none =>
    have h : removeObject D m id = (none, m) := by
      unfold removeObject
      rw [hrec]
    rw [h]
    exact h
  | some positions =>
    have hrec1 : (removeObject D m id).2.mObjectsTilesPositions id = some positions := by
      rw [(removeObject_tables D m id).1]
      exact hrec
    have hleft : ∀ q ∈ positions, LeftByRemove D id (removeObject D m id).2.mTiles q := by
      intro q hq
      rw [removeObject_recorded D m id positions hrec]
      exact removeObject_fold_leftByRemove D id positions
        { tiles := m.mTiles, generation := m.mTilesGeneration, result := none } q (Or.inl hq)
    generalize (removeObject D m id).2 = m1 at hrec1 hleft
    rw [removeObject_recorded D m1 id positions hrec1,
      removeObject_fold_of_leftByRemove D id hgone positions
        { tiles := m1.mTiles, generation := m1.mTilesGeneration, result := none } hleft rfl]
    rfl

theorem SpecTile.removeObject_again (t : SpecTile) (id : ObjectId) :
    SpecTile.removeObject (SpecTile.removeObject t id).2 id =
      (none, (SpecTile.removeObject t id).2) := by
  cases h : t.objects.find? (fun o => o.1 == id) with
  | none => simp [SpecTile.removeObject, h]
  | some o =>
    have hnone : (t.objects.filter (fun e => !(e.1 == id))).find? (fun o => o.1 == id)
        = none := by
      rw [List.find?_eq_none]
      intro x hx
      have := (List.mem_filter.mp hx).2
      simpa using this
    simp [SpecTile.removeObject, h, hnone]

/-- Witness for C26: the box is removed twice from the manager that holds the box and
the water cell; the tile at `(0, 0)` stays for the water, and the second call returns
nothing and changes nothing. -/
theorem removeObject_again_is_noop_witness :
    (∀ t : SpecTile, SpecTile.removeObject (SpecTile.removeObject t 7).2 7 =
      (none, (SpecTile.removeObject t 7).2)) ∧
    (removeObject testCollaborators managerWithBoxAndWater 7).1 =
      some { mShape := 0, mTransform := 0 } ∧
    hasTile testCollaborators (removeObject testCollaborators managerWithBoxAndWater 7).2
      ⟨0, 0⟩ = true ∧
    removeObject testCollaborators (removeObject testCollaborators managerWithBoxAndWater 7).2 7 =
      (none, (removeObject testCollaborators managerWithBoxAndWater 7).2) :=
  ⟨fun t => SpecTile.removeObject_again t 7, by decide, by decide,
    removeObject_again_is_noop testCollaborators managerWithBoxAndWater 7
      (fun t => SpecTile.removeObject_again t 7)⟩

theorem tilesFind_mem {D : Collaborators} (tiles : TilesMap D) (p : TilePosition) (t : D.Tile)
    (h : tilesFind tiles p = some t) : (p, t) ∈ tiles := by
  induction tiles with
  | nil => simp [tilesFind] at h
  | cons e rest ih =>
    obtain ⟨q, u⟩ := e
    by_cases hq : q = p
    · subst hq
      simp [tilesFind] at h
      simp [h]
    · simp [tilesFind, hq] at h
      exact List.mem_cons_of_mem _ (ih h)

theorem mem_tilesAssign {D : Collaborators} (tiles : TilesMap D) (p : TilePosition) (t : D.Tile)
    (e : TilePosition × D.Tile) (h : e ∈ tilesAssign tiles p t) : e ∈ tiles ∨ e = (p, t) := by
  induction tiles with
  | nil => simp [tilesAssign] at h
  | cons x rest ih =>
    obtain ⟨q, u⟩ := x
    by_cases hq : q = p
    · subst hq
      simp only [tilesAssign, if_true, List.mem_cons] at h
      rcases h with h | h
      · exact Or.inr h
      · exact Or.inl (List.mem_cons_of_mem _ h)
    · simp only [tilesAssign, if_neg hq, List.mem_cons] at h
      rcases h with h | h
      · exact Or.inl (h ▸ List.mem_cons_self _ _)
      · rcases ih h with h | h
        · exact Or.inl (List.mem_cons_of_mem _ h)
        · exact Or.inr h

theorem mem_tilesInsert {D : Collaborators} (tiles : TilesMap D) (p : TilePosition) (t : D.Tile)
    (e : TilePosition × D.Tile) (h : e ∈ tilesInsert tiles p t) : e ∈ tiles ∨ e = (p, t) := by
  induction tiles with
  | nil =>
    simp only [tilesInsert, List.mem_singleton] at h
    exact Or.inr h
  | cons x rest ih =>
    obtain ⟨q, u⟩ := x
    unfold tilesInsert at h
    split at h
    · rcases List.mem_cons.mp h with h | h
      · exact Or.inr h
      · exact Or.inl h
    · split at h
      · exact Or.inl h
      · rcases List.mem_cons.mp h with h | h
        · exact Or.inl (h ▸ List.mem_cons_self _ _)
        · rcases ih h with h | h
          · exact Or.inl (List.mem_cons_of_mem _ h)
          · exact Or.inr h

theorem noEmptyTile_tilesAssign (D : Collaborators) (tiles : TilesMap D) (p : TilePosition)
    (t : D.Tile) (h : NoEmptyTile D tiles) (ht : D.tileIsEmpty t = false) :
    NoEmptyTile D (tilesAssign tiles p t) := by
  intro e he
  rcases mem_tilesAssign tiles p t e he with he | he
  · exact h e he
  · rw [he]
    exact ht

theorem noEmptyTile_tilesInsert (D : Collaborators) (tiles : TilesMap D) (p : TilePosition)
    (t : D.Tile) (h : NoEmptyTile D tiles) (ht : D.tileIsEmpty t = false) :
    NoEmptyTile D (tilesInsert tiles p t) := by
  intro e he
  rcases mem_tilesInsert tiles p t e he with he | he
  · exact h e he
  · rw [he]
    exact ht

theorem noEmptyTile_tilesErase (D : Collaborators) (tiles : TilesMap D) (p : TilePosition)
    (h : NoEmptyTile D tiles) : NoEmptyTile D (tilesErase tiles p) := by
  intro e he
  exact h e (List.mem_filter.mp he).1

theorem noEmptyTile_find (D : Collaborators) (tiles : TilesMap D) (h : NoEmptyTile D tiles)
    (p : TilePosition) (t : D.Tile) (hfind : tilesFind tiles p = some t) :
    D.tileIsEmpty t = false :=
  h (p, t) (tilesFind_mem tiles p t hfind)

theorem addTile_noEmptyTile (D : Collaborators) (hfill : FillsOnAdd D) (gen : Nat)
    (id : ObjectId) (shape : Shape) (transform : Transform) (areaType : AreaType)
    (p : TilePosition) (tiles : TilesMap D) (h : NoEmptyTile D tiles) :
    NoEmptyTile D (addTile D gen id shape transform areaType p tiles).2 := by
  unfold addTile
  cases hfind : tilesFind tiles p with
  | none =>
    exact noEmptyTile_tilesInsert D tiles p _ h
      (hfill.acceptedObject _ id shape transform areaType
        (hfill.freshObject p gen id shape transform areaType))
  | some t =>
    exact noEmptyTile_tilesAssign D tiles p _ h
      (hfill.keptObject t id shape transform areaType (noEmptyTile_find D tiles h p t hfind))

theorem addObject_noEmptyTile (D : Collaborators) (hfill : FillsOnAdd D) (m : Manager D)
    (id : ObjectId) (shape : Shape) (transform : Transform) (areaType : AreaType)
    (h : NoEmptyTile D m.mTiles) :
    NoEmptyTile D (addObject D m id shape transform areaType).2.mTiles := by
  rw [addObject_tiles]
  generalize D.shapeTiles shape transform = ps
  have key : ∀ (st : TilesMap D × List TilePosition), NoEmptyTile D st.1 →
      NoEmptyTile D
        (ps.foldl (addObjectStep D m.mTilesGeneration id shape transform areaType) st).1 := by
    induction ps with
    | nil => exact fun st h => h
    | cons a ps ih =>
      intro st hst
      rw [List.foldl_cons]
      apply ih
      rw [addObjectStep_fst]
      exact addTile_noEmptyTile D hfill _ id shape transform areaType a st.1 hst
  exact key (m.mTiles, []) h

theorem removeTile_noEmptyTile (D : Collaborators) (id : ObjectId) (p : TilePosition)
    (st : TilesMap D × Nat) (h : NoEmptyTile D st.1) :
    NoEmptyTile D (removeTile D id p st).2.1 := by
  unfold removeTile
  cases hfind : tilesFind st.1 p with
  | none => exact h
  | some t =>
    dsimp only
    by_cases hempty : D.tileIsEmpty (D.tileRemoveObject t id).2 = true
    · rw [if_pos hempty]
      exact noEmptyTile_tilesErase D st.1 p h
    · rw [if_neg hempty]
      exact noEmptyTile_tilesAssign D st.1 p _ h (by simpa using hempty)

theorem removeObject_fold_noEmptyTile (D : Collaborators) (id : ObjectId)
    (ps : List TilePosition) (st : Sweep D RemovedRecastMeshObject)
    (h : NoEmptyTile D st.tiles) :
    NoEmptyTile D (ps.foldl (removeObjectStep D id) st).tiles := by
  induction ps generalizing st with
  | nil => exact h
  | cons a ps ih =>
    rw [List.foldl_cons]
    apply ih
    rw [removeObjectStep_tiles]
    exact removeTile_noEmptyTile D id a (st.tiles, st.generation) h

theorem removeObject_noEmptyTile (D : Collaborators) (m : Manager D) (id : ObjectId)
    (h : NoEmptyTile D m.mTiles) : NoEmptyTile D (removeObject D m id).2.mTiles := by
  cases hrec : m.mObjectsTilesPositions id with
  | none =>
    have hsame : removeObject D m id = (none, m) := by
      unfold removeObject
      rw [hrec]
    rw [hsame]
    exact h
  | some positions =>
    rw [removeObject_recorded D m id positions hrec]
    exact removeObject_fold_noEmptyTile D id positions
      { tiles := m.mTiles, generation := m.mTilesGeneration, result := none } h

theorem removeWaterStep_noEmptyTile (D : Collaborators) (cellPosition : CellPosition)
    (st : Sweep D Water) (p : TilePosition) (h : NoEmptyTile D st.tiles) :
    NoEmptyTile D (removeWaterStep D cellPosition st p).tiles := by
  unfold removeWaterStep
  cases hfind : tilesFind st.tiles p with
  | none => exact h
  | some t =>
    dsimp only
    by_cases hempty : D.tileIsEmpty (D.tileRemoveWater t cellPosition).2 = true
    · rw [if_pos hempty]
      exact noEmptyTile_tilesErase D st.tiles p h
    · rw [if_neg hempty]
      exact noEmptyTile_tilesAssign D st.tiles p _ h (by simpa using hempty)

theorem removeWater_fold_noEmptyTile (D : Collaborators) (cellPosition : CellPosition)
    (ps : List TilePosition) (st : Sweep D Water) (h : NoEmptyTile D st.tiles) :
    NoEmptyTile D (ps.foldl (removeWaterStep D cellPosition) st).tiles := by
  induction ps generalizing st with
  | nil => exact h
  | cons a ps ih =>
    rw [List.foldl_cons]
    exact ih _ (removeWaterStep_noEmptyTile D cellPosition st a h)

theorem removeWater_noEmptyTile (D : Collaborators) (m : Manager D)
    (cellPosition : CellPosition) (h : NoEmptyTile D m.mTiles) :
    NoEmptyTile D (removeWater D m cellPosition).2.mTiles := by
  cases hrec : m.mWaterTilesPositions cellPosition with
  | none =>
    have hsame : removeWater D m cellPosition = (none, m) := by
      unfold removeWater
      rw [hrec]
    rw [hsame]
    exact h
  | some positions =>
    rw [removeWater_recorded D m cellPosition positions hrec]
    exact removeWater_fold_noEmptyTile D cellPosition positions
      { tiles := m.mTiles, generation := m.mTilesGeneration, result := none } h

theorem addWaterStep_noEmptyTile (D : Collaborators) (hfill : FillsOnAdd D) (gen : Nat)
    (cellPosition : CellPosition) (cellSize : Int) (transform : Transform)
    (st : WaterState D) (p : TilePosition) (h : NoEmptyTile D st.tiles) :
    NoEmptyTile D (addWaterStep D gen cellPosition cellSize transform st p).tiles := by
  unfold addWaterStep
  cases hfind : tilesFind st.tiles p with
  | none =>
    exact noEmptyTile_tilesInsert D st.tiles p _ h
      (hfill.acceptedWater _ cellPosition cellSize transform
        (hfill.freshWater p gen cellPosition cellSize transform))
  | some t =>
    exact noEmptyTile_tilesAssign D st.tiles p _ h
      (hfill.keptWater t cellPosition cellSize transform
        (noEmptyTile_find D st.tiles h p t hfind))

theorem addWater_noEmptyTile (D : Collaborators) (hfill : FillsOnAdd D) (m : Manager D)
    (cellPosition : CellPosition) (cellSize : Int) (transform : Transform)
    (h : NoEmptyTile D m.mTiles) :
    NoEmptyTile D (addWater D m cellPosition cellSize transform).2.mTiles := by
  by_cases hmax : cellSize = intMax
  · subst hmax
    rw [addWater_sentinel_tiles]
    intro e he
    obtain ⟨x, hx, rfl⟩ := List.mem_map.mp he
    exact hfill.keptWater x.2 cellPosition intMax transform (h x hx)
  · have htiles : (addWater D m cellPosition cellSize transform).2.mTiles =
        ((D.waterTiles cellSize transform).foldl
          (addWaterStep D m.mTilesGeneration cellPosition cellSize transform)
          { tiles := m.mTiles
            tilesPositions := (m.mWaterTilesPositions cellPosition).getD []
            result := false }).tiles := by
      unfold addWater addWaterLoop
      simp only [if_neg hmax]
    rw [htiles]
    generalize D.waterTiles cellSize transform = ps
    have key : ∀ (st : WaterState D), NoEmptyTile D st.tiles →
        NoEmptyTile D (ps.foldl
          (addWaterStep D m.mTilesGeneration cellPosition cellSize transform) st).tiles := by
      induction ps with
      | nil => exact fun st h => h
      | cons a ps ih =>
        intro st hst
        rw [List.foldl_cons]
        exact ih _ (addWaterStep_noEmptyTile D hfill _ cellPosition cellSize transform st a hst)
    exact key _ h

theorem runCalls_noEmptyTile (D : Collaborators) (hfill : FillsOnAdd D) (calls : List Call)
    (hcalls : ∀ c ∈ calls, c.isAddOrRemove = true) (m : Manager D)
    (h : NoEmptyTile D m.mTiles) : NoEmptyTile D (runCalls D m calls).mTiles := by
  induction calls generalizing m with
  | nil => exact h
  | cons c cs ih =>
    rw [runCalls_cons]
    apply ih (fun x hx => hcalls x (List.mem_cons_of_mem c hx))
    have hc := hcalls c (List.mem_cons_self c cs)
    cases c with
    | addObject id shape transform areaType =>
      exact addObject_noEmptyTile D hfill m id shape transform areaType h
    | removeObject id => exact removeObject_noEmptyTile D m id h
    | addWater cellPosition cellSize transform =>
      exact addWater_noEmptyTile D hfill m cellPosition cellSize transform h
    | removeWater cellPosition => exact removeWater_noEmptyTile D m cellPosition h
    | getMesh p => simp [Call.isAddOrRemove] at hc
    | hasTile p => simp [Call.isAddOrRemove] at hc
    | getRevision => simp [Call.isAddOrRemove] at hc
    | reportNavMeshChange p r n => simp [Call.isAddOrRemove] at hc

/-- C25: in every state reached from a newly constructed manager by a sequence of
`addObject`, `removeObject`, `addWater` and `removeWater` calls, no tile of the registry
reports empty. Assumed of the tiles: a tile just constructed accepts the first object
or water cell offered to it, a tile that accepted one does not report empty, and an
`addObject` or `addWater` on a tile that does not report empty leaves it so. -/
theorem reachable_registry_has_no_empty_tile (D : Collaborators) (hfill : FillsOnAdd D)
    (calls : List Call) (hcalls : ∀ c ∈ calls, c.isAddOrRemove = true) :
    ∀ e ∈ (runCalls D (Manager.empty D) calls).mTiles, D.tileIsEmpty e.2 = false :=
  runCalls_noEmptyTile D hfill calls hcalls (Manager.empty D)
    (fun e he => by simp [Manager.empty] at he)

theorem SpecTile.fillsOnAdd (shapeTiles : Shape → Transform → List TilePosition)
    (waterTiles : Int → Transform → List TilePosition) :
    FillsOnAdd (specCollaborators shapeTiles waterTiles) where
  freshObject := fun p g id shape transform areaType => by
    simp [specCollaborators, SpecTile.addObject]
  freshWater := fun p g cellPosition cellSize transform => by
    simp [specCollaborators, SpecTile.addWater]
  acceptedObject := fun t id shape transform areaType h => by
    simp only [specCollaborators] at h ⊢
    unfold SpecTile.addObject at h ⊢
    split at h
    · simp at h
    · rename_i hany
      simp [hany, SpecTile.isEmpty]
  acceptedWater := fun t cellPosition cellSize transform h => by
    simp only [specCollaborators] at h ⊢
    unfold SpecTile.addWater at h ⊢
    split at h
    · simp at h
    · rename_i hany
      simp [hany, SpecTile.isEmpty]
  keptObject := fun t id shape transform areaType h => by
    simp only [specCollaborators] at h ⊢
    unfold SpecTile.addObject
    split
    · exact h
    · simp [SpecTile.isEmpty]
  keptWater := fun t cellPosition cellSize transform h => by
    simp only [specCollaborators] at h ⊢
    unfold SpecTile.addWater
    split
    · exact h
    · simp [SpecTile.isEmpty]

/-- Witness for C25: the box and a water cell are added and the box is removed again;
the two tiles left are those of the water cell, and neither reports empty. -/
theorem reachable_registry_has_no_empty_tile_witness :
    FillsOnAdd testCollaborators ∧
    (∀ c ∈ [Call.addObject 7 0 0 0, Call.addWater (0, 0) 2 0, Call.removeObject 7],
      c.isAddOrRemove = true) ∧
    (runCalls testCollaborators (Manager.empty testCollaborators)
      [Call.addObject 7 0 0 0, Call.addWater (0, 0) 2 0, Call.removeObject 7]).mTiles.map
        Prod.fst = [⟨0, 0⟩, ⟨1, 0⟩] ∧
    ∀ e ∈ (runCalls testCollaborators (Manager.empty testCollaborators)
      [Call.addObject 7 0 0 0, Call.addWater (0, 0) 2 0, Call.removeObject 7]).mTiles,
      testCollaborators.tileIsEmpty e.2 = false :=
  ⟨SpecTile.fillsOnAdd blockTiles stripTiles, by decide, by decide,
    reachable_registry_has_no_empty_tile testCollaborators
      (SpecTile.fillsOnAdd blockTiles stripTiles)
      [Call.addObject 7 0 0 0, Call.addWater (0, 0) 2 0, Call.removeObject 7] (by decide)⟩

theorem addObject_fold_of_none_accepted (D : Collaborators) (gen : Nat) (id : ObjectId)
    (shape : Shape) (transform : Transform) (areaType : AreaType)
    (hreject : ∀ t, (D.tileAddObject t id shape transform areaType).1 = false →
      (D.tileAddObject t id shape transform areaType).2 = t)
    (hfresh : ∀ p, (D.tileAddObject (D.makeTile p gen) id shape transform areaType).1 = true)
    (ps : List TilePosition) (st : TilesMap D × List TilePosition)
    (hempty : (ps.foldl (addObjectStep D gen id shape transform areaType) st).2 = []) :
    ps.foldl (addObjectStep D gen id shape transform areaType) st = st := by
  induction ps generalizing st with
  | nil => rfl
  | cons a ps ih =>
    rw [List.foldl_cons] at hempty ⊢
    have hacc : (D.tileAddObject (tileFor D gen st.1 a) id shape transform areaType).1
        = false := by
      by_contra hne
      have htrue : (D.tileAddObject (tileFor D gen st.1 a) id shape transform areaType).1
          = true := by simpa using hne
      have hfull := (addObject_fold_nonempty D gen id shape transform areaType ps
        (addObjectStep D gen id shape transform areaType st a)).mpr
        (Or.inl (by rw [addObjectStep_snd, if_pos htrue]; simp))
      exact hfull hempty
    have hstep : addObjectStep D gen id shape transform areaType st a = st := by
      obtain ⟨tiles, acc⟩ := st
      unfold tileFor at hacc
      unfold addObjectStep addTile
      cases hfind : tilesFind tiles a with
      | none =>
        simp only [hfind] at hacc
        rw [hfresh a] at hacc
        exact absurd hacc (by decide)
      | some t =>
        simp only [hfind] at hacc
        simp [hacc, hreject t hacc, tilesAssign_self tiles a t hfind]
    rw [hstep] at hempty ⊢
    exact ih st hempty

theorem addObject_of_false (D : Collaborators) (m : Manager D) (id : ObjectId)
    (shape : Shape) (transform : Transform) (areaType : AreaType)
    (hreject : ∀ t, (D.tileAddObject t id shape transform areaType).1 = false →
      (D.tileAddObject t id shape transform areaType).2 = t)
    (hfresh : ∀ p, (D.tileAddObject (D.makeTile p m.mTilesGeneration) id shape transform
      areaType).1 = true)
    (hfalse : (addObject D m id shape transform areaType).1 = false) :
    (addObject D m id shape transform areaType).2 = m := by
  unfold addObject at hfalse ⊢
  dsimp only at hfalse ⊢
  split at hfalse
  · rename_i hempty
    rw [if_pos hempty]
    have hnil := List.isEmpty_iff.mp hempty
    rw [addObject_fold_of_none_accepted D m.mTilesGeneration id shape transform areaType
      hreject hfresh _ (m.mTiles, []) hnil]
  · simp at hfalse

theorem removeObject_fold_of_none (D : Collaborators) (id : ObjectId)
    (hmiss : ∀ t, (D.tileRemoveObject t id).1 = none → (D.tileRemoveObject t id).2 = t)
    (ps : List TilePosition) (st : Sweep D RemovedRecastMeshObject)
    (hfull : NoEmptyTile D st.tiles) (hstart : st.result = none)
    (hnone : (ps.foldl (removeObjectStep D id) st).result = none) :
    ps.foldl (removeObjectStep D id) st = st := by
  induction ps with
  | nil => rfl
  | cons a ps ih =>
    rw [List.foldl_cons] at hnone ⊢
    have hstep : removeObjectStep D id st a = st := by
      obtain ⟨tiles, generation, result⟩ := st
      simp only at hfull hstart
      subst hstart
      cases hfind : tilesFind tiles a with
      | none => simp [removeObjectStep, removeTile, hfind]
      | some t =>
        cases hr : (D.tileRemoveObject t id).1 with
        | some r =>
          have hstepres : (removeObjectStep D id
              { tiles := tiles, generation := generation, result := none } a).result
              = some r := by
            rw [removeObjectStep_result_of_none D id _ a rfl]
            unfold removeTile
            simp only [hfind]
            split <;> exact hr
          rw [removeObject_fold_result_of_some D id ps _ r hstepres] at hnone
          exact absurd hnone (by simp)
        | none =>
          have hsame := hmiss t hr
          have hnonempty := noEmptyTile_find D tiles hfull a t hfind
          simp [removeObjectStep, removeTile, hfind, hr, hsame, hnonempty,
            tilesAssign_self tiles a t hfind]
    rw [hstep] at hnone ⊢
    exact ih hnone

theorem removeObject_of_none (D : Collaborators) (m : Manager D) (id : ObjectId)
    (hmiss : ∀ t, (D.tileRemoveObject t id).1 = none → (D.tileRemoveObject t id).2 = t)
    (hfull : NoEmptyTile D m.mTiles) (hnone : (removeObject D m id).1 = none) :
    (removeObject D m id).2 = m := by
  cases hrec : m.mObjectsTilesPositions id with
  | none =>
    unfold removeObject
    rw [hrec]
  | some positions =>
    rw [removeObject_recorded D m id positions hrec] at hnone ⊢
    simp only at hnone
    rw [removeObject_fold_of_none D id hmiss positions
      { tiles := m.mTiles, generation := m.mTilesGeneration, result := none } hfull rfl hnone]
    rfl

theorem removeWater_fold_of_none (D : Collaborators) (cellPosition : CellPosition)
    (hmiss : ∀ t, (D.tileRemoveWater t cellPosition).1 = none →
      (D.tileRemoveWater t cellPosition).2 = t)
    (ps : List TilePosition) (st : Sweep D Water)
    (hfull : NoEmptyTile D st.tiles) (hstart : st.result = none)
    (hnone : (ps.foldl (removeWaterStep D cellPosition) st).result = none) :
    ps.foldl (removeWaterStep D cellPosition) st = st := by
  induction ps with
  | nil => rfl
  | cons a ps ih =>
    rw [List.foldl_cons] at hnone ⊢
    have hstep : removeWaterStep D cellPosition st a = st := by
      obtain ⟨tiles, generation, result⟩ := st
      simp only at hfull hstart
      subst hstart
      cases hfind : tilesFind tiles a with
      | none => simp [removeWaterStep, hfind]
      | some t =>
        cases hr : (D.tileRemoveWater t cellPosition).1 with
        | some r =>
          have hstepres : (removeWaterStep D cellPosition
              { tiles := tiles, generation := generation, result := none } a).result
              = some r := by
            simp [removeWaterStep, hfind, hr]
          rw [removeWater_fold_result_of_some D cellPosition ps _ r hstepres] at hnone
          exact absurd hnone (by simp)
        | none =>
          have hsame := hmiss t hr
          have hnonempty := noEmptyTile_find D tiles hfull a t hfind
          simp [removeWaterStep, hfind, hr, hsame, hnonempty,
            tilesAssign_self tiles a t hfind]
    rw [hstep] at hnone ⊢
    exact ih hnone

theorem removeWater_of_none (D : Collaborators) (m : Manager D) (cellPosition : CellPosition)
    (hmiss : ∀ t, (D.tileRemoveWater t cellPosition).1 = none →
      (D.tileRemoveWater t cellPosition).2 = t)
    (hfull : NoEmptyTile D m.mTiles) (hnone : (removeWater D m cellPosition).1 = none) :
    (removeWater D m cellPosition).2 = m := by
  cases hrec : m.mWaterTilesPositions cellPosition with
  | none =>
    unfold removeWater
    rw [hrec]
  | some positions =>
    rw [removeWater_recorded D m cellPosition positions hrec] at hnone ⊢
    simp only at hnone
    rw [removeWater_fold_of_none D cellPosition hmiss positions
      { tiles := m.mTiles, generation := m.mTilesGeneration, result := none } hfull rfl hnone]
    rfl

theorem addWater_fold_of_none_accepted (D : Collaborators) (gen : Nat)
    (cellPosition : CellPosition) (cellSize : Int) (transform : Transform)
    (hreject : ∀ t, (D.tileAddWater t cellPosition cellSize transform).1 = false →
      (D.tileAddWater t cellPosition cellSize transform).2 = t)
    (hfresh : ∀ p, (D.tileAddWater (D.makeTile p gen) cellPosition cellSize transform).1 = true)
    (ps : List TilePosition) (st : WaterState D)
    (hfalse : (ps.foldl (addWaterStep D gen cellPosition cellSize transform) st).result
      = false) :
    ps.foldl (addWaterStep D gen cellPosition cellSize transform) st = st := by
  induction ps generalizing st with
  | nil => rfl
  | cons a ps ih =>
    rw [List.foldl_cons] at hfalse ⊢
    have hacc : (D.tileAddWater (tileFor D gen st.tiles a) cellPosition cellSize transform).1
        = false := by
      by_contra hne
      have htrue : (D.tileAddWater (tileFor D gen st.tiles a) cellPosition cellSize
          transform).1 = true := by simpa using hne
      have hres := (addWater_fold_result D gen cellPosition cellSize transform ps
        (addWaterStep D gen cellPosition cellSize transform st a)).mpr
        (Or.inl (by rw [addWaterStep_result, htrue]; rfl))
      rw [hres] at hfalse
      exact absurd hfalse (by decide)
    have hstep : addWaterStep D gen cellPosition cellSize transform st a = st := by
      obtain ⟨tiles, tilesPositions, result⟩ := st
      unfold tileFor at hacc
      unfold addWaterStep
      cases hfind : tilesFind tiles a with
      | none =>
        simp only [hfind] at hacc
        rw [hfresh a] at hacc
        exact absurd hacc (by decide)
      | some t =>
        simp only [hfind] at hacc
        simp [hacc, hreject t hacc, tilesAssign_self tiles a t hfind]
    rw [hstep] at hfalse ⊢
    exact ih st hfalse

theorem addWaterExisting_of_none_accepted (D : Collaborators) (cellPosition : CellPosition)
    (cellSize : Int) (transform : Transform)
    (hreject : ∀ t, (D.tileAddWater t cellPosition cellSize transform).1 = false →
      (D.tileAddWater t cellPosition cellSize transform).2 = t)
    (rest : TilesMap D) (tilesPositions : List TilePosition) (result : Bool)
    (hfalse : (addWaterExisting D cellPosition cellSize transform rest tilesPositions
      result).result = false) :
    addWaterExisting D cellPosition cellSize transform rest tilesPositions result =
      { tiles := rest, tilesPositions := tilesPositions, result := result } := by
  induction rest generalizing tilesPositions result with
  | nil => rfl
  | cons e rest ih =>
    obtain ⟨p, tile⟩ := e
    have hacc : (D.tileAddWater tile cellPosition cellSize transform).1 = false := by
      by_contra hne
      have htrue : (D.tileAddWater tile cellPosition cellSize transform).1 = true := by
        simpa using hne
      have hres := (addWaterExisting_result D cellPosition cellSize transform
        ((p, tile) :: rest) tilesPositions result).mpr
        (Or.inr ⟨(p, tile), List.mem_cons_self _ _, htrue⟩)
      rw [hres] at hfalse
      exact absurd hfalse (by decide)
    unfold addWaterExisting at hfalse ⊢
    simp only [hacc, Bool.false_or, if_false, Bool.false_eq_true] at hfalse ⊢
    rw [ih tilesPositions result hfalse, hreject tile hacc]

theorem addWater_of_false (D : Collaborators) (m : Manager D) (cellPosition : CellPosition)
    (cellSize : Int) (transform : Transform)
    (hreject : ∀ t, (D.tileAddWater t cellPosition cellSize transform).1 = false →
      (D.tileAddWater t cellPosition cellSize transform).2 = t)
    (hfresh : ∀ p, (D.tileAddWater (D.makeTile p m.mTilesGeneration) cellPosition cellSize
      transform).1 = true)
    (hfalse : (addWater D m cellPosition cellSize transform).1 = false) :
    (addWater D m cellPosition cellSize transform).2 =
      m.withWaterEntry cellPosition := by
  have hloop : addWaterLoop D m cellPosition cellSize transform =
      { tiles := m.mTiles, tilesPositions := (m.mWaterTilesPositions cellPosition).getD [],
        result := false } := by
    have hres : (addWaterLoop D m cellPosition cellSize transform).result = false := hfalse
    unfold addWaterLoop at hres ⊢
    dsimp only at hres ⊢
    by_cases hmax : cellSize = intMax
    · rw [if_pos hmax] at hres ⊢
      exact addWaterExisting_of_none_accepted D cellPosition cellSize transform hreject
        m.mTiles _ false hres
    · rw [if_neg hmax] at hres ⊢
      exact addWater_fold_of_none_accepted D m.mTilesGeneration cellPosition cellSize
        transform hreject hfresh _ _ hres
  unfold addWater
  simp only [hloop]
  rfl
/-- C22, as the code has it: a call of `addObject`, `removeObject` or `removeWater` that
reports no effect leaves the manager as it was (registry, both membership tables,
revision, tiles generation), and a call of `addWater` that returns false leaves it as
it was except for the entry of the cell in the water table, which the subscript
creates empty when it is missing. Assumed: a tile that refuses a call stays as it was,
a tile just constructed accepts the first object or water cell, and no tile of the
registry reports empty before the call. -/
theorem call_without_effect_keeps_state (D : Collaborators) (m : Manager D)
    (hquiet : RefusesQuietly D) (hfull : NoEmptyTile D m.mTiles) :
    (∀ id shape transform areaType, (addObject D m id shape transform areaType).1 = false →
      (addObject D m id shape transform areaType).2 = m) ∧
    (∀ id, (removeObject D m id).1 = none → (removeObject D m id).2 = m) ∧
    (∀ cellPosition, (removeWater D m cellPosition).1 = none →
      (removeWater D m cellPosition).2 = m) ∧
    (∀ cellPosition cellSize transform,
      (addWater D m cellPosition cellSize transform).1 = false →
        (addWater D m cellPosition cellSize transform).2 = m.withWaterEntry cellPosition) :=
  ⟨fun id shape transform areaType hfalse =>
      addObject_of_false D m id shape transform areaType
        (fun t => hquiet.rejectedObject t id shape transform areaType)
        (fun p => hquiet.freshObject p m.mTilesGeneration id shape transform areaType) hfalse,
    fun id hnone => removeObject_of_none D m id (fun t => hquiet.missedObject t id) hfull hnone,
    fun cellPosition hnone =>
      removeWater_of_none D m cellPosition (fun t => hquiet.missedWater t cellPosition)
        hfull hnone,
    fun cellPosition cellSize transform hfalse =>
      addWater_of_false D m cellPosition cellSize transform
        (fun t => hquiet.rejectedWater t cellPosition cellSize transform)
        (fun p => hquiet.freshWater p m.mTilesGeneration cellPosition cellSize transform)
        hfalse⟩

theorem SpecTile.refusesQuietly (shapeTiles : Shape → Transform → List TilePosition)
    (waterTiles : Int → Transform → List TilePosition) :
    RefusesQuietly (specCollaborators shapeTiles waterTiles) where
  freshObject := fun p g id shape transform areaType => by
    simp [specCollaborators, SpecTile.addObject]
  freshWater := fun p g cellPosition cellSize transform => by
    simp [specCollaborators, SpecTile.addWater]
  rejectedObject := fun t id shape transform areaType h => by
    simp only [specCollaborators] at h ⊢
    unfold SpecTile.addObject at h ⊢
    split at h
    · rename_i hany
      rw [if_pos hany]
    · simp at h
  rejectedWater := fun t cellPosition cellSize transform h => by
    simp only [specCollaborators] at h ⊢
    unfold SpecTile.addWater at h ⊢
    split at h
    · rename_i hany
      rw [if_pos hany]
    · simp at h
  missedObject := fun t id h => by
    simp only [specCollaborators] at h ⊢
    unfold SpecTile.removeObject at h ⊢
    split at h
    · rename_i hfind
      simp [hfind]
    · simp at h
  missedWater := fun t cellPosition h => by
    simp only [specCollaborators] at h ⊢
    unfold SpecTile.removeWater at h ⊢
    split at h
    · rename_i hfind
      simp [hfind]
    · simp at h

/-- Witness for C22: on the manager that holds the box and the water cell, the box and
the water cell are added a second time and an unknown id and an unknown cell are
removed; the four calls report no effect and the manager is as before, the water
table keeping the entry it had. -/
theorem call_without_effect_keeps_state_witness :
    RefusesQuietly testCollaborators ∧
    NoEmptyTile testCollaborators managerWithBoxAndWater.mTiles ∧
    (addObject testCollaborators managerWithBoxAndWater 7 0 0 0).1 = false ∧
    (addObject testCollaborators managerWithBoxAndWater 7 0 0 0).2 = managerWithBoxAndWater ∧
    (removeObject testCollaborators managerWithBoxAndWater 8).2 = managerWithBoxAndWater ∧
    (removeWater testCollaborators managerWithBoxAndWater (5, 5)).2 = managerWithBoxAndWater ∧
    (addWater testCollaborators managerWithBoxAndWater (0, 0) 3 0).1 = false ∧
    (addWater testCollaborators managerWithBoxAndWater (0, 0) 3 0).2 =
      managerWithBoxAndWater.withWaterEntry (0, 0) ∧
    (managerWithBoxAndWater.withWaterEntry (0, 0)).mWaterTilesPositions (0, 0) =
      managerWithBoxAndWater.mWaterTilesPositions (0, 0) :=
  have hfull : NoEmptyTile testCollaborators managerWithBoxAndWater.mTiles := by
    unfold NoEmptyTile
    decide
  have h := call_without_effect_keeps_state testCollaborators managerWithBoxAndWater
    (SpecTile.refusesQuietly blockTiles stripTiles) hfull
  ⟨SpecTile.refusesQuietly blockTiles stripTiles, hfull, by decide,
    h.1 7 0 0 0 (by decide), h.2.1 8 (by decide), h.2.2.1 (5, 5) (by decide), by decide,
    h.2.2.2 (0, 0) 3 0 (by decide), by decide⟩

/-- Counterexample to C22 as stated: on a newly constructed manager `addWater` with the
sentinel cell size finds no tile and returns false, and yet the water table, which had
no entry for the cell, has one afterwards (with no position in it). -/
theorem addWater_false_creates_entry :
    (addWater testCollaborators (Manager.empty testCollaborators) (0, 0) intMax 0).1 = false ∧
    (Manager.empty testCollaborators).mWaterTilesPositions (0, 0) = none ∧
    (addWater testCollaborators (Manager.empty testCollaborators) (0, 0) intMax 0).2.mWaterTilesPositions
      (0, 0) = some [] ∧
    (addWater testCollaborators (Manager.empty testCollaborators) (0, 0) intMax 0).2.mWaterTilesPositions
      ≠ (Manager.empty testCollaborators).mWaterTilesPositions := by
  refine ⟨by decide, rfl, by decide, ?_⟩
  intro h
  have h2 := congrFun h (0, 0)
  revert h2
  decide

theorem addObject_fold_covers (D : Collaborators) (gen : Nat) (id : ObjectId)
    (shape : Shape) (transform : Transform) (areaType : AreaType)
    (hfresh : ∀ p, (D.tileAddObject (D.makeTile p gen) id shape transform areaType).1 = true)
    (ps : List TilePosition) (st : TilesMap D × List TilePosition)
    (hst : ∀ q ∈ ps, tilesFind st.1 q = none ∨ q ∈ st.2) :
    ∀ q ∈ ps, q ∈ (ps.foldl (addObjectStep D gen id shape transform areaType) st).2 := by
  induction ps generalizing st with
  | nil => intro q hq; simp at hq
  | cons a ps ih =>
    have ha : a ∈ (addObjectStep D gen id shape transform areaType st a).2 := by
      rw [addObjectStep_snd]
      rcases hst a (List.mem_cons_self a ps) with hnone | hmem
      · have hacc : (D.tileAddObject (tileFor D gen st.1 a) id shape transform areaType).1
            = true := by
          unfold tileFor
          rw [hnone]
          exact hfresh a
        rw [if_pos hacc]
        simp
      · split
        · exact List.mem_append_left _ hmem
        · exact hmem
    have hnext : ∀ q ∈ ps, tilesFind (addObjectStep D gen id shape transform areaType st a).1 q
        = none ∨ q ∈ (addObjectStep D gen id shape transform areaType st a).2 := by
      intro q hq
      by_cases hqa : q = a
      · exact Or.inr (hqa ▸ ha)
      · rcases hst q (List.mem_cons_of_mem a hq) with hnone | hmem
        · left
          rw [addObjectStep_fst, addTile_find, if_neg hqa]
          exact hnone
        · right
          rw [addObjectStep_snd]
          split
          · exact List.mem_append_left _ hmem
          · exact hmem
    intro q hq
    rw [List.foldl_cons]
    rcases List.mem_cons.mp hq with hqa | hqps
    · rw [hqa]
      exact addObject_fold_acc_mono D gen id shape transform areaType ps _ a ha
    · exact ih _ hnext q hqps

theorem foldl_invariant {α β : Type} (P : β → Prop) (f : β → α → β)
    (hstep : ∀ b a, P b → P (f b a)) (l : List α) (b : β) (hb : P b) : P (l.foldl f b) := by
  induction l generalizing b with
  | nil => exact hb
  | cons a l ih => exact ih (f b a) (hstep b a hb)

theorem notEmpty_of_holdsObject {D : Collaborators} {holdsObject : D.Tile → ObjectId → Bool}
    {holdsWater : D.Tile → CellPosition → Bool} (hc : TileContents D holdsObject holdsWater)
    (t : D.Tile) (id : ObjectId) (h : holdsObject t id = true) : D.tileIsEmpty t = false := by
  cases hempty : D.tileIsEmpty t with
  | false => rfl
  | true =>
    have := ((hc.isEmpty_iff t).mp hempty).1 id
    rw [h] at this
    exact absurd this (by decide)

theorem notEmpty_of_holdsWater {D : Collaborators} {holdsObject : D.Tile → ObjectId → Bool}
    {holdsWater : D.Tile → CellPosition → Bool} (hc : TileContents D holdsObject holdsWater)
    (t : D.Tile) (cellPosition : CellPosition) (h : holdsWater t cellPosition = true) :
    D.tileIsEmpty t = false := by
  cases hempty : D.tileIsEmpty t with
  | false => rfl
  | true =>
    have := ((hc.isEmpty_iff t).mp hempty).2 cellPosition
    rw [h] at this
    exact absurd this (by decide)

theorem holds_of_notEmpty {D : Collaborators} {holdsObject : D.Tile → ObjectId → Bool}
    {holdsWater : D.Tile → CellPosition → Bool} (hc : TileContents D holdsObject holdsWater)
    (t : D.Tile) (h : D.tileIsEmpty t = false) :
    (∃ id, holdsObject t id = true) ∨ ∃ cellPosition, holdsWater t cellPosition = true := by
  by_contra hnot
  have hall : (∀ id, holdsObject t id = false) ∧
      (∀ cellPosition, holdsWater t cellPosition = false) := by
    constructor
    · intro id
      cases hh : holdsObject t id with
      | false => rfl
      | true => exact absurd (Or.inl ⟨id, hh⟩) hnot
    · intro c
      cases hh : holdsWater t c with
      | false => rfl
      | true => exact absurd (Or.inr ⟨c, hh⟩) hnot
  rw [(hc.isEmpty_iff t).mpr hall] at h
  exact absurd h (by decide)

/-- What the loop of `addObject` keeps true, for an id no tile of the registry held when
the call began: a tile holds the id only at a position already on the vector, what a
tile holds besides the id it held before the call, every position on the vector has a
tile holding the id, and a tile of the registry before the call is still there with
what it held. -/
theorem addObjectStep_contents {D : Collaborators} {holdsObject : D.Tile → ObjectId → Bool}
    {holdsWater : D.Tile → CellPosition → Bool} (hc : TileContents D holdsObject holdsWater)
    (before : TilesMap D) (gen : Nat) (id : ObjectId) (shape : Shape) (transform : Transform)
    (areaType : AreaType) (st : TilesMap D × List TilePosition) (a : TilePosition)
    (h : (∀ p t, tilesFind st.1 p = some t →
        (holdsObject t id = true → p ∈ st.2) ∧
        (∀ other, other ≠ id → holdsObject t other = true →
          ∃ t0, tilesFind before p = some t0 ∧ holdsObject t0 other = true) ∧
        (∀ c, holdsWater t c = true → ∃ t0, tilesFind before p = some t0 ∧ holdsWater t0 c = true) ∧
        D.tileIsEmpty t = false) ∧
      (∀ p ∈ st.2, ∃ t, tilesFind st.1 p = some t ∧ holdsObject t id = true) ∧
      (∀ p t0, tilesFind before p = some t0 → ∃ t, tilesFind st.1 p = some t ∧
        ∀ other, holdsObject t0 other = true → holdsObject t other = true)) :
    (∀ p t, tilesFind (addObjectStep D gen id shape transform areaType st a).1 p = some t →
        (holdsObject t id = true → p ∈ (addObjectStep D gen id shape transform areaType st a).2) ∧
        (∀ other, other ≠ id → holdsObject t other = true →
          ∃ t0, tilesFind before p = some t0 ∧ holdsObject t0 other = true) ∧
        (∀ c, holdsWater t c = true → ∃ t0, tilesFind before p = some t0 ∧ holdsWater t0 c = true) ∧
        D.tileIsEmpty t = false) ∧
      (∀ p ∈ (addObjectStep D gen id shape transform areaType st a).2,
        ∃ t, tilesFind (addObjectStep D gen id shape transform areaType st a).1 p = some t ∧
          holdsObject t id = true) ∧
      (∀ p t0, tilesFind before p = some t0 →
        ∃ t, tilesFind (addObjectStep D gen id shape transform areaType st a).1 p = some t ∧
          ∀ other, holdsObject t0 other = true → holdsObject t other = true) := by
  obtain ⟨h1, h2, h3⟩ := h
  have hfind : ∀ q, tilesFind (addObjectStep D gen id shape transform areaType st a).1 q =
      if q = a then
        some (D.tileAddObject (tileFor D gen st.1 a) id shape transform areaType).2
      else tilesFind st.1 q := by
    intro q
    rw [addObjectStep_fst, addTile_find]
  have hacc : ∀ q, q ∈ st.2 → q ∈ (addObjectStep D gen id shape transform areaType st a).2 := by
    intro q hq
    rw [addObjectStep_snd]
    split
    · exact List.mem_append_left _ hq
    · exact hq
  have hholds : holdsObject (D.tileAddObject (tileFor D gen st.1 a) id shape transform
      areaType).2 id = true :=
    (hc.addObject_object _ id shape transform areaType id).mpr (Or.inr rfl)
  have ha : a ∈ (addObjectStep D gen id shape transform areaType st a).2 := by
    rw [addObjectStep_snd, hc.addObject_result]
    cases hheld : holdsObject (tileFor D gen st.1 a) id with
    | false => simp
    | true =>
      simp only [Bool.not_true, Bool.false_eq_true, if_false]
      unfold tileFor at hheld
      cases hfa : tilesFind st.1 a with
      | none =>
        rw [hfa] at hheld
        dsimp only at hheld
        rw [hc.makeTile_object] at hheld
        exact absurd hheld (by decide)
      | some t =>
        rw [hfa] at hheld
        exact (h1 a t hfa).1 hheld
  refine ⟨fun p t hp => ?_, fun p hp => ?_, fun p t0 hp => ?_⟩
  · rw [hfind] at hp
    by_cases hpa : p = a
    · rw [if_pos hpa] at hp
      have ht : t = (D.tileAddObject (tileFor D gen st.1 a) id shape transform areaType).2 :=
        (Option.some.inj hp).symm
      subst hpa
      refine ⟨fun _ => ha, fun other hother hheld => ?_, fun c hheld => ?_,
        notEmpty_of_holdsObject hc t id (ht ▸ hholds)⟩
      · rw [ht] at hheld
        rcases (hc.addObject_object _ id shape transform areaType other).mp hheld with h | h
        · unfold tileFor at h
          cases hfa : tilesFind st.1 p with
          | none =>
            rw [hfa] at h
            dsimp only at h
            rw [hc.makeTile_object] at h
            exact absurd h (by decide)
          | some t1 =>
            rw [hfa] at h
            exact (h1 p t1 hfa).2.1 other hother h
        · exact absurd h hother
      · rw [ht, hc.addObject_water] at hheld
        unfold tileFor at hheld
        cases hfa : tilesFind st.1 p with
        | none =>
          rw [hfa] at hheld
          dsimp only at hheld
          rw [hc.makeTile_water] at hheld
          exact absurd hheld (by decide)
        | some t1 =>
          rw [hfa] at hheld
          exact (h1 p t1 hfa).2.2.1 c hheld
    · rw [if_neg hpa] at hp
      obtain ⟨k1, k2, k3, k4⟩ := h1 p t hp
      exact ⟨fun hh => hacc p (k1 hh), k2, k3, k4⟩
  · by_cases hpa : p = a
    · subst hpa
      exact ⟨_, by rw [hfind, if_pos rfl], hholds⟩
    · have hold : p ∈ st.2 := by
        rw [addObjectStep_snd] at hp
        split at hp
        · rcases List.mem_append.mp hp with h | h
          · exact h
          · exact absurd (List.mem_singleton.mp h) hpa
        · exact hp
      obtain ⟨t, hft, hht⟩ := h2 p hold
      exact ⟨t, by rw [hfind, if_neg hpa]; exact hft, hht⟩
  · obtain ⟨t, hft, hsub⟩ := h3 p t0 hp
    by_cases hpa : p = a
    · subst hpa
      refine ⟨_, by rw [hfind, if_pos rfl], fun other hheld => ?_⟩
      have htf : tileFor D gen st.1 p = t := by
        unfold tileFor
        rw [hft]
      rw [htf]
      exact (hc.addObject_object t id shape transform areaType other).mpr
        (Or.inl (hsub other hheld))
    · exact ⟨t, by rw [hfind, if_neg hpa]; exact hft, hsub⟩
theorem addObject_accounted {D : Collaborators} {holdsObject : D.Tile → ObjectId → Bool}
    {holdsWater : D.Tile → CellPosition → Bool} (hc : TileContents D holdsObject holdsWater)
    (m : Manager D) (id : ObjectId) (shape : Shape) (transform : Transform) (areaType : AreaType)
    (hacc : Accounted holdsObject holdsWater m) (hocc : Occupies holdsObject m)
    (hidle : IdleId holdsObject m id) :
    Accounted holdsObject holdsWater (addObject D m id shape transform areaType).2 ∧
    Occupies holdsObject (addObject D m id shape transform areaType).2 := by
  have hinv := foldl_invariant
    (fun st : TilesMap D × List TilePosition =>
      (∀ p t, tilesFind st.1 p = some t →
        (holdsObject t id = true → p ∈ st.2) ∧
        (∀ other, other ≠ id → holdsObject t other = true →
          ∃ t0, tilesFind m.mTiles p = some t0 ∧ holdsObject t0 other = true) ∧
        (∀ c, holdsWater t c = true →
          ∃ t0, tilesFind m.mTiles p = some t0 ∧ holdsWater t0 c = true) ∧
        D.tileIsEmpty t = false) ∧
      (∀ p ∈ st.2, ∃ t, tilesFind st.1 p = some t ∧ holdsObject t id = true) ∧
      (∀ p t0, tilesFind m.mTiles p = some t0 → ∃ t, tilesFind st.1 p = some t ∧
        ∀ other, holdsObject t0 other = true → holdsObject t other = true))
    (addObjectStep D m.mTilesGeneration id shape transform areaType)
    (fun st a h => addObjectStep_contents hc m.mTiles m.mTilesGeneration id shape transform
      areaType st a h)
    (D.shapeTiles shape transform) (m.mTiles, [])
    ⟨fun p t hp => ⟨fun hh => absurd hh (by rw [hidle p t hp]; decide),
        fun other _ hh => ⟨t, hp, hh⟩, fun c hh => ⟨t, hp, hh⟩, (hacc p t hp).2.2⟩,
      fun p hp => absurd hp (List.not_mem_nil p),
      fun p t0 hp => ⟨t0, hp, fun _ hh => hh⟩⟩
  obtain ⟨h1, h2, h3⟩ := hinv
  have htiles := addObject_tiles D m id shape transform areaType
  have hwater : (addObject D m id shape transform areaType).2.mWaterTilesPositions =
      m.mWaterTilesPositions := by
    unfold addObject
    dsimp only
    split <;> rfl
  have hother : ∀ other, other ≠ id →
      (addObject D m id shape transform areaType).2.mObjectsTilesPositions other =
        m.mObjectsTilesPositions other := by
    intro other hne
    unfold addObject
    dsimp only
    split
    · rfl
    · simp [Function.update, hne]
  have hself : ∀ p, p ∈ ((D.shapeTiles shape transform).foldl
      (addObjectStep D m.mTilesGeneration id shape transform areaType) (m.mTiles, [])).2 →
      ∃ positions, (addObject D m id shape transform areaType).2.mObjectsTilesPositions id =
        some positions ∧ (∀ q, q ∈ positions ↔ q ∈ ((D.shapeTiles shape transform).foldl
          (addObjectStep D m.mTilesGeneration id shape transform areaType) (m.mTiles, [])).2) := by
    intro p hp
    have htrue : (addObject D m id shape transform areaType).1 = true := by
      unfold addObject
      dsimp only
      split
      · rename_i hempty
        rw [List.isEmpty_iff.mp hempty] at hp
        exact absurd hp (List.not_mem_nil p)
      · rfl
    exact ⟨_, (addObject_recorded_of_true D m id shape transform areaType htrue).1,
      fun q => mem_sortTiles _ q⟩
  constructor
  · intro p t hp
    rw [htiles] at hp
    obtain ⟨k1, k2, k3, k4⟩ := h1 p t hp
    refine ⟨fun other hheld => ?_, fun c hheld => ?_, k4⟩
    · by_cases hne : other = id
      · subst hne
        obtain ⟨positions, hrec, hmem⟩ := hself p (k1 hheld)
        exact ⟨positions, hrec, (hmem p).mpr (k1 hheld)⟩
      · obtain ⟨t0, hf0, hh0⟩ := k2 other hne hheld
        rw [hother other hne]
        exact (hacc p t0 hf0).1 other hh0
    · obtain ⟨t0, hf0, hh0⟩ := k3 c hheld
      rw [hwater]
      exact (hacc p t0 hf0).2.1 c hh0
  · intro other hlive
    obtain ⟨p, t, hp, hheld⟩ := hlive
    rw [htiles] at hp
    obtain ⟨k1, k2, _, _⟩ := h1 p t hp
    by_cases hne : other = id
    · subst hne
      obtain ⟨positions, hrec, hmem⟩ := hself p (k1 hheld)
      refine ⟨positions, hrec, fun q hq => ?_⟩
      rw [htiles]
      exact h2 q ((hmem q).mp hq)
    · obtain ⟨t0, hf0, hh0⟩ := k2 other hne hheld
      obtain ⟨positions, hrec, hall⟩ := hocc other ⟨p, t0, hf0, hh0⟩
      refine ⟨positions, by rw [hother other hne]; exact hrec, fun q hq => ?_⟩
      obtain ⟨tq, hfq, hhq⟩ := hall q hq
      obtain ⟨t2, hf2, hsub⟩ := h3 q tq hfq
      rw [htiles]
      exact ⟨t2, hf2, hsub other hhq⟩
theorem removeObjectStep_find (D : Collaborators) (id : ObjectId)
    (st : Sweep D RemovedRecastMeshObject) (a q : TilePosition) :
    tilesFind (removeObjectStep D id st a).tiles q =
      if q = a then tileAfterRemove D id (tilesFind st.tiles a) else tilesFind st.tiles q := by
  rw [removeObjectStep_tiles, removeTile_find]

theorem removeObject_fold_find_of_not_mem (D : Collaborators) (id : ObjectId)
    (ps : List TilePosition) (st : Sweep D RemovedRecastMeshObject) (q : TilePosition)
    (hq : q ∉ ps) :
    tilesFind (ps.foldl (removeObjectStep D id) st).tiles q = tilesFind st.tiles q := by
  induction ps generalizing st with
  | nil => rfl
  | cons a ps ih =>
    rw [List.foldl_cons, ih _ (fun h => hq (List.mem_cons_of_mem a h)), removeObjectStep_find,
      if_neg (fun h : q = a => hq (by rw [h]; exact List.mem_cons_self a ps))]

theorem tileAfterRemove_eq_some (D : Collaborators) (id : ObjectId) (found : Option D.Tile)
    (t : D.Tile) (h : tileAfterRemove D id found = some t) :
    ∃ t0, found = some t0 ∧ t = (D.tileRemoveObject t0 id).2 ∧ D.tileIsEmpty t = false := by
  cases found with
  | none => simp [tileAfterRemove] at h
  | some t0 =>
    unfold tileAfterRemove at h
    dsimp only at h
    split at h
    · exact absurd h (by simp)
    · rename_i hempty
      have ht : t = (D.tileRemoveObject t0 id).2 := (Option.some.inj h).symm
      exact ⟨t0, rfl, ht, by rw [ht]; simpa using hempty⟩

/-- The tile `removeObject` leaves at a position of the list it has gone through does
not hold the id. -/
theorem removeObject_fold_idle {D : Collaborators} {holdsObject : D.Tile → ObjectId → Bool}
    {holdsWater : D.Tile → CellPosition → Bool} (hc : TileContents D holdsObject holdsWater)
    (id : ObjectId) (ps : List TilePosition) (st : Sweep D RemovedRecastMeshObject)
    (p : TilePosition) (t : D.Tile) (hp : p ∈ ps)
    (hfind : tilesFind (ps.foldl (removeObjectStep D id) st).tiles p = some t) :
    holdsObject t id = false := by
  induction ps generalizing st with
  | nil => exact absurd hp (List.not_mem_nil p)
  | cons a ps ih =>
    rw [List.foldl_cons] at hfind
    by_cases hrest : p ∈ ps
    · exact ih _ hrest hfind
    · have hpa : p = a := by
        rcases List.mem_cons.mp hp with h | h
        · exact h
        · exact absurd h hrest
      rw [removeObject_fold_find_of_not_mem D id ps _ p hrest, removeObjectStep_find,
        if_pos hpa] at hfind
      obtain ⟨t0, _, ht, _⟩ := tileAfterRemove_eq_some D id _ t hfind
      cases hheld : holdsObject t id with
      | false => rfl
      | true =>
        rw [ht] at hheld
        exact absurd rfl ((hc.removeObject_object t0 id id).mp hheld).2

theorem removeObjectStep_contents {D : Collaborators} {holdsObject : D.Tile → ObjectId → Bool}
    {holdsWater : D.Tile → CellPosition → Bool} (hc : TileContents D holdsObject holdsWater)
    (before : TilesMap D) (id : ObjectId) (st : Sweep D RemovedRecastMeshObject)
    (a : TilePosition)
    (h : (∀ p t, tilesFind st.tiles p = some t →
        ∃ t0, tilesFind before p = some t0 ∧
          (∀ other, holdsObject t other = true → holdsObject t0 other = true) ∧
          (∀ c, holdsWater t c = true → holdsWater t0 c = true) ∧
          D.tileIsEmpty t = false) ∧
      (∀ p t0, tilesFind before p = some t0 → ∀ other, other ≠ id →
        holdsObject t0 other = true →
          ∃ t, tilesFind st.tiles p = some t ∧ holdsObject t other = true)) :
    (∀ p t, tilesFind (removeObjectStep D id st a).tiles p = some t →
        ∃ t0, tilesFind before p = some t0 ∧
          (∀ other, holdsObject t other = true → holdsObject t0 other = true) ∧
          (∀ c, holdsWater t c = true → holdsWater t0 c = true) ∧
          D.tileIsEmpty t = false) ∧
      (∀ p t0, tilesFind before p = some t0 → ∀ other, other ≠ id →
        holdsObject t0 other = true →
          ∃ t, tilesFind (removeObjectStep D id st a).tiles p = some t ∧
            holdsObject t other = true) := by
  obtain ⟨h1, h3⟩ := h
  refine ⟨fun p t hp => ?_, fun p t0 hp other hne hheld => ?_⟩
  · rw [removeObjectStep_find] at hp
    by_cases hpa : p = a
    · rw [if_pos hpa] at hp
      obtain ⟨t1, hf1, ht, hfull⟩ := tileAfterRemove_eq_some D id _ t hp
      obtain ⟨t0, hf0, ko, kw, _⟩ := h1 a t1 hf1
      refine ⟨t0, hpa ▸ hf0, fun other hh => ?_, fun c hh => ?_, hfull⟩
      · rw [ht] at hh
        exact ko other ((hc.removeObject_object t1 id other).mp hh).1
      · rw [ht, hc.removeObject_water] at hh
        exact kw c hh
    · rw [if_neg hpa] at hp
      exact h1 p t hp
  · obtain ⟨t, hft, hht⟩ := h3 p t0 hp other hne hheld
    rw [removeObjectStep_find]
    by_cases hpa : p = a
    · rw [if_pos hpa]
      subst hpa
      have hkept : holdsObject (D.tileRemoveObject t id).2 other = true :=
        (hc.removeObject_object t id other).mpr ⟨hht, hne⟩
      refine ⟨(D.tileRemoveObject t id).2, ?_, hkept⟩
      rw [hft]
      simp [tileAfterRemove, notEmpty_of_holdsObject hc _ other hkept]
    · rw [if_neg hpa]
      exact ⟨t, hft, hht⟩

theorem removeObject_accounted {D : Collaborators} {holdsObject : D.Tile → ObjectId → Bool}
    {holdsWater : D.Tile → CellPosition → Bool} (hc : TileContents D holdsObject holdsWater)
    (m : Manager D) (id : ObjectId)
    (hacc : Accounted holdsObject holdsWater m) (hocc : Occupies holdsObject m) :
    Accounted holdsObject holdsWater (removeObject D m id).2 ∧
    Occupies holdsObject (removeObject D m id).2 ∧
    IdleId holdsObject (removeObject D m id).2 id := by
  cases hrec : m.mObjectsTilesPositions id with
  | none =>
    have hsame : removeObject D m id = (none, m) := by
      unfold removeObject
      rw [hrec]
    rw [hsame]
    refine ⟨hacc, hocc, fun p t hp => ?_⟩
    cases hheld : holdsObject t id with
    | false => rfl
    | true =>
      obtain ⟨positions, hsome, _⟩ := (hacc p t hp).1 id hheld
      rw [hrec] at hsome
      exact absurd hsome (by simp)
  | some positions =>
    have hinv := foldl_invariant
      (fun st : Sweep D RemovedRecastMeshObject =>
        (∀ p t, tilesFind st.tiles p = some t →
          ∃ t0, tilesFind m.mTiles p = some t0 ∧
            (∀ other, holdsObject t other = true → holdsObject t0 other = true) ∧
            (∀ c, holdsWater t c = true → holdsWater t0 c = true) ∧
            D.tileIsEmpty t = false) ∧
        (∀ p t0, tilesFind m.mTiles p = some t0 → ∀ other, other ≠ id →
          holdsObject t0 other = true →
            ∃ t, tilesFind st.tiles p = some t ∧ holdsObject t other = true))
      (removeObjectStep D id)
      (fun st a h => removeObjectStep_contents hc m.mTiles id st a h)
      positions { tiles := m.mTiles, generation := m.mTilesGeneration, result := none }
      ⟨fun p t hp => ⟨t, hp, fun _ hh => hh, fun _ hh => hh, (hacc p t hp).2.2⟩,
        fun p t0 hp other _ hheld => ⟨t0, hp, hheld⟩⟩
    obtain ⟨h1, h3⟩ := hinv
    have htables := removeObject_tables D m id
    have htiles : (removeObject D m id).2.mTiles = (positions.foldl (removeObjectStep D id)
        { tiles := m.mTiles, generation := m.mTilesGeneration, result := none }).tiles := by
      rw [removeObject_recorded D m id positions hrec]
    have hidle : IdleId holdsObject (removeObject D m id).2 id := by
      intro p t hp
      rw [htiles] at hp
      cases hheld : holdsObject t id with
      | false => rfl
      | true =>
        obtain ⟨t0, hf0, ko, _, _⟩ := h1 p t hp
        obtain ⟨recorded, hsome, hmem⟩ := (hacc p t0 hf0).1 id (ko id hheld)
        rw [hrec] at hsome
        have hpos : p ∈ positions := by
          rw [Option.some.inj hsome]
          exact hmem
        rw [removeObject_fold_idle hc id positions _ p t hpos hp] at hheld
        exact absurd hheld (by decide)
    refine ⟨fun p t hp => ?_, fun other hlive => ?_, hidle⟩
    · rw [htiles] at hp
      obtain ⟨t0, hf0, ko, kw, kfull⟩ := h1 p t hp
      refine ⟨fun other hheld => ?_, fun c hheld => ?_, kfull⟩
      · rw [htables.1]
        exact (hacc p t0 hf0).1 other (ko other hheld)
      · rw [htables.2]
        exact (hacc p t0 hf0).2.1 c (kw c hheld)
    · obtain ⟨p, t, hp, hheld⟩ := hlive
      have hne : other ≠ id := by
        intro heq
        rw [heq, hidle p t hp] at hheld
        exact absurd hheld (by decide)
      rw [htiles] at hp
      obtain ⟨t0, hf0, ko, _, _⟩ := h1 p t hp
      obtain ⟨recorded, hsome, hall⟩ := hocc other ⟨p, t0, hf0, ko other hheld⟩
      refine ⟨recorded, by rw [htables.1]; exact hsome, fun q hq => ?_⟩
      obtain ⟨tq, hfq, hhq⟩ := hall q hq
      rw [htiles]
      exact h3 q tq hfq other hne hhq
theorem tileAfterRemoveWater_eq_some (D : Collaborators) (cellPosition : CellPosition)
    (found : Option D.Tile) (t : D.Tile)
    (h : tileAfterRemoveWater D cellPosition found = some t) :
    ∃ t0, found = some t0 ∧ t = (D.tileRemoveWater t0 cellPosition).2 ∧
      D.tileIsEmpty t = false := by
  cases found with
  | none => simp [tileAfterRemoveWater] at h
  | some t0 =>
    unfold tileAfterRemoveWater at h
    dsimp only at h
    split at h
    · exact absurd h (by simp)
    · rename_i hempty
      have ht : t = (D.tileRemoveWater t0 cellPosition).2 := (Option.some.inj h).symm
      exact ⟨t0, rfl, ht, by rw [ht]; simpa using hempty⟩

theorem removeWaterStep_contents {D : Collaborators} {holdsObject : D.Tile → ObjectId → Bool}
    {holdsWater : D.Tile → CellPosition → Bool} (hc : TileContents D holdsObject holdsWater)
    (before : TilesMap D) (cellPosition : CellPosition) (st : Sweep D Water) (a : TilePosition)
    (h : (∀ p t, tilesFind st.tiles p = some t →
        ∃ t0, tilesFind before p = some t0 ∧
          (∀ other, holdsObject t other = true → holdsObject t0 other = true) ∧
          (∀ c, holdsWater t c = true → holdsWater t0 c = true) ∧
          D.tileIsEmpty t = false) ∧
      (∀ p t0, tilesFind before p = some t0 → ∀ other, holdsObject t0 other = true →
          ∃ t, tilesFind st.tiles p = some t ∧ holdsObject t other = true)) :
    (∀ p t, tilesFind (removeWaterStep D cellPosition st a).tiles p = some t →
        ∃ t0, tilesFind before p = some t0 ∧
          (∀ other, holdsObject t other = true → holdsObject t0 other = true) ∧
          (∀ c, holdsWater t c = true → holdsWater t0 c = true) ∧
          D.tileIsEmpty t = false) ∧
      (∀ p t0, tilesFind before p = some t0 → ∀ other, holdsObject t0 other = true →
          ∃ t, tilesFind (removeWaterStep D cellPosition st a).tiles p = some t ∧
            holdsObject t other = true) := by
  obtain ⟨h1, h3⟩ := h
  refine ⟨fun p t hp => ?_, fun p t0 hp other hheld => ?_⟩
  · rw [removeWaterStep_find] at hp
    by_cases hpa : p = a
    · rw [if_pos hpa] at hp
      obtain ⟨t1, hf1, ht, hfull⟩ := tileAfterRemoveWater_eq_some D cellPosition _ t hp
      obtain ⟨t0, hf0, ko, kw, _⟩ := h1 a t1 hf1
      refine ⟨t0, hpa ▸ hf0, fun other hh => ?_, fun c hh => ?_, hfull⟩
      · rw [ht, hc.removeWater_object] at hh
        exact ko other hh
      · rw [ht] at hh
        exact kw c ((hc.removeWater_water t1 cellPosition c).mp hh).1
    · rw [if_neg hpa] at hp
      exact h1 p t hp
  · obtain ⟨t, hft, hht⟩ := h3 p t0 hp other hheld
    rw [removeWaterStep_find]
    by_cases hpa : p = a
    · rw [if_pos hpa]
      subst hpa
      have hkept : holdsObject (D.tileRemoveWater t cellPosition).2 other = true := by
        rw [hc.removeWater_object]
        exact hht
      refine ⟨(D.tileRemoveWater t cellPosition).2, ?_, hkept⟩
      rw [hft]
      simp [tileAfterRemoveWater, notEmpty_of_holdsObject hc _ other hkept]
    · rw [if_neg hpa]
      exact ⟨t, hft, hht⟩

theorem removeWater_accounted {D : Collaborators} {holdsObject : D.Tile → ObjectId → Bool}
    {holdsWater : D.Tile → CellPosition → Bool} (hc : TileContents D holdsObject holdsWater)
    (m : Manager D) (cellPosition : CellPosition)
    (hacc : Accounted holdsObject holdsWater m) (hocc : Occupies holdsObject m) :
    Accounted holdsObject holdsWater (removeWater D m cellPosition).2 ∧
    Occupies holdsObject (removeWater D m cellPosition).2 := by
  cases hrec : m.mWaterTilesPositions cellPosition with
  | none =>
    have hsame : removeWater D m cellPosition = (none, m) := by
      unfold removeWater
      rw [hrec]
    rw [hsame]
    exact ⟨hacc, hocc⟩
  | some positions =>
    have hinv := foldl_invariant
      (fun st : Sweep D Water =>
        (∀ p t, tilesFind st.tiles p = some t →
          ∃ t0, tilesFind m.mTiles p = some t0 ∧
            (∀ other, holdsObject t other = true → holdsObject t0 other = true) ∧
            (∀ c, holdsWater t c = true → holdsWater t0 c = true) ∧
            D.tileIsEmpty t = false) ∧
        (∀ p t0, tilesFind m.mTiles p = some t0 → ∀ other, holdsObject t0 other = true →
            ∃ t, tilesFind st.tiles p = some t ∧ holdsObject t other = true))
      (removeWaterStep D cellPosition)
      (fun st a h => removeWaterStep_contents hc m.mTiles cellPosition st a h)
      positions { tiles := m.mTiles, generation := m.mTilesGeneration, result := none }
      ⟨fun p t hp => ⟨t, hp, fun _ hh => hh, fun _ hh => hh, (hacc p t hp).2.2⟩,
        fun p t0 hp other hheld => ⟨t0, hp, hheld⟩⟩
    obtain ⟨h1, h3⟩ := hinv
    have htables := removeWater_tables D m cellPosition
    have htiles : (removeWater D m cellPosition).2.mTiles =
        (positions.foldl (removeWaterStep D cellPosition)
          { tiles := m.mTiles, generation := m.mTilesGeneration, result := none }).tiles := by
      rw [removeWater_recorded D m cellPosition positions hrec]
    refine ⟨fun p t hp => ?_, fun other hlive => ?_⟩
    · rw [htiles] at hp
      obtain ⟨t0, hf0, ko, kw, kfull⟩ := h1 p t hp
      refine ⟨fun other hheld => ?_, fun c hheld => ?_, kfull⟩
      · rw [htables.1]
        exact (hacc p t0 hf0).1 other (ko other hheld)
      · rw [htables.2]
        exact (hacc p t0 hf0).2.1 c (kw c hheld)
    · obtain ⟨p, t, hp, hheld⟩ := hlive
      rw [htiles] at hp
      obtain ⟨t0, hf0, ko, _, _⟩ := h1 p t hp
      obtain ⟨recorded, hsome, hall⟩ := hocc other ⟨p, t0, hf0, ko other hheld⟩
      refine ⟨recorded, by rw [htables.1]; exact hsome, fun q hq => ?_⟩
      obtain ⟨tq, hfq, hhq⟩ := hall q hq
      rw [htiles]
      exact h3 q tq hfq other hhq
theorem addWaterStep_contents {D : Collaborators} {holdsObject : D.Tile → ObjectId → Bool}
    {holdsWater : D.Tile → CellPosition → Bool} (hc : TileContents D holdsObject holdsWater)
    (before : TilesMap D) (gen : Nat) (cellPosition : CellPosition) (cellSize : Int)
    (transform : Transform) (st : WaterState D) (a : TilePosition)
    (h : (∀ p t, tilesFind st.tiles p = some t →
        (holdsWater t cellPosition = true → p ∈ st.tilesPositions) ∧
        (∀ c, c ≠ cellPosition → holdsWater t c = true →
          ∃ t0, tilesFind before p = some t0 ∧ holdsWater t0 c = true) ∧
        (∀ other, holdsObject t other = true →
          ∃ t0, tilesFind before p = some t0 ∧ holdsObject t0 other = true) ∧
        D.tileIsEmpty t = false) ∧
      (∀ p t0, tilesFind before p = some t0 → ∃ t, tilesFind st.tiles p = some t ∧
        ∀ other, holdsObject t0 other = true → holdsObject t other = true)) :
    (∀ p t, tilesFind (addWaterStep D gen cellPosition cellSize transform st a).tiles p = some t →
        (holdsWater t cellPosition = true →
          p ∈ (addWaterStep D gen cellPosition cellSize transform st a).tilesPositions) ∧
        (∀ c, c ≠ cellPosition → holdsWater t c = true →
          ∃ t0, tilesFind before p = some t0 ∧ holdsWater t0 c = true) ∧
        (∀ other, holdsObject t other = true →
          ∃ t0, tilesFind before p = some t0 ∧ holdsObject t0 other = true) ∧
        D.tileIsEmpty t = false) ∧
      (∀ p t0, tilesFind before p = some t0 →
        ∃ t, tilesFind (addWaterStep D gen cellPosition cellSize transform st a).tiles p = some t ∧
          ∀ other, holdsObject t0 other = true → holdsObject t other = true) := by
  obtain ⟨h1, h3⟩ := h
  have hacc : ∀ q, q ∈ st.tilesPositions →
      q ∈ (addWaterStep D gen cellPosition cellSize transform st a).tilesPositions := by
    intro q hq
    rw [addWaterStep_tilesPositions]
    exact List.mem_append_left _ hq
  have hholds : holdsWater (D.tileAddWater (tileFor D gen st.tiles a) cellPosition cellSize
      transform).2 cellPosition = true :=
    (hc.addWater_water _ cellPosition cellSize transform cellPosition).mpr (Or.inr rfl)
  have ha : a ∈ (addWaterStep D gen cellPosition cellSize transform st a).tilesPositions := by
    rw [addWaterStep_tilesPositions, hc.addWater_result]
    cases hheld : holdsWater (tileFor D gen st.tiles a) cellPosition with
    | false => simp
    | true =>
      simp only [Bool.not_true, Bool.false_eq_true, if_false, List.append_nil]
      unfold tileFor at hheld
      cases hfa : tilesFind st.tiles a with
      | none =>
        rw [hfa] at hheld
        dsimp only at hheld
        rw [hc.makeTile_water] at hheld
        exact absurd hheld (by decide)
      | some t =>
        rw [hfa] at hheld
        exact (h1 a t hfa).1 hheld
  refine ⟨fun p t hp => ?_, fun p t0 hp => ?_⟩
  · rw [addWaterStep_find] at hp
    by_cases hpa : p = a
    · rw [if_pos hpa] at hp
      have ht : t = (D.tileAddWater (tileFor D gen st.tiles a) cellPosition cellSize
          transform).2 := (Option.some.inj hp).symm
      subst hpa
      refine ⟨fun _ => ha, fun c hne hheld => ?_, fun other hheld => ?_,
        notEmpty_of_holdsWater hc t cellPosition (ht ▸ hholds)⟩
      · rw [ht] at hheld
        rcases (hc.addWater_water _ cellPosition cellSize transform c).mp hheld with h | h
        · unfold tileFor at h
          cases hfa : tilesFind st.tiles p with
          | none =>
            rw [hfa] at h
            dsimp only at h
            rw [hc.makeTile_water] at h
            exact absurd h (by decide)
          | some t1 =>
            rw [hfa] at h
            exact (h1 p t1 hfa).2.1 c hne h
        · exact absurd h hne
      · rw [ht, hc.addWater_object] at hheld
        unfold tileFor at hheld
        cases hfa : tilesFind st.tiles p with
        | none =>
          rw [hfa] at hheld
          dsimp only at hheld
          rw [hc.makeTile_object] at hheld
          exact absurd hheld (by decide)
        | some t1 =>
          rw [hfa] at hheld
          exact (h1 p t1 hfa).2.2.1 other hheld
    · rw [if_neg hpa] at hp
      obtain ⟨k1, k2, k3, k4⟩ := h1 p t hp
      exact ⟨fun hh => hacc p (k1 hh), k2, k3, k4⟩
  · obtain ⟨t, hft, hsub⟩ := h3 p t0 hp
    rw [addWaterStep_find]
    by_cases hpa : p = a
    · subst hpa
      refine ⟨_, by rw [if_pos rfl], fun other hheld => ?_⟩
      have htf : tileFor D gen st.tiles p = t := by
        unfold tileFor
        rw [hft]
      rw [htf, hc.addWater_object]
      exact hsub other hheld
    · exact ⟨t, by rw [if_neg hpa]; exact hft, hsub⟩

theorem addWaterExisting_accepted_recorded (D : Collaborators) (cellPosition : CellPosition)
    (cellSize : Int) (transform : Transform) (rest : TilesMap D)
    (tilesPositions : List TilePosition) (result : Bool) (p : TilePosition) (t : D.Tile)
    (hfind : tilesFind rest p = some t)
    (haccepted : (D.tileAddWater t cellPosition cellSize transform).1 = true) :
    p ∈ (addWaterExisting D cellPosition cellSize transform rest tilesPositions
      result).tilesPositions := by
  induction rest generalizing tilesPositions result with
  | nil => simp [tilesFind] at hfind
  | cons e rest ih =>
    obtain ⟨q, u⟩ := e
    unfold addWaterExisting
    dsimp only
    by_cases hq : q = p
    · subst hq
      simp only [tilesFind, if_true, Option.some.injEq] at hfind
      subst hfind
      apply addWaterExisting_tilesPositions_mono
      rw [haccepted]
      simp
    · simp only [tilesFind, if_neg hq] at hfind
      exact ih _ _ hfind

theorem addWater_accounted {D : Collaborators} {holdsObject : D.Tile → ObjectId → Bool}
    {holdsWater : D.Tile → CellPosition → Bool} (hc : TileContents D holdsObject holdsWater)
    (m : Manager D) (cellPosition : CellPosition) (cellSize : Int) (transform : Transform)
    (hacc : Accounted holdsObject holdsWater m) (hocc : Occupies holdsObject m) :
    Accounted holdsObject holdsWater (addWater D m cellPosition cellSize transform).2 ∧
    Occupies holdsObject (addWater D m cellPosition cellSize transform).2 := by
  have hbase : ∀ p t, tilesFind m.mTiles p = some t → holdsWater t cellPosition = true →
      p ∈ (m.mWaterTilesPositions cellPosition).getD [] := by
    intro p t hp hheld
    obtain ⟨positions, hsome, hmem⟩ := (hacc p t hp).2.1 cellPosition hheld
    rw [hsome]
    exact hmem
  have hloop : (∀ p t, tilesFind (addWaterLoop D m cellPosition cellSize transform).tiles p
        = some t →
        (holdsWater t cellPosition = true →
          p ∈ (addWaterLoop D m cellPosition cellSize transform).tilesPositions) ∧
        (∀ c, c ≠ cellPosition → holdsWater t c = true →
          ∃ t0, tilesFind m.mTiles p = some t0 ∧ holdsWater t0 c = true) ∧
        (∀ other, holdsObject t other = true →
          ∃ t0, tilesFind m.mTiles p = some t0 ∧ holdsObject t0 other = true) ∧
        D.tileIsEmpty t = false) ∧
      (∀ p t0, tilesFind m.mTiles p = some t0 →
        ∃ t, tilesFind (addWaterLoop D m cellPosition cellSize transform).tiles p = some t ∧
          ∀ other, holdsObject t0 other = true → holdsObject t other = true) := by
    unfold addWaterLoop
    dsimp only
    by_cases hmax : cellSize = intMax
    · rw [if_pos hmax]
      have hfind : ∀ p, tilesFind (addWaterExisting D cellPosition cellSize transform m.mTiles
          ((m.mWaterTilesPositions cellPosition).getD []) false).tiles p =
          (tilesFind m.mTiles p).map
            (fun t => (D.tileAddWater t cellPosition cellSize transform).2) := by
        intro p
        rw [addWaterExisting_tiles]
        exact tilesFind_map D (fun t => (D.tileAddWater t cellPosition cellSize transform).2)
          m.mTiles p
      refine ⟨fun p t hp => ?_, fun p t0 hp => ?_⟩
      · rw [hfind] at hp
        cases hf0 : tilesFind m.mTiles p with
        | none =>
          rw [hf0] at hp
          exact absurd hp (by simp)
        | some t0 =>
          rw [hf0] at hp
          have ht : t = (D.tileAddWater t0 cellPosition cellSize transform).2 :=
            (Option.some.inj hp).symm
          have hholds : holdsWater t cellPosition = true := by
            rw [ht]
            exact (hc.addWater_water _ cellPosition cellSize transform cellPosition).mpr
              (Or.inr rfl)
          refine ⟨fun _ => ?_, fun c hne hheld => ?_, fun other hheld => ?_,
            notEmpty_of_holdsWater hc t cellPosition hholds⟩
          · cases hheld0 : holdsWater t0 cellPosition with
            | true =>
              exact addWaterExisting_tilesPositions_mono D cellPosition cellSize transform
                m.mTiles _ false p (hbase p t0 hf0 hheld0)
            | false =>
              exact addWaterExisting_accepted_recorded D cellPosition cellSize transform
                m.mTiles _ false p t0 hf0 (by rw [hc.addWater_result, hheld0]; rfl)
          · rw [ht] at hheld
            rcases (hc.addWater_water _ cellPosition cellSize transform c).mp hheld with h | h
            · exact ⟨t0, rfl, h⟩
            · exact absurd h hne
          · rw [ht, hc.addWater_object] at hheld
            exact ⟨t0, rfl, hheld⟩
      · refine ⟨(D.tileAddWater t0 cellPosition cellSize transform).2, ?_, fun other hheld => ?_⟩
        · rw [hfind, hp]
          rfl
        · rw [hc.addWater_object]
          exact hheld
    · rw [if_neg hmax]
      exact foldl_invariant
        (fun st : WaterState D =>
          (∀ p t, tilesFind st.tiles p = some t →
            (holdsWater t cellPosition = true → p ∈ st.tilesPositions) ∧
            (∀ c, c ≠ cellPosition → holdsWater t c = true →
              ∃ t0, tilesFind m.mTiles p = some t0 ∧ holdsWater t0 c = true) ∧
            (∀ other, holdsObject t other = true →
              ∃ t0, tilesFind m.mTiles p = some t0 ∧ holdsObject t0 other = true) ∧
            D.tileIsEmpty t = false) ∧
          (∀ p t0, tilesFind m.mTiles p = some t0 → ∃ t, tilesFind st.tiles p = some t ∧
            ∀ other, holdsObject t0 other = true → holdsObject t other = true))
        (addWaterStep D m.mTilesGeneration cellPosition cellSize transform)
        (fun st a h => addWaterStep_contents hc m.mTiles m.mTilesGeneration cellPosition
          cellSize transform st a h)
        (D.waterTiles cellSize transform)
        { tiles := m.mTiles, tilesPositions := (m.mWaterTilesPositions cellPosition).getD [],
          result := false }
        ⟨fun p t hp => ⟨fun hh => hbase p t hp hh, fun c _ hh => ⟨t, hp, hh⟩,
            fun other hh => ⟨t, hp, hh⟩, (hacc p t hp).2.2⟩,
          fun p t0 hp => ⟨t0, hp, fun _ hh => hh⟩⟩
  obtain ⟨h1, h3⟩ := hloop
  have htiles : (addWater D m cellPosition cellSize transform).2.mTiles =
      (addWaterLoop D m cellPosition cellSize transform).tiles := rfl
  have hobjects : (addWater D m cellPosition cellSize transform).2.mObjectsTilesPositions =
      m.mObjectsTilesPositions := rfl
  have hwater : (addWater D m cellPosition cellSize transform).2.mWaterTilesPositions =
      Function.update m.mWaterTilesPositions cellPosition
        (some (addWaterLoop D m cellPosition cellSize transform).tilesPositions) := rfl
  refine ⟨fun p t hp => ?_, fun other hlive => ?_⟩
  · rw [htiles] at hp
    obtain ⟨k1, k2, k3, k4⟩ := h1 p t hp
    refine ⟨fun other hheld => ?_, fun c hheld => ?_, k4⟩
    · obtain ⟨t0, hf0, hh0⟩ := k3 other hheld
      rw [hobjects]
      exact (hacc p t0 hf0).1 other hh0
    · rw [hwater]
      by_cases hne : c = cellPosition
      · subst hne
        exact ⟨_, by simp, k1 hheld⟩
      · obtain ⟨t0, hf0, hh0⟩ := k2 c hne hheld
        rw [Function.update_noteq hne]
        exact (hacc p t0 hf0).2.1 c hh0
  · obtain ⟨p, t, hp, hheld⟩ := hlive
    rw [htiles] at hp
    obtain ⟨t0, hf0, hh0⟩ := (h1 p t hp).2.2.1 other hheld
    obtain ⟨recorded, hsome, hall⟩ := hocc other ⟨p, t0, hf0, hh0⟩
    refine ⟨recorded, by rw [hobjects]; exact hsome, fun q hq => ?_⟩
    obtain ⟨tq, hfq, hhq⟩ := hall q hq
    obtain ⟨t2, hf2, hsub⟩ := h3 q tq hfq
    rw [htiles]
    exact ⟨t2, hf2, hsub other hhq⟩
theorem SpecTile.tileContents (shapeTiles : Shape → Transform → List TilePosition)
    (waterTiles : Int → Transform → List TilePosition) :
    TileContents (specCollaborators shapeTiles waterTiles) SpecTile.holdsObject
      SpecTile.holdsWater where
  makeTile_object := fun p g id => rfl
  makeTile_water := fun p g c => rfl
  addObject_result := fun t id shape transform areaType => by
    show (SpecTile.addObject t id shape transform areaType).1 = !SpecTile.holdsObject t id
    unfold SpecTile.addObject SpecTile.holdsObject
    split
    · rename_i h
      rw [h]
      rfl
    · rename_i h
      simp only [Bool.not_eq_true] at h
      rw [h]
      rfl
  addObject_rejected := fun t id shape transform areaType h => by
    simp only [specCollaborators] at h ⊢
    unfold SpecTile.addObject at h ⊢
    split at h
    · rename_i hany
      rw [if_pos hany]
    · simp at h
  addObject_object := fun t id shape transform areaType other => by
    show SpecTile.holdsObject (SpecTile.addObject t id shape transform areaType).2 other = true ↔
      SpecTile.holdsObject t other = true ∨ other = id
    unfold SpecTile.addObject SpecTile.holdsObject
    split
    · rename_i h
      constructor
      · exact Or.inl
      · rintro (h2 | h2)
        · exact h2
        · rw [h2]
          exact h
    · simp only [List.any_append, List.any_cons, List.any_nil, Bool.or_false, Bool.or_eq_true,
        beq_iff_eq]
      constructor
      · rintro (h2 | h2)
        · exact Or.inl h2
        · exact Or.inr h2.symm
      · rintro (h2 | h2)
        · exact Or.inl h2
        · exact Or.inr h2.symm
  addObject_water := fun t id shape transform areaType c => by
    show SpecTile.holdsWater (SpecTile.addObject t id shape transform areaType).2 c =
      SpecTile.holdsWater t c
    unfold SpecTile.addObject SpecTile.holdsWater
    split <;> rfl
  removeObject_object := fun t id other => by
    show SpecTile.holdsObject (SpecTile.removeObject t id).2 other = true ↔
      SpecTile.holdsObject t other = true ∧ other ≠ id
    unfold SpecTile.removeObject SpecTile.holdsObject
    split
    · rename_i hnone
      rw [List.find?_eq_none] at hnone
      simp only [List.any_eq_true, beq_iff_eq]
      constructor
      · rintro ⟨o, ho, heq⟩
        refine ⟨⟨o, ho, heq⟩, fun hid => ?_⟩
        have := hnone o ho
        simp only [beq_iff_eq] at this
        exact this (heq.trans hid)
      · exact fun h => h.1
    · simp only [List.any_eq_true, List.mem_filter, Bool.not_eq_true', beq_eq_false_iff_ne,
        beq_iff_eq]
      constructor
      · rintro ⟨o, ⟨ho, hne⟩, heq⟩
        exact ⟨⟨o, ho, heq⟩, fun hid => hne (heq.trans hid)⟩
      · rintro ⟨⟨o, ho, heq⟩, hne⟩
        exact ⟨o, ⟨ho, fun hid => hne (heq.symm.trans hid)⟩, heq⟩
  removeObject_water := fun t id c => by
    show SpecTile.holdsWater (SpecTile.removeObject t id).2 c = SpecTile.holdsWater t c
    unfold SpecTile.removeObject SpecTile.holdsWater
    split <;> rfl
  addWater_result := fun t c cellSize transform => by
    show (SpecTile.addWater t c cellSize transform).1 = !SpecTile.holdsWater t c
    unfold SpecTile.addWater SpecTile.holdsWater
    split
    · rename_i h
      rw [h]
      rfl
    · rename_i h
      simp only [Bool.not_eq_true] at h
      rw [h]
      rfl
  addWater_water := fun t c cellSize transform other => by
    show SpecTile.holdsWater (SpecTile.addWater t c cellSize transform).2 other = true ↔
      SpecTile.holdsWater t other = true ∨ other = c
    unfold SpecTile.addWater SpecTile.holdsWater
    split
    · rename_i h
      constructor
      · exact Or.inl
      · rintro (h2 | h2)
        · exact h2
        · rw [h2]
          exact h
    · simp only [List.any_append, List.any_cons, List.any_nil, Bool.or_false, Bool.or_eq_true,
        beq_iff_eq]
      constructor
      · rintro (h2 | h2)
        · exact Or.inl h2
        · exact Or.inr h2.symm
      · rintro (h2 | h2)
        · exact Or.inl h2
        · exact Or.inr h2.symm
  addWater_object := fun t c cellSize transform id => by
    show SpecTile.holdsObject (SpecTile.addWater t c cellSize transform).2 id =
      SpecTile.holdsObject t id
    unfold SpecTile.addWater SpecTile.holdsObject
    split <;> rfl
  removeWater_water := fun t c other => by
    show SpecTile.holdsWater (SpecTile.removeWater t c).2 other = true ↔
      SpecTile.holdsWater t other = true ∧ other ≠ c
    unfold SpecTile.removeWater SpecTile.holdsWater
    split
    · rename_i hnone
      rw [List.find?_eq_none] at hnone
      simp only [List.any_eq_true, beq_iff_eq]
      constructor
      · rintro ⟨o, ho, heq⟩
        refine ⟨⟨o, ho, heq⟩, fun hid => ?_⟩
        have := hnone o ho
        simp only [beq_iff_eq] at this
        exact this (heq.trans hid)
      · exact fun h => h.1
    · simp only [List.any_eq_true, List.mem_filter, Bool.not_eq_true', beq_eq_false_iff_ne,
        beq_iff_eq]
      constructor
      · rintro ⟨o, ⟨ho, hne⟩, heq⟩
        exact ⟨⟨o, ho, heq⟩, fun hid => hne (heq.trans hid)⟩
      · rintro ⟨⟨o, ho, heq⟩, hne⟩
        exact ⟨o, ⟨ho, fun hid => hne (heq.symm.trans hid)⟩, heq⟩
  removeWater_object := fun t c id => by
    show SpecTile.holdsObject (SpecTile.removeWater t c).2 id = SpecTile.holdsObject t id
    unfold SpecTile.removeWater SpecTile.holdsObject
    split <;> rfl
  isEmpty_iff := fun t => by
    show SpecTile.isEmpty t = true ↔
      (∀ id, SpecTile.holdsObject t id = false) ∧ (∀ c, SpecTile.holdsWater t c = false)
    unfold SpecTile.isEmpty SpecTile.holdsObject SpecTile.holdsWater
    rw [Bool.and_eq_true, List.isEmpty_iff, List.isEmpty_iff]
    constructor
    · rintro ⟨h1, h2⟩
      rw [h1, h2]
      exact ⟨fun _ => rfl, fun _ => rfl⟩
    · rintro ⟨h1, h2⟩
      constructor
      · cases hobjects : t.objects with
        | nil => rfl
        | cons o rest =>
          have := h1 o.1
          rw [hobjects] at this
          simp at this
      · cases hwater : t.water with
        | nil => rfl
        | cons w rest =>
          have := h2 w.1
          rw [hwater] at this
          simp at this
theorem reachedWithIdleIds_accounted {D : Collaborators}
    {holdsObject : D.Tile → ObjectId → Bool} {holdsWater : D.Tile → CellPosition → Bool}
    (hc : TileContents D holdsObject holdsWater) (m : Manager D)
    (hm : ReachedWithIdleIds D holdsObject m) :
    Accounted holdsObject holdsWater m ∧ Occupies holdsObject m := by
  induction hm with
  | empty =>
    constructor
    · intro p t hp
      simp [Manager.empty, tilesFind] at hp
    · rintro id ⟨p, t, hp, _⟩
      simp [Manager.empty, tilesFind] at hp
  | @addObject m id shape transform areaType _ hidle ih =>
    exact addObject_accounted hc m id shape transform areaType ih.1 ih.2 hidle
  | @removeObject m id _ ih =>
    exact ⟨(removeObject_accounted hc m id ih.1 ih.2).1,
      (removeObject_accounted hc m id ih.1 ih.2).2.1⟩
  | @addWater m cellPosition cellSize transform _ ih =>
    exact addWater_accounted hc m cellPosition cellSize transform ih.1 ih.2
  | @removeWater m cellPosition _ ih =>
    exact removeWater_accounted hc m cellPosition ih.1 ih.2

theorem recorded_of_accounted {D : Collaborators} {holdsObject : D.Tile → ObjectId → Bool}
    {holdsWater : D.Tile → CellPosition → Bool} (hc : TileContents D holdsObject holdsWater)
    (m : Manager D) (hacc : Accounted holdsObject holdsWater m) (p : TilePosition)
    (hp : hasTile D m p = true) : Recorded m p := by
  unfold hasTile at hp
  cases hfind : tilesFind m.mTiles p with
  | none =>
    rw [hfind] at hp
    simp at hp
  | some t =>
    obtain ⟨hobjects, hwater, hfull⟩ := hacc p t hfind
    rcases holds_of_notEmpty hc t hfull with ⟨id, hheld⟩ | ⟨c, hheld⟩
    · obtain ⟨positions, hrec, hmem⟩ := hobjects id hheld
      exact Or.inl ⟨id, positions, hrec, hmem⟩
    · obtain ⟨positions, hrec, hmem⟩ := hwater c hheld
      exact Or.inr ⟨c, positions, hrec, hmem⟩

theorem idleId_of_forall_mem {D : Collaborators} (holdsObject : D.Tile → ObjectId → Bool)
    (m : Manager D) (id : ObjectId) (h : ∀ e ∈ m.mTiles, holdsObject e.2 id = false) :
    IdleId holdsObject m id :=
  fun p t hp => h (p, t) (tilesFind_mem m.mTiles p t hp)

/-- C18 (as amended): in every state reached from a newly constructed manager by
`addObject` calls for ids that no tile holds at the time of the call (new ids, and ids
removed since they were last added) and by `removeObject`, `addWater` and `removeWater`
calls, a tile exists at a position only if some object id or water cell has the
position in its recorded list, and an object some tile still holds has a tile at
every position of its recorded list; right after `removeObject` no tile holds the id,
so the id may be added again; and in the states reached without any `removeObject` or
`removeWater` call, by `addObject` calls for ids that are not yet keys, a tile exists
at a position exactly when the position is recorded. Assumed of the tiles is that a
tile is a set of object ids and water cells (`TileContents`). -/
theorem tile_exists_only_where_recorded (D : Collaborators)
    (holdsObject : D.Tile → ObjectId → Bool) (holdsWater : D.Tile → CellPosition → Bool)
    (hc : TileContents D holdsObject holdsWater) :
    (∀ m, ReachedWithIdleIds D holdsObject m → ∀ p, hasTile D m p = true → Recorded m p) ∧
    (∀ m, ReachedWithIdleIds D holdsObject m → ∀ id, LiveId holdsObject m id →
      ∃ positions, m.mObjectsTilesPositions id = some positions ∧
        ∀ q ∈ positions, hasTile D m q = true) ∧
    (∀ m, ReachedWithIdleIds D holdsObject m →
      ∀ id, IdleId holdsObject (removeObject D m id).2 id) ∧
    (∀ m, ReachedByAdding D m → ∀ p, hasTile D m p = true ↔ Recorded m p) := by
  have hfreshObject : ∀ p g id shape transform areaType,
      (D.tileAddObject (D.makeTile p g) id shape transform areaType).1 = true := by
    intro p g id shape transform areaType
    rw [hc.addObject_result, hc.makeTile_object]
    rfl
  have hfreshWater : ∀ p g cellPosition cellSize transform,
      (D.tileAddWater (D.makeTile p g) cellPosition cellSize transform).1 = true := by
    intro p g cellPosition cellSize transform
    rw [hc.addWater_result, hc.makeTile_water]
    rfl
  refine ⟨fun m hm p hp => ?_, fun m hm id hlive => ?_, fun m hm id => ?_,
    fun m hm p => ⟨fun hp => ?_, fun hp => ?_⟩⟩
  · exact recorded_of_accounted hc m (reachedWithIdleIds_accounted hc m hm).1 p hp
  · obtain ⟨positions, hrec, hall⟩ := (reachedWithIdleIds_accounted hc m hm).2 id hlive
    refine ⟨positions, hrec, fun q hq => ?_⟩
    obtain ⟨t, hfind, _⟩ := hall q hq
    unfold hasTile
    rw [hfind]
    rfl
  · obtain ⟨hacc, hocc⟩ := reachedWithIdleIds_accounted hc m hm
    exact (removeObject_accounted hc m id hacc hocc).2.2
  · exact recorded_of_hasTile D hfreshObject hfreshWater m
      (ReachedByAdding.reachedWithNewIds D m hm) p hp
  · exact hasTile_of_recorded D m hm p hp

/-- Witness for C18: the box and a water cell are added, the box is removed and then
added again, under its id, one tile to the right; the state is among those the
theorem covers, and the tile at `(1, -1)` is recorded for the box. -/
theorem tile_exists_only_where_recorded_witness :
    TileContents testCollaborators SpecTile.holdsObject SpecTile.holdsWater ∧
    managerAfterRemovedBox.mObjectsTilesPositions 7 =
      some [⟨-1, -1⟩, ⟨-1, 0⟩, ⟨0, -1⟩, ⟨0, 0⟩] ∧
    ReachedWithIdleIds testCollaborators SpecTile.holdsObject managerWithBoxAddedAgain ∧
    hasTile testCollaborators managerWithBoxAddedAgain ⟨1, -1⟩ = true ∧
    Recorded managerWithBoxAddedAgain ⟨1, -1⟩ :=
  have hc := SpecTile.tileContents blockTiles stripTiles
  have hreached : ReachedWithIdleIds testCollaborators SpecTile.holdsObject
      managerWithBoxAddedAgain :=
    ReachedWithIdleIds.addObject 7 0 1 0
      (ReachedWithIdleIds.removeObject 7
        (ReachedWithIdleIds.addWater (0, 0) 3 0
          (ReachedWithIdleIds.addObject 7 0 0 0 ReachedWithIdleIds.empty
            (idleId_of_forall_mem SpecTile.holdsObject (Manager.empty testCollaborators) 7
              (by decide)))))
      (idleId_of_forall_mem SpecTile.holdsObject managerAfterRemovedBox 7 (by decide))
  ⟨hc, by decide, hreached, by decide,
    (tile_exists_only_where_recorded testCollaborators SpecTile.holdsObject
      SpecTile.holdsWater hc).1 managerWithBoxAddedAgain hreached ⟨1, -1⟩ (by decide)⟩

/-- C19 (as amended): in every state reached without adding an id a tile still holds,
`addObject` for an id that is a key of the object table and that some tile still holds
(the object was added and not removed since), with a shape and transform whose tile
positions are all in the list recorded for the id, returns false and leaves the
manager as it was: registry, both tables, revision and tiles generation. For an id no
tile holds, also one that is still a key because `removeObject` left its entry,
`addObject` returns true exactly when the query yields a position. Assumed of the
tiles is that a tile is a set of object ids and water cells (`TileContents`). -/
theorem addObject_live_id_is_rejected (D : Collaborators)
    (holdsObject : D.Tile → ObjectId → Bool) (holdsWater : D.Tile → CellPosition → Bool)
    (hc : TileContents D holdsObject holdsWater) :
    (∀ m, ReachedWithIdleIds D holdsObject m →
      ∀ id positions shape transform areaType,
        m.mObjectsTilesPositions id = some positions → LiveId holdsObject m id →
        (∀ q ∈ D.shapeTiles shape transform, q ∈ positions) →
        addObject D m id shape transform areaType = (false, m)) ∧
    (∀ (m : Manager D) id shape transform areaType, IdleId holdsObject m id →
      ((addObject D m id shape transform areaType).1 = true ↔
        D.shapeTiles shape transform ≠ [])) := by
  constructor
  · intro m hm id positions shape transform areaType hrec hlive hsub
    obtain ⟨recorded, hsome, hall⟩ := (reachedWithIdleIds_accounted hc m hm).2 id hlive
    rw [hrec] at hsome
    have hpos : positions = recorded := Option.some.inj hsome
    have hrej : ∀ q ∈ D.shapeTiles shape transform, ∃ t, tilesFind m.mTiles q = some t ∧
        D.tileAddObject t id shape transform areaType = (false, t) := by
      intro q hq
      obtain ⟨t, hfind, hheld⟩ := hall q (hpos ▸ hsub q hq)
      have hres : (D.tileAddObject t id shape transform areaType).1 = false := by
        rw [hc.addObject_result, hheld]
        rfl
      exact ⟨t, hfind, Prod.ext hres (hc.addObject_rejected t id shape transform areaType hres)⟩
    unfold addObject
    rw [addObject_fold_all_rejected D m.mTilesGeneration id shape transform areaType
      (D.shapeTiles shape transform) (m.mTiles, []) hrej]
    rfl
  · intro m id shape transform areaType hidle
    have hfirst : ∀ a, (D.tileAddObject (tileFor D m.mTilesGeneration m.mTiles a) id shape
        transform areaType).1 = true := by
      intro a
      have hheld : holdsObject (tileFor D m.mTilesGeneration m.mTiles a) id = false := by
        unfold tileFor
        cases hfind : tilesFind m.mTiles a with
        | none => exact hc.makeTile_object a _ id
        | some t => exact hidle a t hfind
      rw [hc.addObject_result, hheld]
      rfl
    have hnonempty := addObject_fold_nonempty D m.mTilesGeneration id shape transform areaType
      (D.shapeTiles shape transform) (m.mTiles, [])
    unfold addObject
    dsimp only
    split
    · rename_i hempty
      have hnil := List.isEmpty_iff.mp hempty
      constructor
      · intro h
        simp at h
      · intro hne
        cases hps : D.shapeTiles shape transform with
        | nil => exact absurd hps hne
        | cons a rest =>
          exact absurd hnil (hnonempty.mpr (Or.inr ⟨[], a, rest, by rw [hps]; rfl, hfirst a⟩))
    · rename_i hfull
      constructor
      · intro _ hps
        apply hfull
        rw [hps]
        rfl
      · intro _
        rfl

/-- Witness for C19: the box of the repository's tests is added again with the shape and
transform it was recorded with, as in the test
`add_object_for_existing_object_should_return_false`; after its removal the id is still
a key and is added like a new one. -/
theorem addObject_live_id_is_rejected_witness :
    TileContents testCollaborators SpecTile.holdsObject SpecTile.holdsWater ∧
    ReachedWithIdleIds testCollaborators SpecTile.holdsObject managerWithBox ∧
    managerWithBox.mObjectsTilesPositions 7 = some [⟨-1, -1⟩, ⟨-1, 0⟩, ⟨0, -1⟩, ⟨0, 0⟩] ∧
    LiveId SpecTile.holdsObject managerWithBox 7 ∧
    (∀ q ∈ testCollaborators.shapeTiles 0 0,
      q ∈ ([⟨-1, -1⟩, ⟨-1, 0⟩, ⟨0, -1⟩, ⟨0, 0⟩] : List TilePosition)) ∧
    addObject testCollaborators managerWithBox 7 0 0 0 = (false, managerWithBox) ∧
    managerAfterRemovedBox.mObjectsTilesPositions 7 =
      some [⟨-1, -1⟩, ⟨-1, 0⟩, ⟨0, -1⟩, ⟨0, 0⟩] ∧
    IdleId SpecTile.holdsObject managerAfterRemovedBox 7 ∧
    (addObject testCollaborators managerAfterRemovedBox 7 0 0 0).1 = true :=
  have hc := SpecTile.tileContents blockTiles stripTiles
  have hreached : ReachedWithIdleIds testCollaborators SpecTile.holdsObject managerWithBox :=
    ReachedWithIdleIds.addObject 7 0 0 0 ReachedWithIdleIds.empty
      (idleId_of_forall_mem SpecTile.holdsObject (Manager.empty testCollaborators) 7
        (by decide))
  have hlive : LiveId SpecTile.holdsObject managerWithBox 7 :=
    ⟨⟨0, 0⟩, (testCollaborators.tileAddObject (testCollaborators.makeTile ⟨0, 0⟩ 0) 7 0 0 0).2,
      rfl, rfl⟩
  have hidle : IdleId SpecTile.holdsObject managerAfterRemovedBox 7 :=
    idleId_of_forall_mem SpecTile.holdsObject managerAfterRemovedBox 7 (by decide)
  have h := addObject_live_id_is_rejected testCollaborators SpecTile.holdsObject
    SpecTile.holdsWater hc
  ⟨hc, hreached, by decide, hlive, by decide,
    h.1 managerWithBox hreached 7 [⟨-1, -1⟩, ⟨-1, 0⟩, ⟨0, -1⟩, ⟨0, 0⟩] 0 0 0 (by decide) hlive
      (by decide),
    by decide, hidle, (h.2 managerAfterRemovedBox 7 0 0 0 hidle).mpr (by decide)⟩

end DetourNavigator

namespace MWMechanics

/-! # Properties of the repair -/

theorem wrapInt_of_fits (z : Int) (hlow : -2147483648 ≤ z) (hhigh : z ≤ 2147483647) :
    wrapInt z = z := by
  unfold wrapInt
  omega

/-- C27: in `Repair::repair`, on a successful roll the repair amount `y` is at least 1
and the new charge of the item is `min(oldCharge + y, maxHealth)`; so the new charge
does not exceed the maximum health of the item, and it is strictly greater than the
old charge whenever the old charge is below the maximum health. The sum
`oldCharge + y` is assumed to fit in an `int`. -/
theorem repair_raises_charge_up_to_max (rawAmount charge maxHealth : Int)
    (hcharge : -2147483648 ≤ charge)
    (hfits : charge + repairAmount rawAmount ≤ 2147483647) :
    1 ≤ repairAmount rawAmount ∧
    Repair.repair true rawAmount charge maxHealth =
      min (charge + repairAmount rawAmount) maxHealth ∧
    Repair.repair true rawAmount charge maxHealth ≤ maxHealth ∧
    (charge < maxHealth → charge < Repair.repair true rawAmount charge maxHealth) := by
  have hy : 1 ≤ repairAmount rawAmount := le_max_left 1 rawAmount
  have hwrap : wrapInt (charge + repairAmount rawAmount) = charge + repairAmount rawAmount :=
    wrapInt_of_fits _ (by omega) hfits
  have hnew : Repair.repair true rawAmount charge maxHealth =
      min (charge + repairAmount rawAmount) maxHealth := by
    simp [Repair.repair, repairedCharge, hwrap]
  refine ⟨hy, hnew, ?_, fun hlt => ?_⟩
  · rw [hnew]
    exact min_le_right _ _
  · rw [hnew]
    exact lt_min (by omega) hlt

/-- Witness for C27: an item at charge 40 of 100, repaired with a cast amount of 0
(raised to 1) and with a cast amount of 75 (capped at the maximum). -/
theorem repair_raises_charge_up_to_max_witness :
    (-2147483648 : Int) ≤ 40 ∧
    (40 : Int) + repairAmount 0 ≤ 2147483647 ∧
    repairAmount 0 = 1 ∧
    Repair.repair true 0 40 100 = 41 ∧
    Repair.repair true 75 40 100 = 100 ∧
    ((40 : Int) < 100 → 40 < Repair.repair true 0 40 100) :=
  ⟨by decide, by decide, by decide, by decide, by decide,
    (repair_raises_charge_up_to_max 0 40 100 (by decide) (by decide)).2.2.2⟩

end MWMechanics
